import Mathlib

/-!
# Metric plot calculator: `catboost/libs/algo/plot.cpp`

A shallow embedding of `TMetricsPlotCalcer` and `CreateMetricCalcer`.

Conventions of the embedding.

* `TVector<T>` is `List T`; a `TVector<TVector<double>>` is a list of rows.
  Every indexed access is bounds-checked and an access outside the vector
  (undefined behaviour in C++) is the error `TError.outOfBounds`.
* `double` and `float` values are elements of one type `V`; the claims about
  sums are stated in exact arithmetic (`V` an additive commutative monoid or
  group).  `TMetricHolder` is a type `S` with `0` (the default holder) and `+`
  (`TMetricHolder::Add`).
* Iteration counters (`First`, `Last`, `Step`, `nextBatchStart`, `idx`,
  `plotLineIndex`, `plotSize`) are `ui32`: naturals with explicit reduction
  modulo `2 ^ 32`.  Container sizes are naturals; conversions of a container
  size between `size_t`, `ui32` and `int` are taken to be the identity.
* An exception (`CB_ENSURE`, a failed stream operation) is `Except.error`.
* The parallel loops (`NPar::ParallelFor`) write disjoint cells and are
  run sequentially.
* The temporary directory is part of the state: the file whose name was
  generated for checkpoint ordinal `k` is addressed by `k`.
-/

namespace Plot

/-! ## Machine integers -/

/-- Reduction of a natural number to `ui32`. -/
def ui32 (n : Nat) : Nat := n % 4294967296

/-- Conversion `int -> ui32` (the value modulo `2 ^ 32`). -/
def toUi32 (x : Int) : Nat := (x % 4294967296).toNat

/-- Conversion `ui32 -> int`, the cast `(int)x`. -/
def toInt (n : Nat) : Int :=
  if n % 4294967296 < 2147483648 then ((n % 4294967296 : Nat) : Int)
  else ((n % 4294967296 : Nat) : Int) - 4294967296

/-! ## Errors and vectors -/

/-- The exceptions the calculator can raise. -/
inductive TError where
  /-- The function `CB_ENSURE(Iterations.size() == plotSize)` -/
  | iterationsMismatch
  /-- The function `CB_ENSURE(GetErrorType() == PerObjectError, "Error: we don't support non-additive pairwise metrics currenty")` -/
  | nonAdditivePairwise
  /-- The function `CheckTarget(target, lossFunction)` rejected the target -/
  | badTarget
  /-- The function `CB_ENSURE(pool.Pairs.size())` -/
  | noPairs
  /-- The function `EnsureCorrectParams()` rejected the window -/
  | incorrectParams
  /-- an index outside its vector -/
  | outOfBounds
  /-- The function `TIFStream` on a file that does not exist -/
  | fileNotFound
  /-- The function `::Load` at the end of the stream -/
  | loadEof
  deriving DecidableEq, Repr

/-- A `TVector<TVector<double>>`: a list of rows (one per dimension). -/
abbrev TMatrix (V : Type) := List (List V)

/-- Checked read `xs[i]`. -/
def getAt {α : Type} (xs : List α) (i : Nat) : Except TError α :=
  match xs[i]? with
  | some x => .ok x
  | none => .error .outOfBounds

/-- Checked write `xs[i] = x`. -/
def setAt {α : Type} (xs : List α) (i : Nat) (x : α) : Except TError (List α) :=
  if i < xs.length then .ok (xs.set i x) else .error .outOfBounds

/-- Checked write `m[dim][i] = x`. -/
def setAt2 {α : Type} (m : List (List α)) (dim i : Nat) (x : α) :
    Except TError (List (List α)) :=
  match m[dim]? with
  | none => .error .outOfBounds
  | some row =>
    match setAt row i x with
    | .error e => .error e
    | .ok row1 => .ok (m.set dim row1)

/-- The statement `xs.resize(n)` with `d` the value-initialised element. -/
def resize {α : Type} (xs : List α) (n : Nat) (d : α) : List α :=
  xs.take n ++ List.replicate (n - xs.length) d

/-- The statement `for (ui32 i = 0; i < n; ++i) body` over a state `σ`, stopping at the first
exception. -/
def forRange {σ : Type} (n : Nat) (body : Nat → σ → Except TError σ) (s : σ) :
    Except TError σ :=
  (List.range n).foldlM (fun s i => body i s) s

/-! ## External collaborators -/

/-- Modelled from the spec: `EErrorType` is declared in `metric.h`, which is
not part of the sources; the spec gives `errorType() -> {PerObject, Pairwise}`. -/
inductive EErrorType where
  | PerObjectError
  | PairwiseError
  deriving DecidableEq, Repr

/-- A pair of documents (`TPair`); the calculator only looks at whether the
pair list is empty. -/
structure TPair where
  WinnerId : Nat
  LoserId : Nat
  deriving DecidableEq, Repr

/-- The capability `IMetric` as the calculator uses it.  `CheckTarget target`
stands for `CheckTarget(target, ParseLossType(GetDescription()))`; `Eval` and
`EvalPairwise` take the range `[begin, end)` as `int`s. -/
structure IMetric (V S : Type) where
  IsAdditiveMetric : Bool
  GetErrorType : EErrorType
  CheckTarget : List V → Bool
  Eval : TMatrix V → List V → List V → Int → Int → S
  EvalPairwise : TMatrix V → List TPair → Int → Int → S
  GetFinalError : S → V

/-- The document storage `pool.Docs`; `DocCount` is `GetDocCount()`. -/
structure TDocumentStorage (V : Type) where
  Target : List V
  Weight : List V
  DocCount : Nat

/-- The dataset `TPool`. -/
structure TPool (V : Type) where
  Docs : TDocumentStorage V
  Pairs : List TPair

/-- The model `TFullModel` together with the scoring applier:
`ApplyModelMulti pool b e` is the matrix that
`TModelCalcerOnPool(Model, pool, Executor).ApplyModelMulti(RawFormulaVal, b, e, &out)`
stores in `out`. -/
structure TFullModel (V : Type) where
  ApproxDimension : Nat
  TreeCount : Nat
  ApplyModelMulti : TPool V → Int → Int → TMatrix V

/-! ## The calculator -/

/-- The member `NonAdditiveMetricsData`.  An entry of `ApproxFiles` is `none`
for the empty string and `some path` for a generated file name. -/
structure TNonAdditiveMetricData (V : Type) where
  ApproxFiles : List (Option Nat)
  Target : List V
  Weights : List V

/-- The temporary directory `TmpDir`: whether it exists and the content of each
file in it, a sequence of records (one saved `TVector<double>` each). -/
structure TTmpDir (V : Type) where
  Exists : Bool
  Files : Nat → Option (List (List V))

/-- The state of a `TMetricsPlotCalcer`. -/
structure TMetricsPlotCalcer (V S : Type) where
  Model : TFullModel V
  First : Nat
  Last : Nat
  Step : Nat
  Metrics : List (IMetric V S)
  MetricPlots : List (List S)
  Iterations : List Nat
  NonAdditiveMetricsData : TNonAdditiveMetricData V
  DeleteTmpDirOnExitFlag : Bool
  TmpDir : TTmpDir V

section Code

variable {V S : Type}

/-- Modelled from the spec: `HasNonAdditiveMetric` is defined in `plot.h`, which
is not part of the sources; the spec runs the spill store and the deferred pass
"only if any metric is non-additive". -/
def HasNonAdditiveMetric (self : TMetricsPlotCalcer V S) : Bool :=
  self.Metrics.any (fun m => !m.IsAdditiveMetric)

/-- The function `TMetricsPlotCalcer::ComputeMetric` (lines 46-70). -/
def ComputeMetric (metric : IMetric V S) (pool : TPool V) (target weights : List V)
    (approx : TMatrix V) : Except TError S :=
  if metric.CheckTarget target = false then .error .badTarget
  else
    let docCount : Int := (target.length : Int)
    if metric.GetErrorType = EErrorType.PerObjectError then
      .ok (metric.Eval approx target weights 0 docCount)
    else if pool.Pairs.length = 0 then .error .noPairs
    else .ok (metric.EvalPairwise approx pool.Pairs 0 docCount)

/-- The body of the `ParallelFor` of `Append`: `(*dst)[dim][i] += approx[dim][i]`. -/
def AppendCell [Add V] (approx : TMatrix V) (dim i : Nat) (dst : TMatrix V) :
    Except TError (TMatrix V) :=
  match getAt approx dim with
  | .error e => .error e
  | .ok arow =>
    match getAt arow i with
    | .error e => .error e
    | .ok a =>
      match getAt dst dim with
      | .error e => .error e
      | .ok drow =>
        match getAt drow i with
        | .error e => .error e
        | .ok d => setAt2 dst dim i (d + a)

/-- The function `TMetricsPlotCalcer::Append` (lines 72-81). -/
def Append [Add V] (approx dst : TMatrix V) : Except TError (TMatrix V) :=
  match getAt approx 0 with
  | .error e => .error e
  | .ok row0 =>
    let docCount := row0.length
    forRange approx.length
      (fun dim dst => forRange docCount (fun i dst => AppendCell approx dim i dst) dst) dst

/-- The function `TMetricsPlotCalcer::GetApproxFileName` (lines 130-149): the file name of
checkpoint `plotLineIndex` and the updated calculator. -/
def GetApproxFileName (self : TMetricsPlotCalcer V S) (plotLineIndex : Nat) :
    Except TError (Nat × TMetricsPlotCalcer V S) :=
  let plotSize := ui32 (plotLineIndex + 1)
  let data := self.NonAdditiveMetricsData
  let files :=
    if data.ApproxFiles.length < plotSize then resize data.ApproxFiles plotSize none
    else data.ApproxFiles
  match files[plotLineIndex]? with
  | none => .error .outOfBounds
  | some (some path) =>
    .ok (path, { self with NonAdditiveMetricsData := { data with ApproxFiles := files } })
  | some none =>
    let created := !self.TmpDir.Exists
    let path := plotLineIndex
    let dirFiles : Nat → Option (List (List V)) :=
      fun p => if p = path then none else self.TmpDir.Files p
    .ok (path,
      { self with
        NonAdditiveMetricsData := { data with ApproxFiles := files.set plotLineIndex (some path) }
        DeleteTmpDirOnExitFlag := if created then true else self.DeleteTmpDirOnExitFlag
        TmpDir := { Exists := true, Files := dirFiles } })

/-- The body of the inner loop of `SaveApproxToFile` (line 161):
`line[dim] = approx[dim][i]`. -/
def SaveLineCell (approx : TMatrix V) (i dim : Nat) (ln : List V) : Except TError (List V) :=
  match getAt approx dim with
  | .error e => .error e
  | .ok row =>
    match getAt row i with
    | .error e => .error e
    | .ok v => setAt ln dim v

/-- The inner loop of `SaveApproxToFile` (lines 160-162), which fills `line`. -/
def SaveLine (approx : TMatrix V) (i : Nat) (ln : List V) : Except TError (List V) :=
  forRange approx.length (SaveLineCell approx i) ln

/-- The body of the outer loop of `SaveApproxToFile` (lines 160-163), on the
records written so far and the vector `line`: fill `line`, then
`::Save(&out, line)`. -/
def SaveRecord (approx : TMatrix V) (i : Nat) (st : List (List V) × List V) :
    Except TError (List (List V) × List V) :=
  match SaveLine approx i st.2 with
  | .error e => .error e
  | .ok line1 => .ok (st.1 ++ [line1], line1)

/-- The function `TMetricsPlotCalcer::SaveApproxToFile` (lines 151-165).  The file is opened
with `ForAppend | OpenAlways`: it is created empty when missing, and every
`::Save(&out, line)` adds one record at its end. -/
def SaveApproxToFile [Zero V] (self : TMetricsPlotCalcer V S) (plotLineIndex : Nat)
    (approx : TMatrix V) : Except TError (TMetricsPlotCalcer V S) :=
  match GetApproxFileName self plotLineIndex with
  | .error e => .error e
  | .ok (fileName, self1) =>
    match getAt approx 0 with
    | .error e => .error e
    | .ok row0 =>
      let docCount := row0.length
      let file := (self1.TmpDir.Files fileName).getD []
      let line0 : List V := List.replicate approx.length 0
      match forRange docCount (SaveRecord approx) (file, line0) with
      | .error e => .error e
      | .ok st =>
        .ok { self1 with
              TmpDir := { self1.TmpDir with
                          Files := fun p => if p = fileName then some st.1 else self1.TmpDir.Files p } }

/-- The body of the inner loop of `LoadApprox` (line 175):
`result[dim][i] = line[dim]`. -/
def LoadLineCell (ln : List V) (i dim : Nat) (result : TMatrix V) :
    Except TError (TMatrix V) :=
  match getAt ln dim with
  | .error e => .error e
  | .ok v => setAt2 result dim i v

/-- The inner loop of `LoadApprox` (lines 174-176). -/
def LoadLine (ln : List V) (i : Nat) (result : TMatrix V) : Except TError (TMatrix V) :=
  forRange result.length (LoadLineCell ln i) result

/-- The body of the outer loop of `LoadApprox` (lines 173-176), on `result` and
the rest of the input stream: `::Load(&input, line)` takes the next record and
fails at the end of the stream. -/
def LoadRecord (i : Nat) (st : TMatrix V × List (List V)) :
    Except TError (TMatrix V × List (List V)) :=
  match st.2 with
  | [] => .error .loadEof
  | ln :: rest =>
    match LoadLine ln i st.1 with
    | .error e => .error e
    | .ok result1 => .ok (result1, rest)

/-- The function `TMetricsPlotCalcer::LoadApprox` (lines 167-179).  `TIFStream` fails on a
missing file. -/
def LoadApprox [Zero V] (self : TMetricsPlotCalcer V S) (plotLineIndex : Nat) :
    Except TError (TMatrix V × TMetricsPlotCalcer V S) :=
  match GetApproxFileName self plotLineIndex with
  | .error e => .error e
  | .ok (fileName, self1) =>
    match self1.TmpDir.Files fileName with
    | none => .error .fileNotFound
    | some input =>
      let docCount := self1.NonAdditiveMetricsData.Target.length
      let result : TMatrix V :=
        List.replicate self1.Model.ApproxDimension (List.replicate docCount 0)
      match forRange docCount LoadRecord (result, input) with
      | .error e => .error e
      | .ok st => .ok (st.1, self1)

/-- The body of the metric loop of `ProceedMetrics` (lines 22-29), on
`MetricPlots`. -/
def ProceedMetric [Zero S] [Add S] (metrics : List (IMetric V S)) (cursor : TMatrix V)
    (pool : TPool V) (target weights : List V) (plotLineIndex plotSize : Nat)
    (metricId : Nat) (plots : List (List S)) : Except TError (List (List S)) :=
  match getAt plots metricId with
  | .error e => .error e
  | .ok plot =>
    let plot1 := if plot.length < plotSize then resize plot plotSize 0 else plot
    match getAt metrics metricId with
    | .error e => .error e
    | .ok metric =>
      if metric.IsAdditiveMetric then
        match getAt plot1 plotLineIndex with
        | .error e => .error e
        | .ok holder =>
          match ComputeMetric metric pool target weights cursor with
          | .error e => .error e
          | .ok stat =>
            match setAt plot1 plotLineIndex (holder + stat) with
            | .error e => .error e
            | .ok plot2 => setAt plots metricId plot2
      else if metric.GetErrorType = EErrorType.PerObjectError then
        setAt plots metricId plot1
      else .error .nonAdditivePairwise

/-- The function `TMetricsPlotCalcer::ProceedMetrics` (lines 8-44). -/
def ProceedMetrics [Zero V] [Zero S] [Add S] (self : TMetricsPlotCalcer V S)
    (cursor : TMatrix V) (pool : TPool V) (target weights : List V)
    (plotLineIndex modelIterationIndex : Nat) : Except TError (TMetricsPlotCalcer V S) :=
  let plotSize := ui32 (plotLineIndex + 1)
  let plots0 := resize self.MetricPlots self.Metrics.length []
  let pushed : Except TError (List Nat) :=
    if self.Iterations.length < plotSize then
      let its := self.Iterations ++ [modelIterationIndex]
      if its.length = plotSize then .ok its else .error .iterationsMismatch
    else .ok self.Iterations
  match pushed with
  | .error e => .error e
  | .ok iterations =>
    match forRange self.Metrics.length
        (ProceedMetric self.Metrics cursor pool target weights plotLineIndex plotSize)
        plots0 with
    | .error e => .error e
    | .ok plots =>
      let self1 := { self with MetricPlots := plots, Iterations := iterations }
      if HasNonAdditiveMetric self1 then
        let data := self1.NonAdditiveMetricsData
        let self2 :=
          if plotLineIndex = 0 then
            { self1 with
              NonAdditiveMetricsData :=
                { data with Target := data.Target ++ target, Weights := data.Weights ++ weights } }
          else self1
        SaveApproxToFile self2 plotLineIndex cursor
      else .ok self1

/-- A call made by `ProceedDataSet`, in the order of execution. -/
inductive TCall (V : Type) where
  /-- The function `ProceedMetrics(cursor, pool, ..., plotLineIndex, modelIterationIndex)` -/
  | proceedMetrics (cursor : TMatrix V) (plotLineIndex modelIterationIndex : Nat)
  /-- The function `ApplyModelMulti(RawFormulaVal, (int)begin, (int)end, &nextBatchApprox)` -/
  | applyModelMulti (batchStart batchEnd : Nat)
  /-- The function `Append(nextBatchApprox, &cursor)` -/
  | append (approx : TMatrix V)

/-- The local variables of `ProceedDataSet` that live across the loop and the
calculator (`self`), with two records kept for the statements about a run: the
calls made so far (`calls`) and the calculator as each `ProceedMetrics` call
left it (`states`). -/
structure TScan (V S : Type) where
  self : TMetricsPlotCalcer V S
  cursor : TMatrix V
  currentIter : Nat
  idx : Nat
  calls : List (TCall V)
  states : List (TMetricsPlotCalcer V S)

/-- The call `ApplyModelMulti(RawFormulaVal, (int)batchStart, (int)batchEnd, &out)`
of lines 98-101. -/
def ApplyBatch (model : TFullModel V) (pool : TPool V) (batchStart batchEnd : Nat) :
    TMatrix V :=
  model.ApplyModelMulti pool (toInt batchStart) (toInt batchEnd)

/-- The loop of `ProceedDataSet` (lines 95-105), entered with the loop variable
`nextBatchStart`; `none` when `fuel` passes through the loop test are not
enough. -/
def ProceedDataSetLoop [Zero V] [Add V] [Zero S] [Add S] (pool : TPool V) :
    Nat → Nat → TScan V S → Option (Except TError (TScan V S))
  | 0, _, _ => none
  | fuel + 1, nextBatchStart, st =>
    if nextBatchStart < st.self.Last then
      let nextBatchEnd := min st.self.Last (ui32 (nextBatchStart + st.self.Step))
      match ProceedMetrics st.self st.cursor pool pool.Docs.Target pool.Docs.Weight
          st.idx st.currentIter with
      | .error e => some (.error e)
      | .ok self1 =>
        let nextBatchApprox := ApplyBatch self1.Model pool nextBatchStart nextBatchEnd
        match Append nextBatchApprox st.cursor with
        | .error e => some (.error e)
        | .ok cursor1 =>
          ProceedDataSetLoop pool fuel (ui32 (nextBatchStart + self1.Step))
            { self := self1
              cursor := cursor1
              currentIter := nextBatchEnd
              idx := ui32 (st.idx + 1)
              calls := st.calls ++
                [TCall.proceedMetrics st.cursor st.idx st.currentIter,
                 TCall.applyModelMulti nextBatchStart nextBatchEnd,
                 TCall.append nextBatchApprox]
              states := st.states ++ [self1] }
    else some (.ok st)

/-- The function `TMetricsPlotCalcer::ProceedDataSet` (lines 83-108).  `EnsureCorrectParams`
is defined in `plot.h`, which is not part of the sources, and is a parameter.
The calculator returned (`*this`) is the field `self` of the result. -/
def ProceedDataSet [Zero V] [Add V] [Zero S] [Add S]
    (EnsureCorrectParams : TMetricsPlotCalcer V S → Except TError Unit) (fuel : Nat)
    (self : TMetricsPlotCalcer V S) (pool : TPool V) :
    Option (Except TError (TScan V S)) :=
  match EnsureCorrectParams self with
  | .error e => some (.error e)
  | .ok _ =>
    let docCount := pool.Docs.DocCount
    let cursor : TMatrix V :=
      List.replicate self.Model.ApproxDimension (List.replicate docCount 0)
    match ProceedDataSetLoop pool fuel self.First
        { self := self, cursor := cursor, currentIter := 0, idx := 0, calls := [],
          states := [] } with
    | none => none
    | some (.error e) => some (.error e)
    | some (.ok st) =>
      match ProceedMetrics st.self st.cursor pool pool.Docs.Target pool.Docs.Weight
          st.idx st.currentIter with
      | .error e => some (.error e)
      | .ok self1 =>
        some (.ok
          { st with
            self := self1
            calls := st.calls ++ [TCall.proceedMetrics st.cursor st.idx st.currentIter]
            states := st.states ++ [self1] })

/-- The body of the metric loop of `ComputeNonAdditiveMetrics` (lines 117-125). -/
def ComputeNonAdditiveMetric (metrics : List (IMetric V S)) (approx : TMatrix V)
    (target weights : List V) (idx metricId : Nat) (plots : List (List S)) :
    Except TError (List (List S)) :=
  match getAt metrics metricId with
  | .error e => .error e
  | .ok metric =>
    if metric.IsAdditiveMetric = false then
      setAt2 plots metricId idx (metric.Eval approx target weights 0 (target.length : Int))
    else .ok plots

/-- The body of the checkpoint loop of `ComputeNonAdditiveMetrics`
(lines 115-126). -/
def ComputeNonAdditiveCheckpoint [Zero V] (idx : Nat) (self : TMetricsPlotCalcer V S) :
    Except TError (TMetricsPlotCalcer V S) :=
  match LoadApprox self idx with
  | .error e => .error e
  | .ok (approx, self1) =>
    match forRange self1.Metrics.length
        (ComputeNonAdditiveMetric self1.Metrics approx
          self1.NonAdditiveMetricsData.Target self1.NonAdditiveMetricsData.Weights idx)
        self1.MetricPlots with
    | .error e => .error e
    | .ok plots => .ok { self1 with MetricPlots := plots }

/-- The function `TMetricsPlotCalcer::ComputeNonAdditiveMetrics` (lines 110-128). -/
def ComputeNonAdditiveMetrics [Zero V] (self : TMetricsPlotCalcer V S) :
    Except TError (TMetricsPlotCalcer V S) :=
  forRange self.Iterations.length ComputeNonAdditiveCheckpoint self

/-- The body of the loops of `GetMetricsScore` (line 216). -/
def ScoreCell (metrics : List (IMetric V S)) (plots : List (List S)) (i metricId : Nat)
    (metricsScore : TMatrix V) : Except TError (TMatrix V) :=
  match getAt metrics metricId with
  | .error e => .error e
  | .ok metric =>
    match getAt plots metricId with
    | .error e => .error e
    | .ok plot =>
      match getAt plot i with
      | .error e => .error e
      | .ok holder => setAt2 metricsScore metricId i (metric.GetFinalError holder)

/-- The function `TMetricsPlotCalcer::GetMetricsScore` (lines 209-220): the score table and
the updated calculator. -/
def GetMetricsScore [Zero V] (self : TMetricsPlotCalcer V S) :
    Except TError (TMatrix V × TMetricsPlotCalcer V S) :=
  let deferred : Except TError (TMetricsPlotCalcer V S) :=
    if HasNonAdditiveMetric self then ComputeNonAdditiveMetrics self else .ok self
  match deferred with
  | .error e => .error e
  | .ok self1 =>
    let metricsScore : TMatrix V :=
      List.replicate self1.Metrics.length (List.replicate self1.Iterations.length 0)
    match forRange self1.Iterations.length
        (fun i metricsScore =>
          forRange self1.Metrics.length (ScoreCell self1.Metrics self1.MetricPlots i)
            metricsScore) metricsScore with
    | .error e => .error e
    | .ok table => .ok (table, self1)

/-- Modelled from the spec: the constructor `TMetricsPlotCalcer(model, executor,
tmpDir)` is defined in `plot.h`, which is not part of the sources; a new
calculator has no metric, no recorded checkpoint, an empty target/weight buffer
and no spill file name. -/
def NewCalcer (model : TFullModel V) (tmpDir : TTmpDir V) : TMetricsPlotCalcer V S :=
  { Model := model
    First := 0
    Last := 0
    Step := 1
    Metrics := []
    MetricPlots := []
    Iterations := []
    NonAdditiveMetricsData := { ApproxFiles := [], Target := [], Weights := [] }
    DeleteTmpDirOnExitFlag := false
    TmpDir := tmpDir }

/-- Modelled from the spec: the setters `SetFirstIteration`, `SetLastIteration`,
`SetCustomStep` and `AddMetric` are defined in `plot.h`, which is not part of
the sources; the spec says the window is "passed through unchanged to the
Scanner" and that the metrics are those given at construction. -/
def SetFirstIteration (self : TMetricsPlotCalcer V S) (first : Nat) :
    TMetricsPlotCalcer V S :=
  { self with First := first }

/-- Modelled from the spec: see `SetFirstIteration`. -/
def SetLastIteration (self : TMetricsPlotCalcer V S) (last : Nat) :
    TMetricsPlotCalcer V S :=
  { self with Last := last }

/-- Modelled from the spec: see `SetFirstIteration`. -/
def SetCustomStep (self : TMetricsPlotCalcer V S) (step : Nat) : TMetricsPlotCalcer V S :=
  { self with Step := step }

/-- Modelled from the spec: see `SetFirstIteration`. -/
def AddMetric (self : TMetricsPlotCalcer V S) (metric : IMetric V S) :
    TMetricsPlotCalcer V S :=
  { self with Metrics := self.Metrics ++ [metric] }

/-- The function `CreateMetricCalcer` (lines 181-207).  `begin`, `end` and `evalPeriod` are
`int`s; the setters take `ui32`. -/
def CreateMetricCalcer (model : TFullModel V) (begin_ end_ evalPeriod : Int)
    (tmpDir : TTmpDir V) (metrics : List (IMetric V S)) : TMetricsPlotCalcer V S :=
  let end1 : Int :=
    if end_ = 0 then (model.TreeCount : Int) else min end_ (model.TreeCount : Int)
  let plotCalcer : TMetricsPlotCalcer V S := NewCalcer model tmpDir
  let plotCalcer :=
    SetCustomStep (SetLastIteration (SetFirstIteration plotCalcer (toUi32 begin_)) (toUi32 end1))
      (toUi32 evalPeriod)
  metrics.foldl (fun plotCalcer metric => AddMetric plotCalcer metric) plotCalcer

end Code

/-! ## A small scenario

The end-to-end scenario of the specification: four documents, one output
dimension, a model of ten iterations. -/

/-- The model of the scenario: every tree adds one to the prediction of every
document, so the contribution of the trees `[b, e)` is `e - b`. -/
def demoModel : TFullModel Int :=
  { ApproxDimension := 1
    TreeCount := 10
    ApplyModelMulti := fun pool b e => [List.replicate pool.Docs.DocCount (e - b)] }

/-- The dataset of the scenario, with the given pair list. -/
def demoPool (pairs : List TPair) : TPool Int :=
  { Docs := { Target := [1, 0, 1, 0], Weight := [1, 1, 1, 1], DocCount := 4 }
    Pairs := pairs }

/-- An empty temporary directory that does not exist yet. -/
def demoTmpDir : TTmpDir Int :=
  { Exists := false, Files := fun _ => none }

/-- A metric of the scenario with the given tags: the sum of the squared
differences between the first prediction row and the targets; its pairwise
evaluation counts the pairs. -/
def demoMetric (additive : Bool) (errorType : EErrorType) : IMetric Int Int :=
  { IsAdditiveMetric := additive
    GetErrorType := errorType
    CheckTarget := fun _ => true
    Eval := fun approx target _ _ _ =>
      (List.zipWith (fun a t => (a - t) * (a - t)) (approx.headD []) target).sum
    EvalPairwise := fun _ pairs _ _ => (pairs.length : Int)
    GetFinalError := fun s => s }

/-- A calculator of the scenario over the window `[first, last)` with the given
step and metrics, before any dataset was processed. -/
def demoCalcer (first last step : Nat) (metrics : List (IMetric Int Int)) :
    TMetricsPlotCalcer Int Int :=
  { Model := demoModel
    First := first
    Last := last
    Step := step
    Metrics := metrics
    MetricPlots := []
    Iterations := []
    NonAdditiveMetricsData := { ApproxFiles := [], Target := [], Weights := [] }
    DeleteTmpDirOnExitFlag := false
    TmpDir := demoTmpDir }

/-- A second dataset for the scenario: two documents. -/
def demoSecondPool : TPool Int :=
  { Docs := { Target := [0, 1], Weight := [1, 1], DocCount := 2 }
    Pairs := [] }

/-! ## Notions used to state the claims -/

/-- The cell `m[r][c]` of a matrix, when it exists. -/
def cell {α : Type} (m : List (List α)) (r c : Nat) : Option α :=
  match m[r]? with
  | some row => row[c]?
  | none => none

/-- A matrix of `rows` rows that all have `cols` entries. -/
def IsShape {α : Type} (rows cols : Nat) (m : List (List α)) : Prop :=
  m.length = rows ∧ ∀ row ∈ m, row.length = cols

/-- The all-zero matrix with which `ProceedDataSet` starts its cursor. -/
def zeroMatrix {V : Type} [Zero V] (rows cols : Nat) : TMatrix V :=
  List.replicate rows (List.replicate cols 0)

/-- The element-wise sum of two matrices. -/
def addMatrix {V : Type} [Add V] (a b : TMatrix V) : TMatrix V :=
  List.zipWith (fun ra rb => List.zipWith (fun x y => x + y) ra rb) a b

/-- A metric that `ProceedMetrics` accepts on the dataset: an additive metric
whose target check passes and that, when pairwise, finds a non-empty pair list;
or a non-additive metric with per-object error type. -/
def MetricSupported {V S : Type} (pool : TPool V) (target : List V) (m : IMetric V S) : Prop :=
  if m.IsAdditiveMetric = true then
    m.CheckTarget target = true ∧
      (m.GetErrorType = EErrorType.PerObjectError ∨ pool.Pairs ≠ [])
  else m.GetErrorType = EErrorType.PerObjectError

/-- The holder that `ProceedMetrics` leaves in a metric's slot of the current
checkpoint, starting from the default holder: the default holder plus
`ComputeMetric` for an additive metric, the default holder otherwise. -/
def plotEntry {V S : Type} [Zero S] [Add S] (pool : TPool V) (target weights : List V)
    (cursor : TMatrix V) (m : IMetric V S) : S :=
  if m.IsAdditiveMetric = true then
    match ComputeMetric m pool target weights cursor with
    | .ok stat => 0 + stat
    | .error _ => 0
  else 0

/-- The records of a spill file that hold the matrix `approx`: record `i` is the
column `i` of `approx`. -/
def IsRecordsOf {V : Type} (approx : TMatrix V) (recs : List (List V)) : Prop :=
  recs.length = (approx.headD []).length ∧ ∀ i dim, cell recs i dim = cell approx dim i

/-! ## The checkpoints of a run, as the claims describe them -/

/-- The number of batches of the window: `ceil((last - first) / step)` when
`first < last`, zero otherwise. -/
def batchCount (first last step : Nat) : Nat :=
  if first < last then (last - first + step - 1) / step else 0

/-- The start of batch `j`. -/
def batchStart (first step j : Nat) : Nat := first + j * step

/-- The end of batch `j`. -/
def batchEnd (first last step j : Nat) : Nat := min last (first + (j + 1) * step)

/-- The model-iteration number the code hands to `ProceedMetrics` at checkpoint
ordinal `k`: the initial value `0` of `currentIter` at ordinal 0, the end of
batch `k - 1` afterwards. -/
def checkpointIter (first last step k : Nat) : Nat :=
  if k = 0 then 0 else batchEnd first last step (k - 1)

/-- The sum of the applier's contributions for the first `k` batches, starting
from the all-zero matrix. -/
def cursorAt {V S : Type} [Zero V] [Add V] (self : TMetricsPlotCalcer V S) (pool : TPool V) :
    Nat → TMatrix V
  | 0 => zeroMatrix self.Model.ApproxDimension pool.Docs.DocCount
  | k + 1 =>
    addMatrix (cursorAt self pool k)
      (ApplyBatch self.Model pool (batchStart self.First self.Step k)
        (batchEnd self.First self.Last self.Step k))

/-- The calls of the first `j` passes through the loop of `ProceedDataSet`. -/
def callsUpTo {V S : Type} [Zero V] [Add V] (self : TMetricsPlotCalcer V S) (pool : TPool V) :
    Nat → List (TCall V)
  | 0 => []
  | j + 1 =>
    callsUpTo self pool j ++
      [TCall.proceedMetrics (cursorAt self pool j) j
          (checkpointIter self.First self.Last self.Step j),
        TCall.applyModelMulti (batchStart self.First self.Step j)
          (batchEnd self.First self.Last self.Step j),
        TCall.append (ApplyBatch self.Model pool (batchStart self.First self.Step j)
          (batchEnd self.First self.Last self.Step j))]

/-- The `plotLineIndex` arguments of the `ProceedMetrics` calls of a run. -/
def plotLineIndices {V : Type} : List (TCall V) → List Nat
  | [] => []
  | TCall.proceedMetrics _ k _ :: rest => k :: plotLineIndices rest
  | _ :: rest => plotLineIndices rest

/-- The cursors handed to the `ProceedMetrics` calls of a run. -/
def cursorsOf {V : Type} : List (TCall V) → List (TMatrix V)
  | [] => []
  | TCall.proceedMetrics cursor _ _ :: rest => cursor :: cursorsOf rest
  | _ :: rest => cursorsOf rest

/-- A calculator that has not processed any dataset. -/
structure Fresh {V S : Type} (calcer : TMetricsPlotCalcer V S) : Prop where
  iterations : calcer.Iterations = []
  plots : calcer.MetricPlots = []
  target : calcer.NonAdditiveMetricsData.Target = []
  weights : calcer.NonAdditiveMetricsData.Weights = []
  approxFiles : calcer.NonAdditiveMetricsData.ApproxFiles = []

/-- The conditions under which no step of a run of `ProceedDataSet` raises an
exception: the calculator is fresh, the dataset supports every metric, the
model has at least one output dimension, and the applier returns matrices of
shape `[ApproxDimension][docCount]`. -/
structure RunOk {V S : Type} (calcer : TMetricsPlotCalcer V S) (pool : TPool V) : Prop where
  fresh : Fresh calcer
  supported : ∀ m ∈ calcer.Metrics, MetricSupported pool pool.Docs.Target m
  dimension : 1 ≤ calcer.Model.ApproxDimension
  applier : ∀ b e, IsShape calcer.Model.ApproxDimension pool.Docs.DocCount
    (calcer.Model.ApplyModelMulti pool b e)

/-- The plots after `j` checkpoints: one row per metric, one entry per
checkpoint. -/
def plotsAt {V S : Type} [Zero V] [Add V] [Zero S] [Add S] (self : TMetricsPlotCalcer V S)
    (pool : TPool V) (j : Nat) : List (List S) :=
  self.Metrics.map (fun m =>
    (List.range j).map (fun i =>
      plotEntry pool pool.Docs.Target pool.Docs.Weight (cursorAt self pool i) m))

/-- What a run of `ProceedDataSet` that started from the fresh calculator
`self0` has made of the calculator after `j` calls of `ProceedMetrics`. -/
structure RunInv {V S : Type} [Zero V] [Add V] [Zero S] [Add S]
    (self0 : TMetricsPlotCalcer V S) (pool : TPool V) (j : Nat)
    (s : TMetricsPlotCalcer V S) : Prop where
  model : s.Model = self0.Model
  first : s.First = self0.First
  last : s.Last = self0.Last
  step : s.Step = self0.Step
  metrics : s.Metrics = self0.Metrics
  iterations :
    s.Iterations = (List.range j).map (checkpointIter self0.First self0.Last self0.Step)
  plots : s.MetricPlots = if j = 0 then [] else plotsAt self0 pool j
  additiveOnly : HasNonAdditiveMetric self0 = false →
    s.NonAdditiveMetricsData = self0.NonAdditiveMetricsData ∧ s.TmpDir = self0.TmpDir ∧
      s.DeleteTmpDirOnExitFlag = self0.DeleteTmpDirOnExitFlag
  target : HasNonAdditiveMetric self0 = true →
    s.NonAdditiveMetricsData.Target = if j = 0 then [] else pool.Docs.Target
  weights : HasNonAdditiveMetric self0 = true →
    s.NonAdditiveMetricsData.Weights = if j = 0 then [] else pool.Docs.Weight
  approxFiles : HasNonAdditiveMetric self0 = true →
    s.NonAdditiveMetricsData.ApproxFiles = (List.range j).map some
  files : HasNonAdditiveMetric self0 = true →
    ∀ i, i < j → ∃ recs, s.TmpDir.Files i = some recs ∧ IsRecordsOf (cursorAt self0 pool i) recs

/-- What holds of the variables of `ProceedDataSet` when the loop test is
reached for the pass `j` (counted from zero), in a run that started from the
fresh calculator `self0`. -/
structure ScanInv {V S : Type} [Zero V] [Add V] [Zero S] [Add S]
    (self0 : TMetricsPlotCalcer V S) (pool : TPool V) (j : Nat) (st : TScan V S) : Prop where
  calcer : RunInv self0 pool j st.self
  cursor : st.cursor = cursorAt self0 pool j
  currentIter : st.currentIter = checkpointIter self0.First self0.Last self0.Step j
  idx : st.idx = j
  calls : st.calls = callsUpTo self0 pool j
  statesLength : st.states.length = j
  states : ∀ k s, st.states[k]? = some s → RunInv self0 pool (k + 1) s

/-- Whether the metric registered at index `r` exists and is non-additive. -/
def nonAdditiveAt {V S : Type} (metrics : List (IMetric V S)) (r : Nat) : Bool :=
  match metrics[r]? with
  | some m => !m.IsAdditiveMetric
  | none => false

/-- The full evaluation of the metric registered at index `r` on the snapshot
`approx`, as the deferred pass computes it (lines 118-124). -/
def fullEval {V S : Type} (metrics : List (IMetric V S)) (approx : TMatrix V)
    (target weights : List V) (r : Nat) : Option S :=
  (metrics[r]?).map (fun m => m.Eval approx target weights 0 (target.length : Int))

/-- The score of the metric registered at index `r` for the holder `holder`. -/
def scoreOf {V S : Type} (metrics : List (IMetric V S)) (r : Nat) (holder : Option S) :
    Option V :=
  (metrics[r]?).bind (fun m => holder.map m.GetFinalError)

/-- The ranges `[batchStart, batchEnd)` handed to the scoring applier by the
calls of a run, in order. -/
def batchesOf {V : Type} : List (TCall V) → List (Nat × Nat)
  | [] => []
  | TCall.applyModelMulti batchStart batchEnd :: rest => (batchStart, batchEnd) :: batchesOf rest
  | _ :: rest => batchesOf rest

/-- The matrices handed to `Append` by the calls of a run, in order. -/
def appendsOf {V : Type} : List (TCall V) → List (TMatrix V)
  | [] => []
  | TCall.append approx :: rest => approx :: appendsOf rest
  | _ :: rest => appendsOf rest

/-- The matrix whose columns are those of `a` followed by those of `b`. -/
def appendColumns {V : Type} (a b : TMatrix V) : TMatrix V :=
  List.zipWith (fun ra rb => ra ++ rb) a b

/-- What a second run of `ProceedDataSet`, on the dataset `pool2` and on the
calculator left by a run on `pool1` that started from the fresh calculator
`self0` with a non-additive metric, has made of the calculator after `j` calls
of `ProceedMetrics`. -/
structure RunInv2 {V S : Type} [Zero V] [Add V]
    (self0 : TMetricsPlotCalcer V S) (pool1 pool2 : TPool V) (j : Nat)
    (s : TMetricsPlotCalcer V S) : Prop where
  model : s.Model = self0.Model
  first : s.First = self0.First
  last : s.Last = self0.Last
  step : s.Step = self0.Step
  metrics : s.Metrics = self0.Metrics
  iterations : s.Iterations.length = batchCount self0.First self0.Last self0.Step + 1
  plots : IsShape self0.Metrics.length (batchCount self0.First self0.Last self0.Step + 1)
    s.MetricPlots
  target : s.NonAdditiveMetricsData.Target
    = pool1.Docs.Target ++ (if j = 0 then [] else pool2.Docs.Target)
  weights : s.NonAdditiveMetricsData.Weights
    = pool1.Docs.Weight ++ (if j = 0 then [] else pool2.Docs.Weight)
  approxFiles : s.NonAdditiveMetricsData.ApproxFiles
    = (List.range (batchCount self0.First self0.Last self0.Step + 1)).map some
  files : ∀ i, i < batchCount self0.First self0.Last self0.Step + 1 →
    ∃ recs1, IsRecordsOf (cursorAt self0 pool1 i) recs1 ∧
      (j ≤ i → s.TmpDir.Files i = some recs1) ∧
      (i < j → ∃ recs2, IsRecordsOf (cursorAt self0 pool2 i) recs2 ∧
        s.TmpDir.Files i = some (recs1 ++ recs2))

/-- What holds of the variables of `ProceedDataSet` when the loop test is
reached for the pass `j` of such a second run. -/
structure ScanInv2 {V S : Type} [Zero V] [Add V]
    (self0 : TMetricsPlotCalcer V S) (pool1 pool2 : TPool V) (j : Nat) (st : TScan V S) :
    Prop where
  calcer : RunInv2 self0 pool1 pool2 j st.self
  cursor : st.cursor = cursorAt self0 pool2 j
  currentIter : st.currentIter = checkpointIter self0.First self0.Last self0.Step j
  idx : st.idx = j
  calls : st.calls = callsUpTo self0 pool2 j

/-! ## Lemmas on the vector and loop primitives -/

section Toolkit
variable {α σ : Type}

theorem getAt_eq_ok {xs : List α} {i : Nat} {x : α} (h : xs[i]? = some x) :
    getAt xs i = .ok x := by
  simp [getAt, h]

theorem getAt_of_lt {xs : List α} {i : Nat} (h : i < xs.length) :
    getAt xs i = .ok xs[i] := by
  simp [getAt, List.getElem?_eq_getElem h]

theorem setAt_of_lt {xs : List α} {i : Nat} (x : α) (h : i < xs.length) :
    setAt xs i x = .ok (xs.set i x) := by
  simp [setAt, h]

theorem setAt2_eq_ok {m : List (List α)} {dim i : Nat} {row : List α} (x : α)
    (hrow : m[dim]? = some row) (hi : i < row.length) :
    setAt2 m dim i x = .ok (m.set dim (row.set i x)) := by
  simp [setAt2, hrow, setAt, hi]

theorem forRange_zero (body : Nat → σ → Except TError σ) (s : σ) :
    forRange 0 body s = .ok s := by
  simp [forRange, pure, Except.pure]

theorem forRange_succ (n : Nat) (body : Nat → σ → Except TError σ) (s : σ) :
    forRange (n + 1) body s =
      match forRange n body s with
      | .error e => .error e
      | .ok s1 => body n s1 := by
  simp only [forRange, List.range_succ, List.foldlM_append]
  cases h : List.foldlM (fun s i => body i s) s (List.range n) with
  | error e => simp [bind, Except.bind]
  | ok s1 =>
    simp only [bind, Except.bind, List.foldlM, pure, Except.pure]
    cases body n s1 <;> rfl

/-- Invariant rule for a counted loop whose body never fails under the
invariant. -/
theorem forRange_inv (P : Nat → σ → Prop) (body : Nat → σ → Except TError σ) (n : Nat)
    (s0 : σ) (h0 : P 0 s0)
    (hstep : ∀ i s, i < n → P i s → ∃ s1, body i s = .ok s1 ∧ P (i + 1) s1) :
    ∃ s1, forRange n body s0 = .ok s1 ∧ P n s1 := by
  induction n with
  | zero => exact ⟨s0, forRange_zero body s0, h0⟩
  | succ n ih =>
    obtain ⟨s1, h1, hP⟩ := ih (fun i s hi hp => hstep i s (Nat.lt_succ_of_lt hi) hp)
    obtain ⟨s2, h2, hP2⟩ := hstep n s1 (Nat.lt_succ_self n) hP
    exact ⟨s2, by rw [forRange_succ, h1]; exact h2, hP2⟩

/-- A counted loop fails when its body fails at some index in every state. -/
theorem forRange_error_of_step (body : Nat → σ → Except TError σ) (n j : Nat) (hj : j < n)
    (hfail : ∀ s, ∃ e, body j s = .error e) (s0 : σ) :
    ∃ e, forRange n body s0 = .error e := by
  induction n with
  | zero => omega
  | succ n ih =>
    rw [forRange_succ]
    cases h : forRange n body s0 with
    | error e => exact ⟨e, rfl⟩
    | ok s1 =>
      by_cases hjn : j < n
      · obtain ⟨e, he⟩ := ih hjn
        rw [h] at he
        cases he
      · have hjeq : j = n := by omega
        subst hjeq
        exact hfail s1

/-- An error of a counted loop is an error of its body at some index. -/
theorem forRange_error_elim (body : Nat → σ → Except TError σ) (n : Nat) (s0 : σ)
    (e : TError) (h : forRange n body s0 = .error e) :
    ∃ i s, i < n ∧ body i s = .error e := by
  induction n with
  | zero => simp [forRange_zero] at h
  | succ n ih =>
    rw [forRange_succ] at h
    cases h1 : forRange n body s0 with
    | error e1 =>
      rw [h1] at h
      simp only [Except.error.injEq] at h
      subst h
      obtain ⟨i, s, hi, hb⟩ := ih h1
      exact ⟨i, s, Nat.lt_succ_of_lt hi, hb⟩
    | ok s1 =>
      rw [h1] at h
      exact ⟨n, s1, Nat.lt_succ_self n, h⟩

end Toolkit

section Factory
variable {V S : Type}

theorem foldl_AddMetric_fields (metrics : List (IMetric V S)) (c : TMetricsPlotCalcer V S) :
    (metrics.foldl (fun plotCalcer metric => AddMetric plotCalcer metric) c).Metrics
        = c.Metrics ++ metrics ∧
      (metrics.foldl (fun plotCalcer metric => AddMetric plotCalcer metric) c).First = c.First ∧
      (metrics.foldl (fun plotCalcer metric => AddMetric plotCalcer metric) c).Last = c.Last ∧
      (metrics.foldl (fun plotCalcer metric => AddMetric plotCalcer metric) c).Step = c.Step ∧
      (metrics.foldl (fun plotCalcer metric => AddMetric plotCalcer metric) c).Iterations
        = c.Iterations := by
  induction metrics generalizing c with
  | nil => simp
  | cons m ms ih =>
    obtain ⟨h1, h2, h3, h4, h5⟩ := ih (AddMetric c m)
    simp only [List.foldl_cons]
    refine ⟨?_, ?_, ?_, ?_, ?_⟩
    · rw [h1]; simp [AddMetric]
    · rw [h2]; rfl
    · rw [h3]; rfl
    · rw [h4]; rfl
    · rw [h5]; rfl

theorem CreateMetricCalcer_Metrics (model : TFullModel V) (begin_ end_ evalPeriod : Int)
    (tmpDir : TTmpDir V) (metrics : List (IMetric V S)) :
    (CreateMetricCalcer model begin_ end_ evalPeriod tmpDir metrics).Metrics = metrics := by
  unfold CreateMetricCalcer
  simp only []
  rw [(foldl_AddMetric_fields metrics _).1]
  simp [SetCustomStep, SetLastIteration, SetFirstIteration, NewCalcer]

theorem toUi32_of_nonneg (x : Int) (h0 : 0 ≤ x) (h1 : x < 4294967296) :
    ((toUi32 x : Nat) : Int) = x := by
  unfold toUi32
  omega

theorem toUi32_le_of_nonneg (x : Int) (n : Nat) (h0 : 0 ≤ x) (h1 : x ≤ (n : Int)) :
    toUi32 x ≤ n := by
  unfold toUi32
  omega

/-- C10 (window resolution in `CreateMetricCalcer`): the last iteration is the
`ui32` value of `treeCount` when `end = 0` and of `min(end, treeCount)`
otherwise; for `end >= 0` it never exceeds `treeCount`, and is that number
itself when `treeCount` fits an `int`; the first iteration and the step are the
`ui32` values of `begin` and `evalPeriod` (these numbers themselves when they
are non-negative); the metric list is the given list, in order. -/
theorem C10_window_resolution (model : TFullModel V) (begin_ end_ evalPeriod : Int)
    (tmpDir : TTmpDir V) (metrics : List (IMetric V S)) :
    (CreateMetricCalcer model begin_ end_ evalPeriod tmpDir metrics).Last
        = toUi32 (if end_ = 0 then (model.TreeCount : Int)
                  else min end_ (model.TreeCount : Int)) ∧
      (0 ≤ end_ →
        (CreateMetricCalcer model begin_ end_ evalPeriod tmpDir metrics).Last
          ≤ model.TreeCount) ∧
      (0 ≤ end_ → model.TreeCount < 2147483648 →
        (((CreateMetricCalcer model begin_ end_ evalPeriod tmpDir metrics).Last : Nat) : Int)
          = (if end_ = 0 then (model.TreeCount : Int)
             else min end_ (model.TreeCount : Int))) ∧
      (CreateMetricCalcer model begin_ end_ evalPeriod tmpDir metrics).First = toUi32 begin_ ∧
      (0 ≤ begin_ → begin_ < 2147483648 →
        (((CreateMetricCalcer model begin_ end_ evalPeriod tmpDir metrics).First : Nat) : Int)
          = begin_) ∧
      (CreateMetricCalcer model begin_ end_ evalPeriod tmpDir metrics).Step
        = toUi32 evalPeriod ∧
      (0 ≤ evalPeriod → evalPeriod < 2147483648 →
        (((CreateMetricCalcer model begin_ end_ evalPeriod tmpDir metrics).Step : Nat) : Int)
          = evalPeriod) ∧
      (CreateMetricCalcer model begin_ end_ evalPeriod tmpDir metrics).Metrics = metrics := by
  have hL : (CreateMetricCalcer model begin_ end_ evalPeriod tmpDir metrics).Last
        = toUi32 (if end_ = 0 then (model.TreeCount : Int)
                  else min end_ (model.TreeCount : Int)) := by
    unfold CreateMetricCalcer
    simp only []
    rw [(foldl_AddMetric_fields metrics _).2.2.1]
    rfl
  have hF : (CreateMetricCalcer model begin_ end_ evalPeriod tmpDir metrics).First
        = toUi32 begin_ := by
    unfold CreateMetricCalcer
    simp only []
    rw [(foldl_AddMetric_fields metrics _).2.1]
    rfl
  have hS : (CreateMetricCalcer model begin_ end_ evalPeriod tmpDir metrics).Step
        = toUi32 evalPeriod := by
    unfold CreateMetricCalcer
    simp only []
    rw [(foldl_AddMetric_fields metrics _).2.2.2.1]
    rfl
  refine ⟨hL, ?_, ?_, hF, ?_, hS, ?_, CreateMetricCalcer_Metrics _ _ _ _ _ _⟩
  · intro h0
    rw [hL]
    apply toUi32_le_of_nonneg
    · split <;> omega
    · split <;> omega
  · intro h0 htc
    rw [hL]
    apply toUi32_of_nonneg
    · split <;> omega
    · split <;> omega
  · intro h0 h1
    rw [hF]
    exact toUi32_of_nonneg _ h0 (by omega)
  · intro h0 h1
    rw [hS]
    exact toUi32_of_nonneg _ h0 (by omega)

/-- The scenario for C10: a model of ten trees asked for the window
`(2, 25, 5)` and for the window `(0, 0, 1)`. -/
theorem C10_window_resolution_witness :
    (CreateMetricCalcer demoModel 2 25 5 demoTmpDir
        [demoMetric true EErrorType.PerObjectError]).Last = 10 ∧
      (CreateMetricCalcer demoModel 2 25 5 demoTmpDir
        [demoMetric true EErrorType.PerObjectError]).First = 2 ∧
      (CreateMetricCalcer demoModel 2 25 5 demoTmpDir
        [demoMetric true EErrorType.PerObjectError]).Step = 5 ∧
      (CreateMetricCalcer demoModel 0 0 1 demoTmpDir
        ([] : List (IMetric Int Int))).Last = 10 ∧
      (CreateMetricCalcer demoModel 2 25 5 demoTmpDir
        [demoMetric true EErrorType.PerObjectError]).Last ≤ demoModel.TreeCount := by
  have h1 := C10_window_resolution demoModel 2 25 5 demoTmpDir
    [demoMetric true EErrorType.PerObjectError]
  have h2 := C10_window_resolution demoModel 0 0 1 demoTmpDir ([] : List (IMetric Int Int))
  refine ⟨?_, ?_, ?_, ?_, h1.2.1 (by decide)⟩
  · rw [h1.1]; decide
  · rw [h1.2.2.2.1]; decide
  · rw [h1.2.2.2.2.2.1]; decide
  · rw [h2.1]; decide

end Factory

section Rejection
variable {V S : Type}

theorem getAt_error {α : Type} {xs : List α} {i : Nat} {e : TError}
    (h : getAt xs i = .error e) : e = .outOfBounds := by
  unfold getAt at h
  split at h
  · cases h
  · cases h; rfl

theorem setAt_error {α : Type} {xs : List α} {i : Nat} {x : α} {e : TError}
    (h : setAt xs i x = .error e) : e = .outOfBounds := by
  unfold setAt at h
  split at h
  · cases h
  · cases h; rfl

theorem setAt2_error {α : Type} {m : List (List α)} {dim i : Nat} {x : α} {e : TError}
    (h : setAt2 m dim i x = .error e) : e = .outOfBounds := by
  unfold setAt2 at h
  split at h
  · cases h; rfl
  · split at h
    · rename_i h1
      cases h
      exact setAt_error h1
    · cases h

theorem ComputeMetric_error {metric : IMetric V S} {pool : TPool V} {target weights : List V}
    {approx : TMatrix V} {e : TError}
    (h : ComputeMetric metric pool target weights approx = .error e) :
    e = .badTarget ∨ e = .noPairs := by
  unfold ComputeMetric at h
  split at h
  · cases h; exact Or.inl rfl
  · simp only [] at h
    split at h
    · cases h
    · split at h
      · cases h; exact Or.inr rfl
      · cases h

variable [Zero S] [Add S]

/-- The metric loop body fails at a metric that is pairwise when either the
metric is non-additive or the pair list is empty. -/
theorem ProceedMetric_fails (metrics : List (IMetric V S)) (cursor : TMatrix V)
    (pool : TPool V) (target weights : List V) (plotLineIndex plotSize metricId : Nat)
    (m : IMetric V S) (hm : metrics[metricId]? = some m)
    (hpw : m.GetErrorType = EErrorType.PairwiseError)
    (hbad : m.IsAdditiveMetric = false ∨ pool.Pairs = []) (plots : List (List S)) :
    ∃ e, ProceedMetric metrics cursor pool target weights plotLineIndex plotSize metricId plots
      = .error e := by
  unfold ProceedMetric
  cases hp : getAt plots metricId with
  | error e => exact ⟨e, rfl⟩
  | ok plot =>
    simp only [getAt_eq_ok hm]
    cases hadd : m.IsAdditiveMetric with
    | false => simp [hpw]
    | true =>
      have hpairs : pool.Pairs = [] := by
        rcases hbad with h | h
        · rw [hadd] at h; cases h
        · exact h
      simp only [if_true]
      split
      · exact ⟨_, rfl⟩
      · have hc : ∃ e, ComputeMetric m pool target weights cursor = .error e := by
          unfold ComputeMetric
          split
          · exact ⟨_, rfl⟩
          · simp [hpw, hpairs]
        obtain ⟨e, he⟩ := hc
        rw [he]
        exact ⟨e, rfl⟩

/-- The function `ProceedMetrics` fails when the metric loop fails. -/
theorem ProceedMetrics_fails_of_loop [Zero V] (self : TMetricsPlotCalcer V S) (cursor : TMatrix V)
    (pool : TPool V) (target weights : List V) (plotLineIndex modelIterationIndex : Nat)
    (h : ∀ plots, ∃ e, forRange self.Metrics.length
        (ProceedMetric self.Metrics cursor pool target weights plotLineIndex
          (ui32 (plotLineIndex + 1))) plots = .error e) :
    ∃ e, ProceedMetrics self cursor pool target weights plotLineIndex modelIterationIndex
      = .error e := by
  unfold ProceedMetrics
  simp only []
  split
  · exact ⟨_, rfl⟩
  · obtain ⟨e, he⟩ := h (resize self.MetricPlots self.Metrics.length [])
    rw [he]
    exact ⟨e, rfl⟩

theorem ProceedMetrics_fails [Zero V] (self : TMetricsPlotCalcer V S) (cursor : TMatrix V)
    (pool : TPool V) (target weights : List V) (plotLineIndex modelIterationIndex : Nat)
    (m : IMetric V S) (hm : m ∈ self.Metrics)
    (hpw : m.GetErrorType = EErrorType.PairwiseError)
    (hbad : m.IsAdditiveMetric = false ∨ pool.Pairs = []) :
    ∃ e, ProceedMetrics self cursor pool target weights plotLineIndex modelIterationIndex
      = .error e := by
  apply ProceedMetrics_fails_of_loop
  intro plots
  obtain ⟨j, hj, hjm⟩ := List.getElem_of_mem hm
  apply forRange_error_of_step _ _ j hj
  intro s
  exact ProceedMetric_fails _ _ _ _ _ _ _ j m (by rw [List.getElem?_eq_getElem hj, hjm]) hpw hbad s

/-- The metric loop body raises the "non-additive pairwise" error only at a
metric that is non-additive and not per-object. -/
theorem ProceedMetric_nonAdditivePairwise (metrics : List (IMetric V S)) (cursor : TMatrix V)
    (pool : TPool V) (target weights : List V) (plotLineIndex plotSize metricId : Nat)
    (plots : List (List S))
    (h : ProceedMetric metrics cursor pool target weights plotLineIndex plotSize metricId plots
      = .error .nonAdditivePairwise) :
    ∃ m ∈ metrics, m.IsAdditiveMetric = false ∧ m.GetErrorType ≠ EErrorType.PerObjectError := by
  unfold ProceedMetric at h
  cases hp : getAt plots metricId with
  | error e =>
    rw [hp] at h
    have := getAt_error hp
    simp only [Except.error.injEq] at h
    rw [h] at this
    cases this
  | ok plot =>
    rw [hp] at h
    simp only [] at h
    cases hg : metrics[metricId]? with
    | none => simp [getAt, hg] at h
    | some m =>
      have hmem : m ∈ metrics := by
        obtain ⟨hlt, hget⟩ := List.getElem?_eq_some.mp hg
        rw [← hget]
        exact List.getElem_mem hlt
      simp only [getAt_eq_ok hg] at h
      cases hadd : m.IsAdditiveMetric with
      | false =>
        refine ⟨m, hmem, hadd, ?_⟩
        intro hpo
        simp only [hadd, hpo, if_true] at h
        have := setAt_error h
        cases this
      | true =>
        exfalso
        simp only [hadd, if_true] at h
        split at h
        · rename_i e1 h1
          simp only [Except.error.injEq] at h
          have := getAt_error h1
          rw [h] at this
          cases this
        · split at h
          · rename_i e1 h1
            simp only [Except.error.injEq] at h
            rw [h] at h1
            rcases ComputeMetric_error h1 with h2 | h2 <;> cases h2
          · split at h
            · rename_i e1 h1
              simp only [Except.error.injEq] at h
              have := setAt_error h1
              rw [h] at this
              cases this
            · have := setAt_error h
              cases this

end Rejection

section SpillErrors
variable {V S : Type}

theorem GetApproxFileName_error {self : TMetricsPlotCalcer V S} {k : Nat} {e : TError}
    (h : GetApproxFileName self k = .error e) : e = .outOfBounds := by
  unfold GetApproxFileName at h
  simp only [] at h
  split at h
  · cases h; rfl
  · cases h
  · cases h

theorem SaveLine_error {approx : TMatrix V} {i : Nat} {line : List V} {e : TError}
    (h : SaveLine approx i line = .error e) : e = .outOfBounds := by
  unfold SaveLine at h
  obtain ⟨dim, s, -, hb⟩ := forRange_error_elim _ _ _ _ h
  unfold SaveLineCell at hb
  split at hb
  · rename_i h1
    cases hb
    exact getAt_error h1
  · split at hb
    · rename_i h1
      cases hb
      exact getAt_error h1
    · exact setAt_error hb

theorem SaveApproxToFile_error [Zero V] {self : TMetricsPlotCalcer V S} {k : Nat}
    {approx : TMatrix V} {e : TError}
    (h : SaveApproxToFile self k approx = .error e) : e = .outOfBounds := by
  unfold SaveApproxToFile at h
  split at h
  · rename_i h1
    cases h
    exact GetApproxFileName_error h1
  · split at h
    · rename_i h1
      cases h
      exact getAt_error h1
    · simp only [] at h
      split at h
      · rename_i h1
        cases h
        obtain ⟨i, s, -, hb⟩ := forRange_error_elim _ _ _ _ h1
        unfold SaveRecord at hb
        split at hb
        · rename_i h2
          cases hb
          exact SaveLine_error h2
        · cases hb
      · cases h

end SpillErrors

section Claims67
variable {V S : Type} [Zero V] [Zero S] [Add S]

/-- C6, as the code has it: `ProceedMetrics` fails whenever some registered
metric is non-additive with pairwise error type; when every non-additive metric
has per-object error type it does not raise the "non-additive pairwise" error,
whatever the additive metrics are. -/
theorem C6_nonadditive_pairwise_rejected (self : TMetricsPlotCalcer V S) (cursor : TMatrix V)
    (pool : TPool V) (target weights : List V) (plotLineIndex modelIterationIndex : Nat) :
    ((∃ m ∈ self.Metrics, m.IsAdditiveMetric = false ∧
          m.GetErrorType = EErrorType.PairwiseError) →
        ∃ e, ProceedMetrics self cursor pool target weights plotLineIndex modelIterationIndex
          = .error e) ∧
      ((∀ m ∈ self.Metrics, m.IsAdditiveMetric = false →
          m.GetErrorType = EErrorType.PerObjectError) →
        ProceedMetrics self cursor pool target weights plotLineIndex modelIterationIndex
          ≠ .error TError.nonAdditivePairwise) := by
  constructor
  · rintro ⟨m, hm, hna, hpw⟩
    exact ProceedMetrics_fails self cursor pool target weights plotLineIndex
      modelIterationIndex m hm hpw (Or.inl hna)
  · intro hall h
    unfold ProceedMetrics at h
    simp only [] at h
    split at h
    · rename_i e1 h1
      simp only [Except.error.injEq] at h
      subst h
      split at h1
      · split at h1
        · cases h1
        · cases h1
      · cases h1
    · split at h
      · rename_i e1 h1
        simp only [Except.error.injEq] at h
        subst h
        obtain ⟨i, s, -, hb⟩ := forRange_error_elim _ _ _ _ h1
        obtain ⟨m, hm, hna, hne⟩ := ProceedMetric_nonAdditivePairwise _ _ _ _ _ _ _ _ _ hb
        exact hne (hall m hm hna)
      · split at h
        · have := SaveApproxToFile_error h
          cases this
        · cases h

/-- The scenario for C6: a calculator whose only metric is non-additive and
pairwise is rejected at the first checkpoint. -/
theorem C6_nonadditive_pairwise_rejected_witness :
    (∃ m ∈ (demoCalcer 0 10 5 [demoMetric false EErrorType.PairwiseError]).Metrics,
        m.IsAdditiveMetric = false ∧ m.GetErrorType = EErrorType.PairwiseError) ∧
      ∃ e, ProceedMetrics (demoCalcer 0 10 5 [demoMetric false EErrorType.PairwiseError])
        [[0, 0, 0, 0]] (demoPool []) (demoPool []).Docs.Target (demoPool []).Docs.Weight 0 0
          = .error e :=
  ⟨⟨demoMetric false EErrorType.PairwiseError, by simp [demoCalcer], rfl, rfl⟩,
    (C6_nonadditive_pairwise_rejected
      (demoCalcer 0 10 5 [demoMetric false EErrorType.PairwiseError])
      [[0, 0, 0, 0]] (demoPool []) (demoPool []).Docs.Target (demoPool []).Docs.Weight 0 0).1
      ⟨demoMetric false EErrorType.PairwiseError, by simp [demoCalcer], rfl, rfl⟩⟩

/-- C6 as stated fails: with a single registered metric that is non-additive
and per-object, `ProceedMetrics` succeeds; with a single metric that is
non-additive and pairwise it raises the "non-additive pairwise" error. -/
theorem C6_counterexample :
    (∃ m ∈ (demoCalcer 0 10 5 [demoMetric false EErrorType.PerObjectError]).Metrics,
        m.IsAdditiveMetric = false ∧ m.GetErrorType = EErrorType.PerObjectError) ∧
      (ProceedMetrics (demoCalcer 0 10 5 [demoMetric false EErrorType.PerObjectError])
        [[0, 0, 0, 0]] (demoPool []) (demoPool []).Docs.Target (demoPool []).Docs.Weight
        0 0).isOk = true ∧
      ProceedMetrics (demoCalcer 0 10 5 [demoMetric false EErrorType.PairwiseError])
        [[0, 0, 0, 0]] (demoPool []) (demoPool []).Docs.Target (demoPool []).Docs.Weight 0 0
          = .error TError.nonAdditivePairwise :=
  ⟨⟨demoMetric false EErrorType.PerObjectError, by simp [demoCalcer], rfl, rfl⟩, rfl, rfl⟩

/-- C7 (pairwise metric without pairs): a calculator made by
`CreateMetricCalcer` holds the given metrics whatever the dataset is; if one of
them is pairwise and the dataset has no pair, `ProceedMetrics` at checkpoint
ordinal 0 fails; and for an additive pairwise metric, a non-empty pair list and
an accepted target, `ComputeMetric` returns `EvalPairwise` over
`[0, docCount)`. -/
theorem C7_pairwise_without_pairs (model : TFullModel V) (begin_ end_ evalPeriod : Int)
    (tmpDir : TTmpDir V) (metrics : List (IMetric V S)) (m : IMetric V S) (hm : m ∈ metrics)
    (hpw : m.GetErrorType = EErrorType.PairwiseError) (pool : TPool V)
    (hpairs : pool.Pairs = []) (cursor : TMatrix V) (modelIterationIndex : Nat) :
    (CreateMetricCalcer model begin_ end_ evalPeriod tmpDir metrics).Metrics = metrics ∧
      (CreateMetricCalcer model begin_ end_ evalPeriod tmpDir metrics).Iterations = [] ∧
      (∃ e, ProceedMetrics (CreateMetricCalcer model begin_ end_ evalPeriod tmpDir metrics)
          cursor pool pool.Docs.Target pool.Docs.Weight 0 modelIterationIndex = .error e) ∧
      (∀ (metric : IMetric V S) (pool1 : TPool V) (target weights : List V) (approx : TMatrix V),
        metric.IsAdditiveMetric = true → metric.GetErrorType = EErrorType.PairwiseError →
        pool1.Pairs ≠ [] → metric.CheckTarget target = true →
        ComputeMetric metric pool1 target weights approx
          = .ok (metric.EvalPairwise approx pool1.Pairs 0 (target.length : Int))) := by
  refine ⟨CreateMetricCalcer_Metrics _ _ _ _ _ _, ?_, ?_, ?_⟩
  · unfold CreateMetricCalcer
    simp only []
    rw [(foldl_AddMetric_fields metrics _).2.2.2.2]
    rfl
  · apply ProceedMetrics_fails _ _ _ _ _ _ _ m _ hpw (Or.inr hpairs)
    rw [CreateMetricCalcer_Metrics]
    exact hm
  · intro metric pool1 target weights approx _ hpw1 hne hct
    unfold ComputeMetric
    simp [hct, hpw1, hne]

/-- The scenario for C7: an additive pairwise metric on the dataset without
pairs. -/
theorem C7_pairwise_without_pairs_witness :
    (∃ e, ProceedMetrics
        (CreateMetricCalcer demoModel 0 10 5 demoTmpDir [demoMetric true EErrorType.PairwiseError])
        [[0, 0, 0, 0]] (demoPool []) (demoPool []).Docs.Target (demoPool []).Docs.Weight 0 0
          = .error e) ∧
      ComputeMetric (demoMetric true EErrorType.PairwiseError) (demoPool [⟨0, 1⟩])
          [1, 0, 1, 0] [1, 1, 1, 1] [[0, 0, 0, 0]]
        = .ok ((demoMetric true EErrorType.PairwiseError).EvalPairwise [[0, 0, 0, 0]]
            (demoPool [⟨0, 1⟩]).Pairs 0 4) :=
  ⟨(C7_pairwise_without_pairs demoModel 0 10 5 demoTmpDir
      [demoMetric true EErrorType.PairwiseError] (demoMetric true EErrorType.PairwiseError)
      (by simp) rfl (demoPool []) rfl [[0, 0, 0, 0]] 0).2.2.1,
    (C7_pairwise_without_pairs demoModel 0 10 5 demoTmpDir
      [demoMetric true EErrorType.PairwiseError] (demoMetric true EErrorType.PairwiseError)
      (by simp) rfl (demoPool []) rfl [[0, 0, 0, 0]] 0).2.2.2
      (demoMetric true EErrorType.PairwiseError) (demoPool [⟨0, 1⟩]) [1, 0, 1, 0] [1, 1, 1, 1]
      [[0, 0, 0, 0]] rfl rfl (by simp [demoPool]) rfl⟩

end Claims67

section Cells
variable {α : Type}

theorem cell_eq_some_iff {m : List (List α)} {r c : Nat} {v : α} :
    cell m r c = some v ↔ ∃ row, m[r]? = some row ∧ row[c]? = some v := by
  unfold cell
  cases h : m[r]? with
  | none => simp
  | some row => simp

theorem getAt_of_cell {m : List (List α)} {r c : Nat} {v : α} (h : cell m r c = some v) :
    ∃ row, getAt m r = .ok row ∧ getAt row c = .ok v := by
  obtain ⟨row, h1, h2⟩ := cell_eq_some_iff.mp h
  exact ⟨row, getAt_eq_ok h1, getAt_eq_ok h2⟩

/-- Two matrices with the same number of rows and the same cells are equal. -/
theorem matrix_ext {m1 m2 : List (List α)} (hlen : m1.length = m2.length)
    (hcell : ∀ r c, cell m1 r c = cell m2 r c) : m1 = m2 := by
  apply List.ext_getElem?
  intro r
  by_cases hr : r < m1.length
  · have hr2 : r < m2.length := hlen ▸ hr
    rw [List.getElem?_eq_getElem hr, List.getElem?_eq_getElem hr2]
    congr 1
    apply List.ext_getElem?
    intro c
    have := hcell r c
    simpa [cell, List.getElem?_eq_getElem hr, List.getElem?_eq_getElem hr2] using this
  · rw [List.getElem?_eq_none (by omega), List.getElem?_eq_none (by omega)]

/-- The effect of a checked cell write. -/
theorem setAt2_spec {m : List (List α)} {r c : Nat} {d : α} (x : α)
    (h : cell m r c = some d) :
    ∃ m1, setAt2 m r c x = .ok m1 ∧ m1.length = m.length ∧
      ∀ r1 c1, cell m1 r1 c1 = if r1 = r ∧ c1 = c then some x else cell m r1 c1 := by
  obtain ⟨row, h1, h2⟩ := cell_eq_some_iff.mp h
  have hc : c < row.length := by
    by_contra hc
    rw [List.getElem?_eq_none (by omega)] at h2
    cases h2
  have hr : r < m.length := by
    by_contra hr
    rw [List.getElem?_eq_none (by omega)] at h1
    cases h1
  refine ⟨m.set r (row.set c x), setAt2_eq_ok x h1 hc, by simp, ?_⟩
  intro r1 c1
  unfold cell
  by_cases hr1 : r1 = r
  · subst hr1
    rw [List.getElem?_set, if_pos rfl, if_pos hr]
    simp only [h1]
    by_cases hc1 : c1 = c
    · subst hc1
      simp [List.getElem?_set, hc]
    · have hne : c ≠ c1 := fun h => hc1 h.symm
      simp [hc1, List.getElem?_set_ne hne]
  · have hne : r ≠ r1 := fun h => hr1 h.symm
    rw [List.getElem?_set_ne hne]
    simp [hr1]

theorem cell_of_shape {rows cols : Nat} {m : List (List α)} (h : IsShape rows cols m)
    {r c : Nat} (hr : r < rows) (hc : c < cols) : ∃ v, cell m r c = some v := by
  obtain ⟨hlen, hrow⟩ := h
  have hr1 : r < m.length := by omega
  have hl : (m[r]).length = cols := hrow _ (List.getElem_mem hr1)
  have hc1 : c < (m[r]).length := by omega
  exact ⟨(m[r])[c], by simp [cell, List.getElem?_eq_getElem hr1, List.getElem?_eq_getElem hc1]⟩

theorem cell_eq_none_of_shape {rows cols : Nat} {m : List (List α)} (h : IsShape rows cols m)
    {r c : Nat} (hrc : rows ≤ r ∨ cols ≤ c) : cell m r c = none := by
  obtain ⟨hlen, hrow⟩ := h
  unfold cell
  by_cases hr1 : r < m.length
  · have hl : (m[r]).length = cols := hrow _ (List.getElem_mem hr1)
    rw [List.getElem?_eq_getElem hr1]
    simp only []
    apply List.getElem?_eq_none
    omega
  · rw [List.getElem?_eq_none (by omega)]

end Cells

section AppendLemmas
variable {V : Type} [Add V]

theorem cell_addMatrix (a b : TMatrix V) (r c : Nat) :
    cell (addMatrix a b) r c =
      match cell a r c, cell b r c with
      | some x, some y => some (x + y)
      | _, _ => none := by
  unfold cell addMatrix
  rw [List.getElem?_zipWith]
  cases ha : a[r]? with
  | none => simp
  | some ra =>
    cases hb : b[r]? with
    | none =>
      simp only []
      cases ra[c]? <;> rfl
    | some rb =>
      simp only []
      rw [List.getElem?_zipWith]
      cases ra[c]? <;> cases rb[c]? <;> rfl

theorem addMatrix_shape {rows cols : Nat} {a b : TMatrix V} (ha : IsShape rows cols a)
    (hb : IsShape rows cols b) : IsShape rows cols (addMatrix a b) := by
  obtain ⟨ha1, ha2⟩ := ha
  obtain ⟨hb1, hb2⟩ := hb
  constructor
  · simp [addMatrix, ha1, hb1]
  · intro row hrow
    unfold addMatrix at hrow
    obtain ⟨i, hi, hget⟩ := List.getElem_of_mem hrow
    rw [List.getElem_zipWith] at hget
    rw [← hget, List.length_zipWith]
    simp only [List.length_zipWith] at hi
    rw [ha2 _ (List.getElem_mem _), hb2 _ (List.getElem_mem _)]
    simp

theorem AppendCell_spec {approx dst : TMatrix V} {dim i : Nat} {a d : V}
    (ha : cell approx dim i = some a) (hd : cell dst dim i = some d) :
    ∃ m1, AppendCell approx dim i dst = .ok m1 ∧ m1.length = dst.length ∧
      ∀ r c, cell m1 r c = if r = dim ∧ c = i then some (d + a) else cell dst r c := by
  obtain ⟨arow, h1, h2⟩ := getAt_of_cell ha
  obtain ⟨drow, h3, h4⟩ := getAt_of_cell hd
  unfold AppendCell
  simp only [h1, h2, h3, h4]
  exact setAt2_spec (d + a) hd

/-- The function `Append` adds `approx` into `dst` cell by cell. -/
theorem Append_eq {rows cols : Nat} {approx dst : TMatrix V} (hrows : 1 ≤ rows)
    (ha : IsShape rows cols approx) (hd : IsShape rows cols dst) :
    Append approx dst = .ok (addMatrix dst approx) := by
  have hrow0 : ∃ row0, approx[0]? = some row0 ∧ row0.length = cols := by
    have h0 : 0 < approx.length := by rw [ha.1]; omega
    exact ⟨approx[0], List.getElem?_eq_getElem h0, ha.2 _ (List.getElem_mem h0)⟩
  obtain ⟨row0, hr0, hl0⟩ := hrow0
  unfold Append
  simp only [getAt_eq_ok hr0, hl0, ha.1]
  have houter := forRange_inv
    (fun dim (m : TMatrix V) => m.length = rows ∧
      ∀ r c, cell m r c = if r < dim then cell (addMatrix dst approx) r c else cell dst r c)
    (fun dim dst => forRange cols (fun i dst => AppendCell approx dim i dst) dst) rows dst
    ⟨hd.1, fun r c => by simp⟩
    (by
      intro dim m hdim ⟨hlen, hcells⟩
      have hinner := forRange_inv
        (fun i (m1 : TMatrix V) => m1.length = rows ∧
          ∀ r c, cell m1 r c =
            if r = dim ∧ c < i then cell (addMatrix dst approx) r c else cell m r c)
        (fun i dst => AppendCell approx dim i dst) cols m
        ⟨hlen, fun r c => by simp⟩
        (by
          intro i m1 hi ⟨hlen1, hcells1⟩
          obtain ⟨a, hca⟩ := cell_of_shape ha hdim hi
          obtain ⟨d, hcd⟩ := cell_of_shape hd hdim hi
          have hm1 : cell m1 dim i = some d := by
            rw [hcells1, if_neg (by omega), hcells, if_neg (by omega), hcd]
          obtain ⟨m2, hm2, hlen2, hcells2⟩ := AppendCell_spec hca hm1
          refine ⟨m2, hm2, by omega, ?_⟩
          intro r c
          rw [hcells2]
          by_cases hrc : r = dim ∧ c = i
          · obtain ⟨hr, hc⟩ := hrc
            subst hr hc
            rw [if_pos ⟨rfl, rfl⟩, if_pos ⟨rfl, Nat.lt_succ_self _⟩, cell_addMatrix, hcd, hca]
          · rw [if_neg hrc, hcells1]
            by_cases hr : r = dim
            · subst hr
              have hci : c ≠ i := fun h => hrc ⟨rfl, h⟩
              by_cases hlt : c < i
              · rw [if_pos ⟨rfl, hlt⟩, if_pos ⟨rfl, by omega⟩]
              · rw [if_neg (by omega), if_neg (by omega)]
            · rw [if_neg (by tauto), if_neg (by tauto)])
      obtain ⟨m1, hm1, hlen1, hcells1⟩ := hinner
      refine ⟨m1, hm1, hlen1, ?_⟩
      intro r c
      rw [hcells1]
      by_cases hr : r = dim
      · subst hr
        by_cases hc : c < cols
        · rw [if_pos ⟨rfl, hc⟩, if_pos (Nat.lt_succ_self _)]
        · rw [if_neg (by omega), hcells, if_neg (by omega), if_pos (Nat.lt_succ_self _),
            cell_eq_none_of_shape hd (Or.inr (by omega)),
            cell_eq_none_of_shape (addMatrix_shape hd ha) (Or.inr (by omega))]
      · rw [if_neg (by tauto), hcells]
        by_cases hlt : r < dim
        · rw [if_pos hlt, if_pos (by omega)]
        · rw [if_neg hlt, if_neg (by omega)])
  obtain ⟨m, hm, hlen, hcells⟩ := houter
  rw [hm]
  congr 1
  apply matrix_ext
  · rw [hlen, (addMatrix_shape hd ha).1]
  · intro r c
    rw [hcells]
    by_cases hr : r < rows
    · rw [if_pos hr]
    · rw [if_neg hr, cell_eq_none_of_shape hd (Or.inl (by omega)),
        cell_eq_none_of_shape (addMatrix_shape hd ha) (Or.inl (by omega))]

end AppendLemmas

section MetricLoop
variable {V S : Type}

theorem resize_of_length_eq {α : Type} (xs : List α) (n : Nat) (d : α) (h : xs.length = n) :
    resize xs n d = xs := by
  unfold resize
  rw [← h]
  simp

theorem resize_succ {α : Type} (xs : List α) (n : Nat) (d : α) (h : xs.length = n) :
    resize xs (n + 1) d = xs ++ [d] := by
  unfold resize
  rw [List.take_of_length_le (by omega)]
  have : n + 1 - xs.length = 1 := by omega
  rw [this]
  rfl

theorem resize_nil {α : Type} (n : Nat) (d : α) : resize ([] : List α) n d = List.replicate n d := by
  simp [resize]

theorem ComputeMetric_supported {pool : TPool V} {target : List V} {m : IMetric V S}
    (hadd : m.IsAdditiveMetric = true) (h : MetricSupported pool target m) (weights : List V)
    (cursor : TMatrix V) : ∃ stat, ComputeMetric m pool target weights cursor = .ok stat := by
  unfold MetricSupported at h
  rw [if_pos hadd] at h
  obtain ⟨hct, hpo⟩ := h
  unfold ComputeMetric
  simp only [hct, Bool.true_eq_false, if_false]
  by_cases hp : m.GetErrorType = EErrorType.PerObjectError
  · exact ⟨_, by rw [if_pos hp]⟩
  · have hne : pool.Pairs ≠ [] := by
      rcases hpo with h | h
      · exact absurd h hp
      · exact h
    have hlen : ¬ pool.Pairs.length = 0 := by
      intro h0
      exact hne (List.length_eq_zero.mp h0)
    exact ⟨_, by rw [if_neg hp, if_neg hlen]⟩

variable [Zero S] [Add S]

/-- One pass of the metric loop on a metric the dataset supports. -/
theorem ProceedMetric_spec (metrics : List (IMetric V S)) (cursor : TMatrix V) (pool : TPool V)
    (target weights : List V) (k j : Nat) (plots : List (List S)) (plot : List S)
    (m : IMetric V S) (hp : plots[j]? = some plot) (hlen : plot.length = k)
    (hm : metrics[j]? = some m) (hs : MetricSupported pool target m) :
    ProceedMetric metrics cursor pool target weights k (k + 1) j plots
      = .ok (plots.set j (plot ++ [plotEntry pool target weights cursor m])) := by
  have hj : j < plots.length := by
    by_contra hj
    rw [List.getElem?_eq_none (by omega)] at hp
    cases hp
  unfold ProceedMetric
  simp only [getAt_eq_ok hp, getAt_eq_ok hm, hlen, Nat.lt_succ_self, if_true,
    resize_succ plot k 0 hlen]
  have hk : (plot ++ [(0 : S)])[k]? = some 0 := by
    rw [List.getElem?_append_right (by omega)]
    simp [hlen]
  have hkl : k < (plot ++ [(0 : S)]).length := by simp [hlen]
  cases hadd : m.IsAdditiveMetric with
  | true =>
    obtain ⟨stat, hstat⟩ := ComputeMetric_supported hadd hs weights cursor
    simp only [if_true, getAt_eq_ok hk, hstat, setAt_of_lt _ hkl, setAt_of_lt _ hj]
    congr 2
    unfold plotEntry
    rw [if_pos hadd, hstat]
    simp only []
    rw [← hlen]
    simp
  | false =>
    have hpo : m.GetErrorType = EErrorType.PerObjectError := by
      unfold MetricSupported at hs
      rw [if_neg (by simp [hadd])] at hs
      exact hs
    simp only [Bool.false_eq_true, if_false, hpo, if_true, setAt_of_lt _ hj]
    congr 2
    unfold plotEntry
    rw [if_neg (by simp [hadd])]

/-- The metric loop of `ProceedMetrics` at checkpoint `k`, on plots that hold
`k` entries per metric: every plot gets its entry for checkpoint `k`. -/
theorem ProceedMetric_loop (metrics : List (IMetric V S)) (cursor : TMatrix V) (pool : TPool V)
    (target weights : List V) (k : Nat) (plots0 : List (List S))
    (hshape : IsShape metrics.length k plots0)
    (hs : ∀ m ∈ metrics, MetricSupported pool target m) :
    forRange metrics.length (ProceedMetric metrics cursor pool target weights k (k + 1)) plots0
      = .ok (List.zipWith (fun p m => p ++ [plotEntry pool target weights cursor m])
          plots0 metrics) := by
  have h := forRange_inv
    (fun j (plots : List (List S)) => plots.length = metrics.length ∧
      ∀ r, plots[r]? = if r < j then
          (List.zipWith (fun p m => p ++ [plotEntry pool target weights cursor m])
            plots0 metrics)[r]?
        else plots0[r]?)
    (ProceedMetric metrics cursor pool target weights k (k + 1)) metrics.length plots0
    ⟨hshape.1, fun r => by simp⟩
    (by
      intro j plots hj ⟨hlen, hget⟩
      have hj0 : j < plots0.length := by rw [hshape.1]; exact hj
      have hp : plots[j]? = some plots0[j] := by
        rw [hget, if_neg (by omega), List.getElem?_eq_getElem hj0]
      have hm : metrics[j]? = some metrics[j] := List.getElem?_eq_getElem hj
      have hl : (plots0[j]).length = k := hshape.2 _ (List.getElem_mem hj0)
      refine ⟨_, ProceedMetric_spec metrics cursor pool target weights k j plots _ _ hp hl hm
        (hs _ (List.getElem_mem hj)), by simp [hlen], ?_⟩
      intro r
      rw [List.getElem?_set]
      by_cases hr : j = r
      · subst hr
        rw [if_pos rfl, if_pos (by omega), if_pos (Nat.lt_succ_self _), List.getElem?_zipWith,
          List.getElem?_eq_getElem hj0, hm]
      · rw [if_neg hr, hget]
        by_cases hlt : r < j
        · rw [if_pos hlt, if_pos (by omega)]
        · rw [if_neg hlt, if_neg (by omega)])
  obtain ⟨plots, hplots, hlen, hget⟩ := h
  rw [hplots]
  congr 1
  apply List.ext_getElem?
  intro r
  rw [hget]
  by_cases hr : r < metrics.length
  · rw [if_pos hr]
  · rw [if_neg hr, List.getElem?_eq_none (by rw [hshape.1]; omega),
      List.getElem?_eq_none (by simp [hshape.1]; omega)]

end MetricLoop

section Spill
variable {V S : Type}

theorem ui32_of_lt {n : Nat} (h : n < 4294967296) : ui32 n = n := by
  unfold ui32
  exact Nat.mod_eq_of_lt h

/-- The function `GetApproxFileName` at the first ordinal that has no name yet. -/
theorem GetApproxFileName_fresh (self : TMetricsPlotCalcer V S) (k : Nat)
    (hlen : self.NonAdditiveMetricsData.ApproxFiles.length = k) (hk : k + 1 < 4294967296) :
    GetApproxFileName self k = .ok (k,
      { self with
        NonAdditiveMetricsData :=
          { self.NonAdditiveMetricsData with
            ApproxFiles := self.NonAdditiveMetricsData.ApproxFiles ++ [some k] }
        DeleteTmpDirOnExitFlag :=
          if (!self.TmpDir.Exists) = true then true else self.DeleteTmpDirOnExitFlag
        TmpDir := { Exists := true
                    Files := fun p => if p = k then none else self.TmpDir.Files p } }) := by
  unfold GetApproxFileName
  simp only [ui32_of_lt hk, hlen, Nat.lt_succ_self, if_true, resize_succ _ k none hlen]
  have h1 : (self.NonAdditiveMetricsData.ApproxFiles ++ [none])[k]? = some none := by
    rw [List.getElem?_append_right (by omega)]
    simp [hlen]
  rw [h1]
  simp only []
  have h2 : (self.NonAdditiveMetricsData.ApproxFiles ++ [none]).set k (some k)
      = self.NonAdditiveMetricsData.ApproxFiles ++ [some k] := by
    rw [List.set_append_right _ _ (by omega)]
    simp [hlen]
  rw [h2]

/-- The function `GetApproxFileName` at an ordinal that has a name. -/
theorem GetApproxFileName_named (self : TMetricsPlotCalcer V S) (k path : Nat)
    (hname : self.NonAdditiveMetricsData.ApproxFiles[k]? = some (some path))
    (hk : k + 1 < 4294967296) :
    GetApproxFileName self k = .ok (path, self) := by
  have hlt : k < self.NonAdditiveMetricsData.ApproxFiles.length := by
    by_contra h
    rw [List.getElem?_eq_none (by omega)] at hname
    cases hname
  unfold GetApproxFileName
  simp only [ui32_of_lt hk]
  rw [if_neg (by omega), hname]

end Spill

section SpillLoops
variable {V S : Type}

theorem cell_append_singleton {α : Type} (xs : List (List α)) (l : List α) (r c : Nat) :
    cell (xs ++ [l]) r c =
      if r < xs.length then cell xs r c else if r = xs.length then l[c]? else none := by
  unfold cell
  by_cases h1 : r < xs.length
  · rw [if_pos h1, List.getElem?_append_left h1]
  · rw [if_neg h1, List.getElem?_append_right (by omega)]
    by_cases h2 : r = xs.length
    · subst h2
      simp
    · rw [if_neg h2]
      have : r - xs.length ≠ 0 := by omega
      obtain ⟨n, hn⟩ := Nat.exists_eq_succ_of_ne_zero this
      rw [hn]
      simp

/-- The inner loop of `SaveApproxToFile` fills `line` with column `i`. -/
theorem SaveLine_spec {rows cols : Nat} {approx : TMatrix V} (ha : IsShape rows cols approx)
    {i : Nat} (hi : i < cols) (ln : List V) (hline : ln.length = rows) :
    ∃ line1, SaveLine approx i ln = .ok line1 ∧ line1.length = rows ∧
      ∀ dim, line1[dim]? = cell approx dim i := by
  have h := forRange_inv
    (fun j (l : List V) => l.length = rows ∧
      ∀ dim, l[dim]? = if dim < j then cell approx dim i else ln[dim]?)
    (SaveLineCell approx i) rows ln
    ⟨hline, fun dim => by simp⟩
    (by
      intro j l hj ⟨hlen, hget⟩
      obtain ⟨v, hv⟩ := cell_of_shape ha hj hi
      obtain ⟨row, h1, h2⟩ := getAt_of_cell hv
      refine ⟨l.set j v, ?_, by simp [hlen], ?_⟩
      · unfold SaveLineCell
        simp only [h1, h2]
        exact setAt_of_lt v (by omega)
      · intro dim
        rw [List.getElem?_set]
        by_cases hd : j = dim
        · subst hd
          rw [if_pos rfl, if_pos (by omega), if_pos (Nat.lt_succ_self _), hv]
        · rw [if_neg hd, hget]
          by_cases hlt : dim < j
          · rw [if_pos hlt, if_pos (by omega)]
          · rw [if_neg hlt, if_neg (by omega)])
  obtain ⟨l, hl, hlen, hget⟩ := h
  refine ⟨l, ?_, hlen, ?_⟩
  · unfold SaveLine
    rw [ha.1]
    exact hl
  · intro dim
    rw [hget]
    by_cases hd : dim < rows
    · rw [if_pos hd]
    · rw [if_neg hd, List.getElem?_eq_none (by omega),
        cell_eq_none_of_shape ha (Or.inl (by omega))]

theorem headD_length_of_shape {α : Type} {rows cols : Nat} {m : List (List α)}
    (h : IsShape rows cols m) (hrows : 1 ≤ rows) : (m.headD []).length = cols := by
  obtain ⟨hlen, hrow⟩ := h
  cases m with
  | nil => simp at hlen; omega
  | cons r rs => exact hrow r (by simp)

/-- The function `SaveApproxToFile` adds the records of `approx` at the end of the file of
the checkpoint. -/
theorem SaveApproxToFile_spec [Zero V] {rows cols : Nat} (self self1 : TMetricsPlotCalcer V S)
    (k fileName : Nat) (approx : TMatrix V) (hname : GetApproxFileName self k = .ok (fileName, self1))
    (hrows : 1 ≤ rows) (ha : IsShape rows cols approx) :
    ∃ recs, IsRecordsOf approx recs ∧
      SaveApproxToFile self k approx = .ok
        { self1 with
          TmpDir := { self1.TmpDir with
                      Files := fun p =>
                        if p = fileName then some ((self1.TmpDir.Files fileName).getD [] ++ recs)
                        else self1.TmpDir.Files p } } := by
  have hrow0 : ∃ row0, approx[0]? = some row0 ∧ row0.length = cols := by
    have h0 : 0 < approx.length := by rw [ha.1]; omega
    exact ⟨approx[0], List.getElem?_eq_getElem h0, ha.2 _ (List.getElem_mem h0)⟩
  obtain ⟨row0, hr0, hl0⟩ := hrow0
  have h := forRange_inv
    (fun i (st : List (List V) × List V) => st.2.length = rows ∧
      ∃ recs, st.1 = (self1.TmpDir.Files fileName).getD [] ++ recs ∧ recs.length = i ∧
        ∀ i1 dim, cell recs i1 dim = if i1 < i then cell approx dim i1 else none)
    (SaveRecord approx) cols
    ((self1.TmpDir.Files fileName).getD [], List.replicate approx.length 0)
    ⟨by simp [ha.1], [], by simp, rfl, fun i1 dim => by simp [cell]⟩
    (by
      intro i st hi ⟨hline, recs, hst, hlen, hcells⟩
      obtain ⟨line1, hl1, hlen1, hget1⟩ := SaveLine_spec ha hi st.2 hline
      refine ⟨(st.1 ++ [line1], line1), by unfold SaveRecord; simp only [hl1], hlen1,
        recs ++ [line1], ?_, ?_, ?_⟩
      · simp only [hst, List.append_assoc]
      · simp [hlen]
      · intro i1 dim
        rw [cell_append_singleton, hlen]
        by_cases h1 : i1 < i
        · rw [if_pos h1, if_pos (by omega), hcells, if_pos h1]
        · rw [if_neg h1]
          by_cases h2 : i1 = i
          · subst h2
            rw [if_pos rfl, if_pos (Nat.lt_succ_self _), hget1]
          · rw [if_neg h2, if_neg (by omega)])
  obtain ⟨st, hst, -, recs, hst1, hlen, hcells⟩ := h
  refine ⟨recs, ⟨?_, ?_⟩, ?_⟩
  · rw [hlen, headD_length_of_shape ha hrows]
  · intro i dim
    rw [hcells]
    by_cases hi : i < cols
    · rw [if_pos hi]
    · rw [if_neg hi, cell_eq_none_of_shape ha (Or.inr (by omega))]
  · unfold SaveApproxToFile
    simp only [hname, getAt_eq_ok hr0, hl0, hst, hst1]

/-- The inner loop of `LoadApprox` writes `line` into column `i`. -/
theorem LoadLine_spec {rows : Nat} (ln : List V) (i : Nat) (result : TMatrix V)
    (hlen : result.length = rows) (hline : ∀ dim, dim < rows → ∃ v, ln[dim]? = some v)
    (hcol : ∀ dim, dim < rows → ∃ v, cell result dim i = some v) :
    ∃ result1, LoadLine ln i result = .ok result1 ∧ result1.length = rows ∧
      ∀ r c, cell result1 r c = if c = i ∧ r < rows then ln[r]? else cell result r c := by
  have h := forRange_inv
    (fun j (m : TMatrix V) => m.length = rows ∧
      ∀ r c, cell m r c = if c = i ∧ r < j then ln[r]? else cell result r c)
    (LoadLineCell ln i) rows result
    ⟨hlen, fun r c => by simp⟩
    (by
      intro j m hj ⟨hlenm, hcells⟩
      obtain ⟨v, hv⟩ := hline j hj
      obtain ⟨d, hd⟩ := hcol j hj
      have hmd : cell m j i = some d := by
        rw [hcells, if_neg (by omega), hd]
      obtain ⟨m1, hm1, hlen1, hcells1⟩ := setAt2_spec v hmd
      refine ⟨m1, by unfold LoadLineCell; simp only [getAt_eq_ok hv]; exact hm1, by omega, ?_⟩
      intro r c
      rw [hcells1]
      by_cases hrc : r = j ∧ c = i
      · obtain ⟨hr, hc⟩ := hrc
        subst hr hc
        rw [if_pos ⟨rfl, rfl⟩, if_pos ⟨rfl, Nat.lt_succ_self _⟩, hv]
      · rw [if_neg hrc, hcells]
        by_cases hc : c = i
        · subst hc
          have hrj : r ≠ j := fun h => hrc ⟨h, rfl⟩
          by_cases hlt : r < j
          · rw [if_pos ⟨rfl, hlt⟩, if_pos ⟨rfl, by omega⟩]
          · rw [if_neg (by omega), if_neg (by omega)]
        · rw [if_neg (by tauto), if_neg (by tauto)])
  obtain ⟨m, hm, hlenm, hcells⟩ := h
  refine ⟨m, ?_, hlenm, hcells⟩
  unfold LoadLine
  rw [hlen]
  exact hm

theorem zeroMatrix_shape [Zero V] (rows cols : Nat) :
    IsShape rows cols (zeroMatrix rows cols : TMatrix V) := by
  constructor
  · simp [zeroMatrix]
  · intro row hrow
    unfold zeroMatrix at hrow
    rw [List.eq_of_mem_replicate hrow]
    simp

/-- The function `LoadApprox` on a file that holds the records of `approx` returns `approx`. -/
theorem LoadApprox_spec [Zero V] (self self1 : TMetricsPlotCalcer V S) (k fileName : Nat)
    (approx : TMatrix V) (recs : List (List V))
    (hname : GetApproxFileName self k = .ok (fileName, self1))
    (hfile : self1.TmpDir.Files fileName = some recs)
    (hlen : recs.length = self1.NonAdditiveMetricsData.Target.length)
    (hcells : ∀ i dim, cell recs i dim = cell approx dim i)
    (ha : IsShape self1.Model.ApproxDimension self1.NonAdditiveMetricsData.Target.length approx) :
    LoadApprox self k = .ok (approx, self1) := by
  have hz := zeroMatrix_shape (V := V) self1.Model.ApproxDimension
    self1.NonAdditiveMetricsData.Target.length
  have h := forRange_inv
    (fun i (st : TMatrix V × List (List V)) =>
      st.2 = recs.drop i ∧ st.1.length = self1.Model.ApproxDimension ∧
      ∀ r c, cell st.1 r c =
        if c < i then cell approx r c
        else cell (zeroMatrix self1.Model.ApproxDimension
          self1.NonAdditiveMetricsData.Target.length : TMatrix V) r c)
    LoadRecord
    self1.NonAdditiveMetricsData.Target.length
    (zeroMatrix self1.Model.ApproxDimension self1.NonAdditiveMetricsData.Target.length, recs)
    ⟨by simp, hz.1, fun r c => by simp⟩
    (by
      intro i st hi ⟨hin, hlenr, hres⟩
      have hi1 : i < recs.length := by omega
      have hdrop : st.2 = recs[i] :: recs.drop (i + 1) := by
        rw [hin]
        exact List.drop_eq_getElem_cons hi1
      have hline : ∀ dim, dim < self1.Model.ApproxDimension → ∃ v, (recs[i])[dim]? = some v := by
        intro dim hdim
        obtain ⟨v, hv⟩ := cell_of_shape ha hdim hi
        refine ⟨v, ?_⟩
        have := hcells i dim
        rw [hv] at this
        simpa [cell, List.getElem?_eq_getElem hi1] using this
      have hcol : ∀ dim, dim < self1.Model.ApproxDimension → ∃ v, cell st.1 dim i = some v := by
        intro dim hdim
        rw [hres, if_neg (by omega)]
        exact cell_of_shape hz hdim hi
      obtain ⟨r1, hr1, hlen1, hc1⟩ := LoadLine_spec (recs[i]) i st.1 hlenr hline hcol
      refine ⟨(r1, recs.drop (i + 1)), ?_, rfl, hlen1, ?_⟩
      · unfold LoadRecord
        rw [hdrop]
        simp only [hr1]
      · intro r c
        rw [hc1]
        by_cases hc : c = i
        · subst hc
          by_cases hr : r < self1.Model.ApproxDimension
          · rw [if_pos ⟨rfl, hr⟩, if_pos (Nat.lt_succ_self _)]
            have := hcells c r
            simpa [cell, List.getElem?_eq_getElem hi1] using this
          · rw [if_neg (by tauto), hres, if_neg (by omega), if_pos (Nat.lt_succ_self _),
              cell_eq_none_of_shape hz (Or.inl (by omega)),
              cell_eq_none_of_shape ha (Or.inl (by omega))]
        · rw [if_neg (by tauto), hres]
          by_cases hlt : c < i
          · rw [if_pos hlt, if_pos (by omega)]
          · rw [if_neg hlt, if_neg (by omega)])
  obtain ⟨st, hst, -, hlenst, hcellst⟩ := h
  unfold LoadApprox
  simp only [hname, hfile]
  unfold zeroMatrix at hst
  rw [hst]
  simp only []
  congr 2
  apply matrix_ext
  · rw [hlenst, ha.1]
  · intro r c
    rw [hcellst]
    by_cases hc : c < self1.NonAdditiveMetricsData.Target.length
    · rw [if_pos hc]
    · rw [if_neg hc, cell_eq_none_of_shape hz (Or.inr (by omega)),
        cell_eq_none_of_shape ha (Or.inr (by omega))]

end SpillLoops

section RoundTrip
variable {V S : Type}

/-- The function `GetApproxFileName` at an ordinal without a name: a name is generated and no
file exists under it. -/
theorem GetApproxFileName_unnamed (self : TMetricsPlotCalcer V S) (k : Nat)
    (hnone : ∀ path, self.NonAdditiveMetricsData.ApproxFiles[k]? ≠ some (some path))
    (hk : k + 1 < 4294967296) :
    ∃ files : List (Option Nat), files[k]? = some (some k) ∧
      GetApproxFileName self k = .ok (k,
        { self with
          NonAdditiveMetricsData := { self.NonAdditiveMetricsData with ApproxFiles := files }
          DeleteTmpDirOnExitFlag :=
            if (!self.TmpDir.Exists) = true then true else self.DeleteTmpDirOnExitFlag
          TmpDir := { Exists := true
                      Files := fun p => if p = k then none else self.TmpDir.Files p } }) := by
  have hres : ∃ files0 : List (Option Nat),
      (if self.NonAdditiveMetricsData.ApproxFiles.length < k + 1 then
          resize self.NonAdditiveMetricsData.ApproxFiles (k + 1) none
        else self.NonAdditiveMetricsData.ApproxFiles) = files0 ∧
      files0[k]? = some none := by
    refine ⟨_, rfl, ?_⟩
    by_cases hlt : self.NonAdditiveMetricsData.ApproxFiles.length < k + 1
    · rw [if_pos hlt]
      unfold resize
      rw [List.take_of_length_le (by omega), List.getElem?_append_right (by omega),
        List.getElem?_replicate, if_pos (by omega)]
    · rw [if_neg hlt]
      have hk1 : k < self.NonAdditiveMetricsData.ApproxFiles.length := by omega
      rw [List.getElem?_eq_getElem hk1]
      cases hv : self.NonAdditiveMetricsData.ApproxFiles[k] with
      | none => rfl
      | some path =>
        exfalso
        apply hnone path
        rw [List.getElem?_eq_getElem hk1, hv]
  obtain ⟨files0, hfiles0, hget0⟩ := hres
  have hk0 : k < files0.length := by
    by_contra h
    rw [List.getElem?_eq_none (by omega)] at hget0
    cases hget0
  refine ⟨files0.set k (some k), by rw [List.getElem?_set, if_pos rfl, if_pos hk0], ?_⟩
  unfold GetApproxFileName
  simp only [ui32_of_lt hk, hfiles0, hget0]

variable [Zero V]

/-- C4 (spill round trip): for a calculator whose model has `D >= 1` output
dimensions and whose target buffer holds `N` documents, and a `D x N` matrix
`approx`, saving `approx` under a checkpoint ordinal that has no file yet and
loading that ordinal returns `approx`. -/
theorem C4_spill_round_trip (self : TMetricsPlotCalcer V S) (k : Nat) (approx : TMatrix V)
    (hD : 1 ≤ self.Model.ApproxDimension)
    (hshape : IsShape self.Model.ApproxDimension
      self.NonAdditiveMetricsData.Target.length approx)
    (hfresh : ∀ path, self.NonAdditiveMetricsData.ApproxFiles[k]? ≠ some (some path))
    (hk : k + 1 < 4294967296) :
    ∃ self1 self2, SaveApproxToFile self k approx = .ok self1 ∧
      LoadApprox self1 k = .ok (approx, self2) := by
  obtain ⟨files, hfiles, hname⟩ := GetApproxFileName_unnamed self k hfresh hk
  obtain ⟨recs, ⟨hrl, hrc⟩, hsave⟩ := SaveApproxToFile_spec self _ k k approx hname hD hshape
  refine ⟨_, _, hsave, LoadApprox_spec _ _ k k approx recs
    (GetApproxFileName_named _ k k hfiles hk) ?_ ?_ hrc hshape⟩
  · simp
  · rw [hrl, headD_length_of_shape hshape hD]

end RoundTrip

/-- The scenario for C4: a one-row matrix over four documents, saved under
ordinal 0 of a calculator that has captured four targets. -/
theorem C4_spill_round_trip_witness :
    ∃ self1 self2,
      SaveApproxToFile
          { demoCalcer 0 10 5 [demoMetric false EErrorType.PerObjectError] with
            NonAdditiveMetricsData :=
              { ApproxFiles := [], Target := [1, 0, 1, 0], Weights := [1, 1, 1, 1] } }
          0 [[3, 1, 4, 1]] = .ok self1 ∧
        LoadApprox self1 0 = .ok ([[3, 1, 4, 1]], self2) :=
  C4_spill_round_trip
    { demoCalcer 0 10 5 [demoMetric false EErrorType.PerObjectError] with
      NonAdditiveMetricsData :=
        { ApproxFiles := [], Target := [1, 0, 1, 0], Weights := [1, 1, 1, 1] } }
    0 [[3, 1, 4, 1]] (by decide) (by simp [IsShape, demoCalcer, demoModel]) (by simp [demoCalcer])
    (by decide)

section Step
variable {V S : Type} [Zero V] [Zero S] [Add S]

/-- The function `ProceedMetrics` at the checkpoint ordinal `k` that follows the `k`
recorded ones, on a dataset that supports every metric. -/
theorem ProceedMetrics_eq (self : TMetricsPlotCalcer V S) (cursor : TMatrix V) (pool : TPool V)
    (target weights : List V) (k it : Nat) (hk : k + 1 < 4294967296)
    (hits : self.Iterations.length = k)
    (hshape : IsShape self.Metrics.length k (resize self.MetricPlots self.Metrics.length []))
    (hs : ∀ m ∈ self.Metrics, MetricSupported pool target m) :
    ProceedMetrics self cursor pool target weights k it =
      if HasNonAdditiveMetric self = true then
        SaveApproxToFile
          (if k = 0 then
            { self with
              MetricPlots := List.zipWith
                (fun p m => p ++ [plotEntry pool target weights cursor m])
                (resize self.MetricPlots self.Metrics.length []) self.Metrics
              Iterations := self.Iterations ++ [it]
              NonAdditiveMetricsData :=
                { self.NonAdditiveMetricsData with
                  Target := self.NonAdditiveMetricsData.Target ++ target
                  Weights := self.NonAdditiveMetricsData.Weights ++ weights } }
          else
            { self with
              MetricPlots := List.zipWith
                (fun p m => p ++ [plotEntry pool target weights cursor m])
                (resize self.MetricPlots self.Metrics.length []) self.Metrics
              Iterations := self.Iterations ++ [it] }) k cursor
      else
        .ok { self with
              MetricPlots := List.zipWith
                (fun p m => p ++ [plotEntry pool target weights cursor m])
                (resize self.MetricPlots self.Metrics.length []) self.Metrics
              Iterations := self.Iterations ++ [it] } := by
  unfold ProceedMetrics
  simp only [ui32_of_lt hk, hits, Nat.lt_succ_self, if_true, List.length_append,
    List.length_singleton,
    ProceedMetric_loop self.Metrics cursor pool target weights k _ hshape hs]
  rfl

end Step

section RunStep
variable {V S : Type} [Zero V] [Add V]

theorem cursorAt_shape (self : TMetricsPlotCalcer V S) (pool : TPool V)
    (happ : ∀ b e, IsShape self.Model.ApproxDimension pool.Docs.DocCount
      (self.Model.ApplyModelMulti pool b e)) (k : Nat) :
    IsShape self.Model.ApproxDimension pool.Docs.DocCount (cursorAt self pool k) := by
  induction k with
  | zero => exact zeroMatrix_shape _ _
  | succ k ih => exact addMatrix_shape ih (happ _ _)

theorem zipWith_map_self {α β γ : Type} (f : β → α → γ) (g : α → β) (l : List α) :
    List.zipWith f (l.map g) l = l.map (fun a => f (g a) a) := by
  induction l with
  | nil => rfl
  | cons a l ih => simp [ih]

variable [Zero S] [Add S]

theorem plotsAt_shape (self : TMetricsPlotCalcer V S) (pool : TPool V) (j : Nat) :
    IsShape self.Metrics.length j (plotsAt self pool j) := by
  constructor
  · simp [plotsAt]
  · intro row hrow
    unfold plotsAt at hrow
    obtain ⟨m, -, hm⟩ := List.mem_map.mp hrow
    rw [← hm]
    simp

theorem plotsAt_succ (self : TMetricsPlotCalcer V S) (pool : TPool V) (j : Nat) :
    List.zipWith
        (fun p m => p ++ [plotEntry pool pool.Docs.Target pool.Docs.Weight
          (cursorAt self pool j) m])
        (plotsAt self pool j) self.Metrics
      = plotsAt self pool (j + 1) := by
  unfold plotsAt
  rw [zipWith_map_self]
  apply List.map_congr_left
  intro m _
  rw [List.range_succ, List.map_append]
  rfl

theorem resize_plots (self0 s : TMetricsPlotCalcer V S) (pool : TPool V) (j : Nat)
    (hinv : RunInv self0 pool j s) :
    resize s.MetricPlots s.Metrics.length [] = plotsAt self0 pool j := by
  rw [hinv.plots, hinv.metrics]
  by_cases hj : j = 0
  · subst hj
    rw [if_pos rfl, resize_nil]
    simp [plotsAt]
  · rw [if_neg hj]
    exact resize_of_length_eq _ _ _ (plotsAt_shape self0 pool j).1

omit [Zero V] [Add V] [Zero S] [Add S] in
theorem HasNonAdditiveMetric_congr (s self0 : TMetricsPlotCalcer V S)
    (h : s.Metrics = self0.Metrics) : HasNonAdditiveMetric s = HasNonAdditiveMetric self0 := by
  unfold HasNonAdditiveMetric
  rw [h]

theorem RunInv_zero (self0 : TMetricsPlotCalcer V S) (pool : TPool V) (hf : Fresh self0) :
    RunInv self0 pool 0 self0 :=
  { model := rfl, first := rfl, last := rfl, step := rfl, metrics := rfl
    iterations := by simp [hf.iterations]
    plots := by simp [hf.plots]
    additiveOnly := fun _ => ⟨rfl, rfl, rfl⟩
    target := fun _ => by simp [hf.target]
    weights := fun _ => by simp [hf.weights]
    approxFiles := fun _ => by simp [hf.approxFiles]
    files := fun _ i hi => by omega }

/-- One call of `ProceedMetrics` in a run, given the shape of the cursor: the
call at ordinal `j`, made on the calculator left by the `j` calls before it,
succeeds and leaves the calculator of `j + 1` calls. -/
theorem ProceedMetrics_step_of_shape (self0 s : TMetricsPlotCalcer V S) (pool : TPool V)
    (j : Nat) (hsupp : ∀ m ∈ self0.Metrics, MetricSupported pool pool.Docs.Target m)
    (hdim : 1 ≤ self0.Model.ApproxDimension)
    (hcur : IsShape self0.Model.ApproxDimension pool.Docs.DocCount (cursorAt self0 pool j))
    (hinv : RunInv self0 pool j s) (hj : j + 1 < 4294967296) :
    ∃ s1, ProceedMetrics s (cursorAt self0 pool j) pool pool.Docs.Target pool.Docs.Weight j
        (checkpointIter self0.First self0.Last self0.Step j) = .ok s1 ∧
      RunInv self0 pool (j + 1) s1 := by
  have hits : s.Iterations.length = j := by rw [hinv.iterations]; simp
  have hres := resize_plots self0 s pool j hinv
  have hshape : IsShape s.Metrics.length j (resize s.MetricPlots s.Metrics.length []) := by
    rw [hres, hinv.metrics]
    exact plotsAt_shape self0 pool j
  have hs : ∀ m ∈ s.Metrics, MetricSupported pool pool.Docs.Target m := by
    rw [hinv.metrics]
    exact hsupp
  have hna := HasNonAdditiveMetric_congr s self0 hinv.metrics
  have hiter : s.Iterations ++ [checkpointIter self0.First self0.Last self0.Step j]
      = (List.range (j + 1)).map (checkpointIter self0.First self0.Last self0.Step) := by
    rw [hinv.iterations, List.range_succ, List.map_append]
    rfl
  have hplots : List.zipWith
      (fun p m => p ++ [plotEntry pool pool.Docs.Target pool.Docs.Weight
        (cursorAt self0 pool j) m])
      (resize s.MetricPlots s.Metrics.length []) s.Metrics = plotsAt self0 pool (j + 1) := by
    rw [hres, hinv.metrics]
    exact plotsAt_succ self0 pool j
  rw [ProceedMetrics_eq s _ pool _ _ j _ hj hits hshape hs, hplots, hiter, hna]
  cases hcase : HasNonAdditiveMetric self0 with
  | false =>
    simp only [Bool.false_eq_true, if_false]
    refine ⟨_, rfl, ?_⟩
    exact
      { model := hinv.model, first := hinv.first, last := hinv.last, step := hinv.step
        metrics := hinv.metrics
        iterations := rfl
        plots := by simp
        additiveOnly := fun _ => hinv.additiveOnly hcase
        target := fun h => by rw [hcase] at h; cases h
        weights := fun h => by rw [hcase] at h; cases h
        approxFiles := fun h => by rw [hcase] at h; cases h
        files := fun h => by rw [hcase] at h; cases h }
  | true =>
    simp only [if_true]
    by_cases hj0 : j = 0
    · subst hj0
      simp only [if_true]
      have hname := GetApproxFileName_fresh
        ({ s with
            MetricPlots := plotsAt self0 pool (0 + 1)
            Iterations := (List.range (0 + 1)).map
              (checkpointIter self0.First self0.Last self0.Step)
            NonAdditiveMetricsData :=
              { s.NonAdditiveMetricsData with
                Target := s.NonAdditiveMetricsData.Target ++ pool.Docs.Target
                Weights := s.NonAdditiveMetricsData.Weights ++ pool.Docs.Weight } } :
          TMetricsPlotCalcer V S) 0
        (by simp [hinv.approxFiles hcase]) (by omega)
      obtain ⟨recs, hrecs, hsave⟩ := SaveApproxToFile_spec _ _ 0 0 (cursorAt self0 pool 0)
        hname hdim hcur
      refine ⟨_, hsave, ?_⟩
      exact
        { model := hinv.model, first := hinv.first, last := hinv.last, step := hinv.step
          metrics := hinv.metrics
          iterations := rfl
          plots := by simp
          additiveOnly := fun h => by rw [hcase] at h; cases h
          target := fun _ => by simp [hinv.target hcase]
          weights := fun _ => by simp [hinv.weights hcase]
          approxFiles := fun _ => by
            simp only [hinv.approxFiles hcase]
            rfl
          files := fun _ i hi => by
            have hi0 : i = 0 := by omega
            subst hi0
            exact ⟨recs, by simp, hrecs⟩ }
    · simp only [if_neg hj0]
      have hname := GetApproxFileName_fresh
        ({ s with
            MetricPlots := plotsAt self0 pool (j + 1)
            Iterations := (List.range (j + 1)).map
              (checkpointIter self0.First self0.Last self0.Step) } :
          TMetricsPlotCalcer V S) j
        (by simp [hinv.approxFiles hcase]) hj
      obtain ⟨recs, hrecs, hsave⟩ := SaveApproxToFile_spec _ _ j j (cursorAt self0 pool j)
        hname hdim hcur
      refine ⟨_, hsave, ?_⟩
      exact
        { model := hinv.model, first := hinv.first, last := hinv.last, step := hinv.step
          metrics := hinv.metrics
          iterations := rfl
          plots := by simp
          additiveOnly := fun h => by rw [hcase] at h; cases h
          target := fun _ => by simp [hinv.target hcase, hj0]
          weights := fun _ => by simp [hinv.weights hcase, hj0]
          approxFiles := fun _ => by
            simp only [hinv.approxFiles hcase]
            rw [List.range_succ, List.map_append]
            rfl
          files := fun _ i hi => by
            by_cases hij : i = j
            · subst hij
              exact ⟨recs, by simp, hrecs⟩
            · obtain ⟨recs1, h1, h2⟩ := hinv.files hcase i (by omega)
              exact ⟨recs1, by simp [hij, h1], h2⟩ }

/-- One call of `ProceedMetrics` in a run: the call at ordinal `j`, made on the
calculator left by the `j` calls before it, succeeds and leaves the calculator
of `j + 1` calls. -/
theorem ProceedMetrics_step (self0 s : TMetricsPlotCalcer V S) (pool : TPool V) (j : Nat)
    (hok : RunOk self0 pool) (hinv : RunInv self0 pool j s) (hj : j + 1 < 4294967296) :
    ∃ s1, ProceedMetrics s (cursorAt self0 pool j) pool pool.Docs.Target pool.Docs.Weight j
        (checkpointIter self0.First self0.Last self0.Step j) = .ok s1 ∧
      RunInv self0 pool (j + 1) s1 :=
  ProceedMetrics_step_of_shape self0 s pool j hok.supported hok.dimension
    (cursorAt_shape self0 pool hok.applier j) hinv hj

end RunStep

section Batches

theorem batch_lt_iff (first last step j : Nat) (hs : 1 ≤ step) :
    j < batchCount first last step ↔ first + j * step < last := by
  unfold batchCount
  by_cases h : first < last
  · rw [if_pos h, Nat.lt_iff_add_one_le, Nat.le_div_iff_mul_le (by omega)]
    have : (j + 1) * step = j * step + step := by ring
    rw [this]
    omega
  · rw [if_neg h]
    have : 0 ≤ j * step := Nat.zero_le _
    omega

theorem batchCount_le (first last step : Nat) (hs : 1 ≤ step) :
    batchCount first last step ≤ last := by
  by_contra h
  have h1 : last < batchCount first last step := by omega
  have h2 := (batch_lt_iff first last step last hs).mp h1
  have h3 : last ≤ last * step := Nat.le_mul_of_pos_right _ (by omega)
  omega

end Batches

section Loop
variable {V S : Type} [Zero V] [Add V] [Zero S] [Add S]

/-- The loop of `ProceedDataSet`, entered for pass `j` with `n` batches left,
runs to its end given `n + 1` units of fuel. -/
theorem ProceedDataSetLoop_run (self0 : TMetricsPlotCalcer V S) (pool : TPool V)
    (hok : RunOk self0 pool) (hs : 1 ≤ self0.Step)
    (hw : self0.Last + self0.Step < 4294967296) :
    ∀ (n j fuel : Nat) (st : TScan V S),
      j + n = batchCount self0.First self0.Last self0.Step → n + 1 ≤ fuel →
      ScanInv self0 pool j st →
      ∃ st1, ProceedDataSetLoop pool fuel (self0.First + j * self0.Step) st = some (.ok st1) ∧
        ScanInv self0 pool (batchCount self0.First self0.Last self0.Step) st1 := by
  intro n
  induction n with
  | zero =>
    intro j fuel st hj hfuel hinv
    obtain ⟨fuel1, rfl⟩ : ∃ f, fuel = f + 1 := ⟨fuel - 1, by omega⟩
    have hnot : ¬ self0.First + j * self0.Step < st.self.Last := by
      rw [hinv.calcer.last, ← batch_lt_iff _ _ _ _ hs]
      omega
    have hjB : j = batchCount self0.First self0.Last self0.Step := by omega
    refine ⟨st, ?_, hjB ▸ hinv⟩
    rw [ProceedDataSetLoop, if_neg hnot]
  | succ n ih =>
    intro j fuel st hj hfuel hinv
    obtain ⟨fuel1, rfl⟩ : ∃ f, fuel = f + 1 := ⟨fuel - 1, by omega⟩
    have hjlt : j < batchCount self0.First self0.Last self0.Step := by omega
    have hlt0 := (batch_lt_iff _ _ _ _ hs).mp hjlt
    have hlt : self0.First + j * self0.Step < st.self.Last := by
      rw [hinv.calcer.last]; exact hlt0
    have hB := batchCount_le self0.First self0.Last self0.Step hs
    have hj1 : j + 1 < 4294967296 := by omega
    obtain ⟨s1, hpm, hinv1⟩ := ProceedMetrics_step self0 st.self pool j hok hinv.calcer hj1
    have hnext : ui32 (self0.First + j * self0.Step + self0.Step)
        = self0.First + (j + 1) * self0.Step := by
      rw [ui32_of_lt (by omega)]
      ring
    have hend : min st.self.Last (ui32 (self0.First + j * self0.Step + st.self.Step))
        = batchEnd self0.First self0.Last self0.Step j := by
      rw [hinv.calcer.last, hinv.calcer.step, hnext]
      rfl
    have happ : Append
        (ApplyBatch s1.Model pool (self0.First + j * self0.Step)
          (batchEnd self0.First self0.Last self0.Step j)) (cursorAt self0 pool j)
        = .ok (cursorAt self0 pool (j + 1)) := by
      rw [Append_eq hok.dimension (by rw [hinv1.model]; exact hok.applier _ _)
        (cursorAt_shape self0 pool hok.applier j), hinv1.model]
      rfl
    have hinv2 : ScanInv self0 pool (j + 1)
        { self := s1
          cursor := cursorAt self0 pool (j + 1)
          currentIter := batchEnd self0.First self0.Last self0.Step j
          idx := ui32 (j + 1)
          calls := st.calls ++
            [TCall.proceedMetrics (cursorAt self0 pool j) j
                (checkpointIter self0.First self0.Last self0.Step j),
              TCall.applyModelMulti (self0.First + j * self0.Step)
                (batchEnd self0.First self0.Last self0.Step j),
              TCall.append (ApplyBatch s1.Model pool (self0.First + j * self0.Step)
                (batchEnd self0.First self0.Last self0.Step j))]
          states := st.states ++ [s1] } :=
      { calcer := hinv1
        cursor := rfl
        currentIter := by simp [checkpointIter]
        idx := ui32_of_lt (by omega)
        calls := by
          simp only [hinv.calls, callsUpTo, batchStart, hinv1.model]
        statesLength := by simp [hinv.statesLength]
        states := by
          intro k s hk
          by_cases hkj : k < st.states.length
          · rw [List.getElem?_append_left hkj] at hk
            exact hinv.states k s hk
          · rw [List.getElem?_append_right (by omega)] at hk
            have hk0 : k - st.states.length = 0 := by
              by_contra hne
              obtain ⟨m, hm⟩ := Nat.exists_eq_succ_of_ne_zero hne
              rw [hm] at hk
              simp at hk
            rw [hk0] at hk
            simp only [List.getElem?_cons_zero, Option.some.injEq] at hk
            have : k = j := by have := hinv.statesLength; omega
            subst this
            rw [← hk]
            exact hinv1 }
    obtain ⟨st1, hloop, hfin⟩ := ih (j + 1) fuel1 _ (by omega) (by omega) hinv2
    refine ⟨st1, ?_, hfin⟩
    rw [ProceedDataSetLoop, if_pos hlt]
    simp only [hend, hinv.cursor, hinv.idx, hinv.currentIter, hpm, happ, hinv1.step, hnext]
    exact hloop

end Loop

section Run
variable {V S : Type} [Zero V] [Add V] [Zero S] [Add S]

omit [Zero V] [Add V] [Zero S] [Add S] in
theorem plotLineIndices_append (xs ys : List (TCall V)) :
    plotLineIndices (xs ++ ys) = plotLineIndices xs ++ plotLineIndices ys := by
  induction xs with
  | nil => rfl
  | cons x xs ih =>
    cases x <;> simp [plotLineIndices, ih]

omit [Zero V] [Add V] [Zero S] [Add S] in
theorem cursorsOf_append (xs ys : List (TCall V)) :
    cursorsOf (xs ++ ys) = cursorsOf xs ++ cursorsOf ys := by
  induction xs with
  | nil => rfl
  | cons x xs ih =>
    cases x <;> simp [cursorsOf, ih]

omit [Zero S] [Add S] in
theorem plotLineIndices_callsUpTo (self : TMetricsPlotCalcer V S) (pool : TPool V) (j : Nat) :
    plotLineIndices (callsUpTo self pool j) = List.range j := by
  induction j with
  | zero => rfl
  | succ j ih =>
    rw [callsUpTo, plotLineIndices_append, ih, List.range_succ]
    rfl

omit [Zero S] [Add S] in
theorem cursorsOf_callsUpTo (self : TMetricsPlotCalcer V S) (pool : TPool V) (j : Nat) :
    cursorsOf (callsUpTo self pool j) = (List.range j).map (cursorAt self pool) := by
  induction j with
  | zero => rfl
  | succ j ih =>
    rw [callsUpTo, cursorsOf_append, ih, List.range_succ, List.map_append]
    rfl

/-- A run of `ProceedDataSet` on a fresh calculator, under the conditions
`RunOk`, with a positive step and counters that do not wrap: given
`batchCount + 1` units of fuel it returns, and the result is described by
`RunInv` and `callsUpTo`. -/
theorem ProceedDataSet_run (ensure : TMetricsPlotCalcer V S → Except TError Unit)
    (self0 : TMetricsPlotCalcer V S) (pool : TPool V) (hok : RunOk self0 pool)
    (hs : 1 ≤ self0.Step) (hw : self0.Last + self0.Step < 4294967296)
    (hens : ensure self0 = .ok ()) (fuel : Nat)
    (hfuel : batchCount self0.First self0.Last self0.Step + 1 ≤ fuel) :
    ∃ st, ProceedDataSet ensure fuel self0 pool = some (.ok st) ∧
      RunInv self0 pool (batchCount self0.First self0.Last self0.Step + 1) st.self ∧
      st.cursor = cursorAt self0 pool (batchCount self0.First self0.Last self0.Step) ∧
      st.calls = callsUpTo self0 pool (batchCount self0.First self0.Last self0.Step) ++
        [TCall.proceedMetrics
          (cursorAt self0 pool (batchCount self0.First self0.Last self0.Step))
          (batchCount self0.First self0.Last self0.Step)
          (checkpointIter self0.First self0.Last self0.Step
            (batchCount self0.First self0.Last self0.Step))] ∧
      st.states.length = batchCount self0.First self0.Last self0.Step + 1 ∧
      st.states[batchCount self0.First self0.Last self0.Step]? = some st.self ∧
      ∀ k s, st.states[k]? = some s → RunInv self0 pool (k + 1) s := by
  have hinit : ScanInv self0 pool 0
      { self := self0
        cursor := List.replicate self0.Model.ApproxDimension
          (List.replicate pool.Docs.DocCount 0)
        currentIter := 0, idx := 0, calls := [], states := [] } :=
    { calcer := RunInv_zero self0 pool hok.fresh
      cursor := rfl
      currentIter := rfl
      idx := rfl
      calls := rfl
      statesLength := rfl
      states := by intro k s hk; simp at hk }
  obtain ⟨st1, hloop, hinv⟩ := ProceedDataSetLoop_run self0 pool hok hs hw
    (batchCount self0.First self0.Last self0.Step) 0 fuel _ (by omega) hfuel hinit
  have hB := batchCount_le self0.First self0.Last self0.Step hs
  obtain ⟨s1, hpm, hinv1⟩ := ProceedMetrics_step self0 st1.self pool _ hok hinv.calcer
    (by omega)
  simp only [Nat.zero_mul, Nat.add_zero] at hloop
  refine ⟨{ st1 with
            self := s1
            calls := st1.calls ++ [TCall.proceedMetrics st1.cursor st1.idx st1.currentIter]
            states := st1.states ++ [s1] }, ?_, hinv1, hinv.cursor, ?_, ?_, ?_, ?_⟩
  · unfold ProceedDataSet
    simp only [hens, hloop]
    rw [hinv.cursor, hinv.idx, hinv.currentIter, hpm]
  · simp only [hinv.calls, hinv.cursor, hinv.idx, hinv.currentIter]
  · simp [hinv.statesLength]
  · rw [List.getElem?_append_right (by rw [hinv.statesLength]), hinv.statesLength]
    simp
  · intro k s hk
    by_cases hkj : k < st1.states.length
    · rw [List.getElem?_append_left hkj] at hk
      exact hinv.states k s hk
    · rw [List.getElem?_append_right (by omega)] at hk
      have hk0 : k - st1.states.length = 0 := by
        by_contra hne
        obtain ⟨m, hm⟩ := Nat.exists_eq_succ_of_ne_zero hne
        rw [hm] at hk
        simp at hk
      rw [hk0] at hk
      simp only [List.getElem?_cons_zero, Option.some.injEq] at hk
      have : k = batchCount self0.First self0.Last self0.Step := by
        have := hinv.statesLength; omega
      subst this
      rw [← hk]
      exact hinv1

end Run

/-- The scenario satisfies the conditions of a run without exception, for
metrics that are per-object and, when non-additive, only those. -/
theorem demo_RunOk (first last step : Nat) (additive : Bool) :
    RunOk (demoCalcer first last step [demoMetric additive EErrorType.PerObjectError])
      (demoPool []) :=
  { fresh := ⟨rfl, rfl, rfl, rfl, rfl⟩
    supported := by
      intro m hm
      simp only [demoCalcer, List.mem_singleton] at hm
      subst hm
      cases additive <;> simp [MetricSupported, demoMetric]
    dimension := Nat.le_refl 1
    applier := by
      intro b e
      simp [IsShape, demoCalcer, demoModel, demoPool] }

section Claims
variable {V S : Type} [Zero V] [Add V] [Zero S] [Add S]

/-- C1 (checkpoint count): with `First = 0`, `Last = L`, `Step = s >= 1` and
`L + s < 2 ^ 32`, a run of `ProceedDataSet` on a fresh calculator (no step of
which raises an exception) returns; it calls `ProceedMetrics` with
`plotLineIndex = 0, 1, ..., ceil(L / s)` in that order and leaves
`ceil(L / s) + 1` recorded iterations. -/
theorem C1_checkpoint_count (ensure : TMetricsPlotCalcer V S → Except TError Unit)
    (self : TMetricsPlotCalcer V S) (pool : TPool V) (L s : Nat)
    (hF : self.First = 0) (hL : self.Last = L) (hS : self.Step = s) (hs : 1 ≤ s)
    (hw : L + s < 4294967296) (hok : RunOk self pool) (hens : ensure self = .ok ())
    (fuel : Nat) (hfuel : (L + s - 1) / s + 1 ≤ fuel) :
    ∃ st, ProceedDataSet ensure fuel self pool = some (.ok st) ∧
      plotLineIndices st.calls = List.range ((L + s - 1) / s + 1) ∧
      st.self.Iterations.length = (L + s - 1) / s + 1 := by
  have hB : batchCount self.First self.Last self.Step = (L + s - 1) / s := by
    rw [hF, hL, hS]
    unfold batchCount
    by_cases h : 0 < L
    · rw [if_pos h]; simp
    · have h0 : L = 0 := by omega
      subst h0
      rw [if_neg h]
      symm
      apply Nat.div_eq_of_lt
      omega
  obtain ⟨st, hrun, hinv, -, hcalls, -, -, -⟩ := ProceedDataSet_run ensure self pool hok
    (by omega) (by omega) hens fuel (by omega)
  refine ⟨st, hrun, ?_, ?_⟩
  · rw [hcalls, plotLineIndices_append, plotLineIndices_callsUpTo, hB, List.range_succ]
    rfl
  · rw [hinv.iterations, hB]
    simp

/-- C3 (cursor at each checkpoint): with `First < Last` and `Step >= 1`, the
cursors handed to `ProceedMetrics` are, in order, `cursorAt 0, ..., cursorAt B`
for `B` the number of batches, where `cursorAt 0` is the all-zero matrix of
shape `[ApproxDimension][docCount]` and `cursorAt (k + 1)` is `cursorAt k` plus
the applier's matrix for batch `k`, which covers
`[First + k * Step, min(Last, First + (k + 1) * Step))`; the cursor after the
run is `cursorAt B`. -/
theorem C3_cursor_at_checkpoint (ensure : TMetricsPlotCalcer V S → Except TError Unit)
    (self : TMetricsPlotCalcer V S) (pool : TPool V)
    (hFL : self.First < self.Last) (hs : 1 ≤ self.Step)
    (hw : self.Last + self.Step < 4294967296) (hok : RunOk self pool)
    (hens : ensure self = .ok ()) (fuel : Nat)
    (hfuel : batchCount self.First self.Last self.Step + 1 ≤ fuel) :
    ∃ st, ProceedDataSet ensure fuel self pool = some (.ok st) ∧
      cursorsOf st.calls
        = (List.range (batchCount self.First self.Last self.Step + 1)).map
            (cursorAt self pool) ∧
      st.cursor = cursorAt self pool (batchCount self.First self.Last self.Step) ∧
      cursorAt self pool 0 = zeroMatrix self.Model.ApproxDimension pool.Docs.DocCount ∧
      (∀ k, cursorAt self pool (k + 1)
        = addMatrix (cursorAt self pool k)
            (ApplyBatch self.Model pool (self.First + k * self.Step)
              (min self.Last (self.First + (k + 1) * self.Step)))) ∧
      1 ≤ batchCount self.First self.Last self.Step := by
  obtain ⟨st, hrun, -, hcur, hcalls, -, -, -⟩ := ProceedDataSet_run ensure self pool hok
    hs hw hens fuel hfuel
  refine ⟨st, hrun, ?_, hcur, rfl, fun k => rfl, ?_⟩
  · rw [hcalls, cursorsOf_append, cursorsOf_callsUpTo, List.range_succ, List.map_append]
    rfl
  · have := (batch_lt_iff self.First self.Last self.Step 0 hs).mpr (by omega)
    omega

/-- C9 (recorded iterations): with `Step >= 1` and counters that do not wrap,
the iterations recorded by a run of `ProceedDataSet` on a fresh calculator are
strictly increasing, and the calculator left by the call that handles
checkpoint ordinal `k` holds exactly `k + 1` of them. -/
theorem C9_iterations_increasing (ensure : TMetricsPlotCalcer V S → Except TError Unit)
    (self : TMetricsPlotCalcer V S) (pool : TPool V) (hs : 1 ≤ self.Step)
    (hw : self.Last + self.Step < 4294967296) (hok : RunOk self pool)
    (hens : ensure self = .ok ()) (fuel : Nat)
    (hfuel : batchCount self.First self.Last self.Step + 1 ≤ fuel) :
    ∃ st, ProceedDataSet ensure fuel self pool = some (.ok st) ∧
      List.Pairwise (fun a b => a < b) st.self.Iterations ∧
      st.states.length = batchCount self.First self.Last self.Step + 1 ∧
      st.states[batchCount self.First self.Last self.Step]? = some st.self ∧
      ∀ k s, st.states[k]? = some s → s.Iterations.length = k + 1 := by
  obtain ⟨st, hrun, hinv, -, -, hlen, hlast, hstates⟩ := ProceedDataSet_run ensure self pool hok
    hs hw hens fuel hfuel
  refine ⟨st, hrun, ?_, hlen, ?_, ?_⟩
  · rw [hinv.iterations, List.pairwise_map]
    apply List.Pairwise.imp_of_mem _ (List.pairwise_lt_range _)
    intro a b ha hb hab
    rw [List.mem_range] at ha hb
    have hbB : b - 1 < batchCount self.First self.Last self.Step := by omega
    have h1 := (batch_lt_iff _ _ _ _ hs).mp hbB
    have hb0 : b ≠ 0 := by omega
    have hbs : (b - 1 + 1) * self.Step = (b - 1) * self.Step + self.Step := by ring
    unfold checkpointIter batchEnd
    rw [if_neg hb0]
    by_cases ha0 : a = 0
    · rw [if_pos ha0]
      omega
    · rw [if_neg ha0]
      have haB : a < batchCount self.First self.Last self.Step := by omega
      have h2 := (batch_lt_iff _ _ _ _ hs).mp haB
      have has : (a - 1 + 1) * self.Step = a * self.Step := by
        congr 1; omega
      have hle : a * self.Step ≤ (b - 1) * self.Step :=
        Nat.mul_le_mul_right _ (by omega)
      rw [has, hbs]
      omega
  · exact hlast
  · intro k s hk
    rw [(hstates k s hk).iterations]
    simp

end Claims

/-- The scenario for C1: `L = 10`, `s = 5` gives three checkpoints. -/
theorem C1_checkpoint_count_witness :
    ∃ st, ProceedDataSet (fun _ => .ok ()) 3
        (demoCalcer 0 10 5 [demoMetric true EErrorType.PerObjectError]) (demoPool [])
          = some (.ok st) ∧
      plotLineIndices st.calls = [0, 1, 2] ∧ st.self.Iterations.length = 3 :=
  C1_checkpoint_count (fun _ => .ok ())
    (demoCalcer 0 10 5 [demoMetric true EErrorType.PerObjectError]) (demoPool []) 10 5
    rfl rfl rfl (by decide) (by decide) (demo_RunOk 0 10 5 true) rfl 3 (by decide)

/-- The scenario for C3: `First = 0`, `Last = 10`, `Step = 5` gives the cursors
`0`, `apply(0, 5)` and `apply(0, 5) + apply(5, 10)`. -/
theorem C3_cursor_at_checkpoint_witness :
    ∃ st, ProceedDataSet (fun _ => .ok ()) 3
        (demoCalcer 0 10 5 [demoMetric true EErrorType.PerObjectError]) (demoPool [])
          = some (.ok st) ∧
      cursorsOf st.calls = [[[0, 0, 0, 0]], [[5, 5, 5, 5]], [[10, 10, 10, 10]]] ∧
      ApplyBatch demoModel (demoPool []) 0 5 = [[5, 5, 5, 5]] ∧
      addMatrix (ApplyBatch demoModel (demoPool []) 0 5) (ApplyBatch demoModel (demoPool []) 5 10)
        = [[10, 10, 10, 10]] := by
  obtain ⟨st, hrun, hcur, -⟩ := C3_cursor_at_checkpoint (fun _ => .ok ())
    (demoCalcer 0 10 5 [demoMetric true EErrorType.PerObjectError]) (demoPool [])
    (by decide) (by decide) (by decide) (demo_RunOk 0 10 5 true) rfl 3 (by decide)
  exact ⟨st, hrun, hcur.trans (by decide), by decide, by decide⟩

/-- The scenario for C9: the window `[2, 10)` in steps of 3 records the
iterations 0, 5, 8 and 10. -/
theorem C9_iterations_increasing_witness :
    ∃ st, ProceedDataSet (fun _ => .ok ()) 4
        (demoCalcer 2 10 3 [demoMetric true EErrorType.PerObjectError]) (demoPool [])
          = some (.ok st) ∧
      List.Pairwise (fun a b => a < b) st.self.Iterations ∧ st.states.length = 4 := by
  obtain ⟨st, hrun, hpw, hlen, -⟩ := C9_iterations_increasing (fun _ => .ok ())
    (demoCalcer 2 10 3 [demoMetric true EErrorType.PerObjectError]) (demoPool [])
    (by decide) (by decide) (demo_RunOk 2 10 3 true) rfl 4 (by decide)
  exact ⟨st, hrun, hpw, hlen⟩

/-- C8, the code at `First = 5`, `Last = 10`, `Step = 5`: the recorded
iterations are 0 and 10, so the baseline checkpoint is recorded as iteration 0
and not as `First = 5`. -/
theorem C8_baseline_recorded_as_zero :
    (match ProceedDataSet (fun _ => .ok ()) 2
        (demoCalcer 5 10 5 [demoMetric true EErrorType.PerObjectError]) (demoPool []) with
      | some (.ok st) => some st.self.Iterations
      | _ => none) = some [0, 10] := by
  decide

section Additivity
variable {V S : Type}

theorem cell_zeroMatrix [Zero V] (rows cols r c : Nat) :
    cell (zeroMatrix rows cols : TMatrix V) r c
      = if r < rows ∧ c < cols then some 0 else none := by
  unfold cell zeroMatrix
  rw [List.getElem?_replicate]
  by_cases hr : r < rows
  · rw [if_pos hr]
    simp only [List.getElem?_replicate]
    by_cases hc : c < cols
    · rw [if_pos hc, if_pos ⟨hr, hc⟩]
    · rw [if_neg hc, if_neg (by tauto)]
  · rw [if_neg hr, if_neg (by tauto)]

theorem addMatrix_zero_left [AddCommGroup V] {rows cols : Nat} {a : TMatrix V}
    (ha : IsShape rows cols a) : addMatrix (zeroMatrix rows cols) a = a := by
  apply matrix_ext
  · rw [(addMatrix_shape (zeroMatrix_shape rows cols) ha).1, ha.1]
  · intro r c
    rw [cell_addMatrix, cell_zeroMatrix]
    by_cases h : r < rows ∧ c < cols
    · obtain ⟨v, hv⟩ := cell_of_shape ha h.1 h.2
      rw [if_pos h, hv]
      simp
    · rw [if_neg h]
      have : cell a r c = none := cell_eq_none_of_shape ha (by omega)
      rw [this]

/-- A matrix of the given shape that is its own double is the zero matrix. -/
theorem eq_zeroMatrix_of_add_self [AddCommGroup V] {rows cols : Nat} {a : TMatrix V}
    (ha : IsShape rows cols a) (h : a = addMatrix a a) : a = zeroMatrix rows cols := by
  apply matrix_ext
  · rw [ha.1, (zeroMatrix_shape rows cols).1]
  · intro r c
    rw [cell_zeroMatrix]
    by_cases hrc : r < rows ∧ c < cols
    · obtain ⟨v, hv⟩ := cell_of_shape ha hrc.1 hrc.2
      rw [if_pos hrc, hv]
      have h1 : cell a r c = cell (addMatrix a a) r c := by rw [← h]
      rw [cell_addMatrix, hv] at h1
      simp only [Option.some.injEq] at h1
      have : v = 0 := by
        have h2 : v + 0 = v + v := by rw [add_zero]; exact h1
        exact (add_left_cancel h2).symm
      rw [this]
    · rw [if_neg hrc]
      exact cell_eq_none_of_shape ha (by omega)

/-- With an applier that is additive over adjacent ranges, the cursor at
checkpoint `k` is the applier's matrix for the range from `First` to the batch
boundary `min(Last, First + k * Step)`. -/
theorem cursorAt_eq_apply [AddCommGroup V] (self : TMetricsPlotCalcer V S) (pool : TPool V)
    (hFL : self.First ≤ self.Last) (hs : 1 ≤ self.Step)
    (happ : ∀ b e, IsShape self.Model.ApproxDimension pool.Docs.DocCount
      (self.Model.ApplyModelMulti pool b e))
    (hadd : ∀ a b c, a ≤ b → b ≤ c →
      ApplyBatch self.Model pool a c
        = addMatrix (ApplyBatch self.Model pool a b) (ApplyBatch self.Model pool b c))
    (k : Nat) (hk : k ≤ batchCount self.First self.Last self.Step) :
    cursorAt self pool k
      = ApplyBatch self.Model pool self.First (min self.Last (self.First + k * self.Step)) := by
  induction k with
  | zero =>
    have hmin : min self.Last (self.First + 0 * self.Step) = self.First := by
      rw [Nat.zero_mul, Nat.add_zero]
      exact Nat.min_eq_right hFL
    rw [hmin]
    symm
    exact eq_zeroMatrix_of_add_self (happ _ _) (hadd _ _ _ (Nat.le_refl _) (Nat.le_refl _))
  | succ k ih =>
    have hlt := (batch_lt_iff self.First self.Last self.Step k hs).mp (by omega)
    have hmin : min self.Last (self.First + k * self.Step) = self.First + k * self.Step :=
      Nat.min_eq_right (by omega)
    have hstep : (k + 1) * self.Step = k * self.Step + self.Step := by ring
    rw [cursorAt, ih (by omega), hmin, batchStart, batchEnd]
    symm
    apply hadd
    · omega
    · rw [hstep]
      omega

end Additivity

section StepInvariance
variable {V S : Type}

theorem cell_plotsAt [Zero V] [Add V] [Zero S] [Add S] (self : TMetricsPlotCalcer V S)
    (pool : TPool V) (j mi k : Nat) :
    cell (plotsAt self pool j) mi k =
      match self.Metrics[mi]? with
      | some m =>
        if k < j then
          some (plotEntry pool pool.Docs.Target pool.Docs.Weight (cursorAt self pool k) m)
        else none
      | none => none := by
  unfold cell plotsAt
  rw [List.getElem?_map]
  cases hm : self.Metrics[mi]? with
  | none => rfl
  | some m =>
    simp only [Option.map_some']
    rw [List.getElem?_map]
    by_cases hk : k < j
    · rw [if_pos hk, List.getElem?_eq_getElem (by simpa using hk)]
      simp
    · rw [if_neg hk, List.getElem?_eq_none (by simpa using hk)]
      rfl

theorem batchCount_boundary (first last step : Nat) (hs : 1 ≤ step) :
    min last (first + batchCount first last step * step) = last := by
  apply Nat.min_eq_left
  by_contra h
  have h1 : first + batchCount first last step * step < last := by omega
  have h2 := (batch_lt_iff first last step _ hs).mpr h1
  omega

variable [AddCommGroup V] [Zero S] [Add S]

/-- C2 (step invariance of the cursor): let the applier be additive over
adjacent ranges.  For `First <= Last` and two runs of `ProceedDataSet` that
differ only in their positive steps, the cursor handed to `ProceedMetrics` at
the final checkpoint is in both runs the applier's matrix for
`[First, Last)`; at checkpoints `k1` and `k2` of the two runs that stand at
the same batch boundary `n` the cursors are both the applier's matrix for
`[First, n)`, and every metric has the same holder in its plot there (its
score is `GetFinalError` of that holder). -/
theorem C2_step_invariance (ensure1 ensure2 : TMetricsPlotCalcer V S → Except TError Unit)
    (self1 self2 : TMetricsPlotCalcer V S) (pool : TPool V)
    (hmodel : self2.Model = self1.Model) (hfirst : self2.First = self1.First)
    (hlast : self2.Last = self1.Last) (hmetrics : self2.Metrics = self1.Metrics)
    (hFL : self1.First ≤ self1.Last) (hs1 : 1 ≤ self1.Step) (hs2 : 1 ≤ self2.Step)
    (hw1 : self1.Last + self1.Step < 4294967296) (hw2 : self2.Last + self2.Step < 4294967296)
    (hok1 : RunOk self1 pool) (hok2 : RunOk self2 pool)
    (hadd : ∀ a b c, a ≤ b → b ≤ c →
      ApplyBatch self1.Model pool a c
        = addMatrix (ApplyBatch self1.Model pool a b) (ApplyBatch self1.Model pool b c))
    (hens1 : ensure1 self1 = .ok ()) (hens2 : ensure2 self2 = .ok ()) (fuel1 fuel2 : Nat)
    (hfuel1 : batchCount self1.First self1.Last self1.Step + 1 ≤ fuel1)
    (hfuel2 : batchCount self2.First self2.Last self2.Step + 1 ≤ fuel2) :
    ∃ st1 st2, ProceedDataSet ensure1 fuel1 self1 pool = some (.ok st1) ∧
      ProceedDataSet ensure2 fuel2 self2 pool = some (.ok st2) ∧
      (cursorsOf st1.calls)[batchCount self1.First self1.Last self1.Step]?
        = some (ApplyBatch self1.Model pool self1.First self1.Last) ∧
      (cursorsOf st2.calls)[batchCount self2.First self2.Last self2.Step]?
        = some (ApplyBatch self1.Model pool self1.First self1.Last) ∧
      ∀ k1 k2 n, k1 ≤ batchCount self1.First self1.Last self1.Step →
        k2 ≤ batchCount self2.First self2.Last self2.Step →
        min self1.Last (self1.First + k1 * self1.Step) = n →
        min self2.Last (self2.First + k2 * self2.Step) = n →
        (cursorsOf st1.calls)[k1]? = some (ApplyBatch self1.Model pool self1.First n) ∧
          (cursorsOf st2.calls)[k2]? = some (ApplyBatch self1.Model pool self1.First n) ∧
          ∀ mi, cell st1.self.MetricPlots mi k1 = cell st2.self.MetricPlots mi k2 := by
  obtain ⟨st1, hrun1, hinv1, -, hcalls1, -, -, -⟩ := ProceedDataSet_run ensure1 self1 pool hok1
    hs1 hw1 hens1 fuel1 hfuel1
  obtain ⟨st2, hrun2, hinv2, -, hcalls2, -, -, -⟩ := ProceedDataSet_run ensure2 self2 pool hok2
    hs2 hw2 hens2 fuel2 hfuel2
  have hadd2 : ∀ a b c, a ≤ b → b ≤ c →
      ApplyBatch self2.Model pool a c
        = addMatrix (ApplyBatch self2.Model pool a b) (ApplyBatch self2.Model pool b c) := by
    rw [hmodel]; exact hadd
  have hcur1 : ∀ k, k ≤ batchCount self1.First self1.Last self1.Step →
      (cursorsOf st1.calls)[k]? = some (cursorAt self1 pool k) := by
    intro k hk
    rw [hcalls1, cursorsOf_append, cursorsOf_callsUpTo]
    have : (List.map (cursorAt self1 pool)
        (List.range (batchCount self1.First self1.Last self1.Step)) ++
        cursorsOf [TCall.proceedMetrics
          (cursorAt self1 pool (batchCount self1.First self1.Last self1.Step))
          (batchCount self1.First self1.Last self1.Step)
          (checkpointIter self1.First self1.Last self1.Step
            (batchCount self1.First self1.Last self1.Step))])
        = (List.range (batchCount self1.First self1.Last self1.Step + 1)).map
            (cursorAt self1 pool) := by
      rw [List.range_succ, List.map_append]; rfl
    rw [this, List.getElem?_map, List.getElem?_range (by omega)]
    rfl
  have hcur2 : ∀ k, k ≤ batchCount self2.First self2.Last self2.Step →
      (cursorsOf st2.calls)[k]? = some (cursorAt self2 pool k) := by
    intro k hk
    rw [hcalls2, cursorsOf_append, cursorsOf_callsUpTo]
    have : (List.map (cursorAt self2 pool)
        (List.range (batchCount self2.First self2.Last self2.Step)) ++
        cursorsOf [TCall.proceedMetrics
          (cursorAt self2 pool (batchCount self2.First self2.Last self2.Step))
          (batchCount self2.First self2.Last self2.Step)
          (checkpointIter self2.First self2.Last self2.Step
            (batchCount self2.First self2.Last self2.Step))])
        = (List.range (batchCount self2.First self2.Last self2.Step + 1)).map
            (cursorAt self2 pool) := by
      rw [List.range_succ, List.map_append]; rfl
    rw [this, List.getElem?_map, List.getElem?_range (by omega)]
    rfl
  have hA1 := cursorAt_eq_apply self1 pool hFL hs1 hok1.applier hadd
  have hA2 := cursorAt_eq_apply self2 pool (by rw [hfirst, hlast]; exact hFL) hs2
    hok2.applier hadd2
  refine ⟨st1, st2, hrun1, hrun2, ?_, ?_, ?_⟩
  · rw [hcur1 _ (Nat.le_refl _), hA1 _ (Nat.le_refl _), batchCount_boundary _ _ _ hs1]
  · rw [hcur2 _ (Nat.le_refl _), hA2 _ (Nat.le_refl _),
      batchCount_boundary _ _ _ hs2, hmodel, hfirst, hlast]
  · intro k1 k2 n hk1 hk2 hn1 hn2
    have hc1 : cursorAt self1 pool k1 = ApplyBatch self1.Model pool self1.First n := by
      rw [hA1 k1 hk1, hn1]
    have hc2 : cursorAt self2 pool k2 = ApplyBatch self1.Model pool self1.First n := by
      rw [hA2 k2 hk2, hn2, hmodel, hfirst]
    refine ⟨by rw [hcur1 k1 hk1, hc1], by rw [hcur2 k2 hk2, hc2], ?_⟩
    intro mi
    rw [hinv1.plots, hinv2.plots, if_neg (by omega), if_neg (by omega), cell_plotsAt,
      cell_plotsAt, hmetrics, hc1, hc2]
    have h1 : k1 < batchCount self1.First self1.Last self1.Step + 1 := by omega
    have h2 : k2 < batchCount self2.First self2.Last self2.Step + 1 := by omega
    simp only [h1, h2, if_true]

end StepInvariance

/-- The applier of the scenario is additive over adjacent ranges. -/
theorem demo_additive (a b c : Nat) :
    ApplyBatch demoModel (demoPool []) a c
      = addMatrix (ApplyBatch demoModel (demoPool []) a b)
          (ApplyBatch demoModel (demoPool []) b c) := by
  simp only [ApplyBatch, demoModel, demoPool, addMatrix, List.replicate, List.zipWith]
  congr 2 <;> ring_nf

/-- The scenario for C2: the window `[0, 10)` in steps of 5 and in steps of 2;
checkpoint 2 of the first run and checkpoint 5 of the second both stand at
iteration 10. -/
theorem C2_step_invariance_witness :
    ∃ st1 st2,
      ProceedDataSet (fun _ => .ok ()) 3
          (demoCalcer 0 10 5 [demoMetric true EErrorType.PerObjectError]) (demoPool [])
        = some (.ok st1) ∧
      ProceedDataSet (fun _ => .ok ()) 6
          (demoCalcer 0 10 2 [demoMetric true EErrorType.PerObjectError]) (demoPool [])
        = some (.ok st2) ∧
      (cursorsOf st1.calls)[2]? = some [[10, 10, 10, 10]] ∧
      (cursorsOf st2.calls)[5]? = some [[10, 10, 10, 10]] ∧
      cell st1.self.MetricPlots 0 2 = cell st2.self.MetricPlots 0 5 := by
  obtain ⟨st1, st2, h1, h2, h3, h4, h5⟩ := C2_step_invariance (fun _ => .ok ()) (fun _ => .ok ())
    (demoCalcer 0 10 5 [demoMetric true EErrorType.PerObjectError])
    (demoCalcer 0 10 2 [demoMetric true EErrorType.PerObjectError]) (demoPool [])
    rfl rfl rfl rfl (by decide) (by decide) (by decide) (by decide) (by decide)
    (demo_RunOk 0 10 5 true) (demo_RunOk 0 10 2 true)
    (fun a b c _ _ => demo_additive a b c) rfl rfl 3 6 (by decide) (by decide)
  exact ⟨st1, st2, h1, h2, h3, h4, (h5 2 5 10 (by decide) (by decide) (by decide) (by decide)).2.2 0⟩

section Deferred
variable {V S : Type}

/-- The metric loop of the deferred pass at checkpoint `idx`: the slot `idx` of
every non-additive metric is overwritten with its full evaluation. -/
theorem ComputeNonAdditiveMetric_loop (metrics : List (IMetric V S)) (approx : TMatrix V)
    (target weights : List V) (idx n : Nat) (plots : List (List S)) (hidx : idx < n)
    (hlen : plots.length = metrics.length)
    (hcells : ∀ r c, r < metrics.length → c < n → ∃ v, cell plots r c = some v) :
    ∃ plots1, forRange metrics.length
        (ComputeNonAdditiveMetric metrics approx target weights idx) plots = .ok plots1 ∧
      plots1.length = metrics.length ∧
      ∀ r c, cell plots1 r c =
        if nonAdditiveAt metrics r = true ∧ c = idx then fullEval metrics approx target weights r
        else cell plots r c := by
  have h := forRange_inv
    (fun j (p : List (List S)) => p.length = metrics.length ∧
      ∀ r c, cell p r c =
        if r < j ∧ nonAdditiveAt metrics r = true ∧ c = idx then
          fullEval metrics approx target weights r
        else cell plots r c)
    (ComputeNonAdditiveMetric metrics approx target weights idx) metrics.length plots
    ⟨hlen, fun r c => by simp⟩
    (by
      intro j p hj ⟨hlenp, hp⟩
      have hm : metrics[j]? = some metrics[j] := List.getElem?_eq_getElem hj
      unfold ComputeNonAdditiveMetric
      simp only [getAt_eq_ok hm]
      cases hadd : (metrics[j]).IsAdditiveMetric with
      | true =>
        refine ⟨p, by simp, hlenp, ?_⟩
        intro r c
        rw [hp]
        by_cases hr : r = j
        · subst hr
          have hna : nonAdditiveAt metrics r = false := by
            simp [nonAdditiveAt, hm, hadd]
          simp [hna]
        · by_cases hlt : r < j
          · simp [hlt, show r < j + 1 by omega]
          · simp [hlt, show ¬ r < j + 1 by omega]
      | false =>
        obtain ⟨v, hv⟩ := hcells j idx hj hidx
        have hpv : cell p j idx = some v := by
          rw [hp, if_neg (by omega), hv]
        obtain ⟨p1, hp1, hlen1, hc1⟩ := setAt2_spec
          ((metrics[j]).Eval approx target weights 0 (target.length : Int)) hpv
        refine ⟨p1, by simpa using hp1, by omega, ?_⟩
        intro r c
        rw [hc1]
        by_cases hrc : r = j ∧ c = idx
        · obtain ⟨hr, hc⟩ := hrc
          subst hr hc
          have hna : nonAdditiveAt metrics r = true := by
            simp [nonAdditiveAt, hm, hadd]
          simp [hna, fullEval, hm]
        · rw [if_neg hrc, hp]
          by_cases hr : r = j
          · subst hr
            have hc : c ≠ idx := fun h => hrc ⟨rfl, h⟩
            simp [hc]
          · by_cases hlt : r < j
            · simp [hlt, show r < j + 1 by omega]
            · simp [hlt, show ¬ r < j + 1 by omega])
  obtain ⟨p, hp, hlenp, hcp⟩ := h
  refine ⟨p, hp, hlenp, ?_⟩
  intro r c
  rw [hcp]
  by_cases hr : r < metrics.length
  · simp [hr]
  · have hna : nonAdditiveAt metrics r = false := by
      simp [nonAdditiveAt, List.getElem?_eq_none (show metrics.length ≤ r by omega)]
    simp [hna]

end Deferred

section Scores
variable {V S : Type}

/-- The score loops of `GetMetricsScore` on plots that hold `n` entries per
metric. -/
theorem ScoreCell_loops [Zero V] (metrics : List (IMetric V S)) (plots : List (List S))
    (n : Nat)
    (hcells : ∀ r c, r < metrics.length → c < n → ∃ v, cell plots r c = some v) :
    ∃ table, forRange n
        (fun i metricsScore =>
          forRange metrics.length (ScoreCell metrics plots i) metricsScore)
        (List.replicate metrics.length (List.replicate n 0)) = .ok table ∧
      table.length = metrics.length ∧
      ∀ r c, r < metrics.length → c < n →
        cell table r c = scoreOf metrics r (cell plots r c) := by
  have hz := zeroMatrix_shape (V := V) metrics.length n
  have h := forRange_inv
    (fun i (t : TMatrix V) => t.length = metrics.length ∧
      ∀ r c, cell t r c =
        if c < i ∧ r < metrics.length then scoreOf metrics r (cell plots r c)
        else cell (zeroMatrix metrics.length n : TMatrix V) r c)
    (fun i metricsScore =>
      forRange metrics.length (ScoreCell metrics plots i) metricsScore) n
    (zeroMatrix metrics.length n)
    ⟨hz.1, fun r c => by simp⟩
    (by
      intro i t hi ⟨hlent, ht⟩
      have hin := forRange_inv
        (fun j (t1 : TMatrix V) => t1.length = metrics.length ∧
          ∀ r c, cell t1 r c =
            if c = i ∧ r < j then scoreOf metrics r (cell plots r c) else cell t r c)
        (ScoreCell metrics plots i) metrics.length t
        ⟨hlent, fun r c => by simp⟩
        (by
          intro j t1 hj ⟨hlen1, ht1⟩
          have hm : metrics[j]? = some metrics[j] := List.getElem?_eq_getElem hj
          obtain ⟨h0, hh0⟩ := hcells j i hj hi
          obtain ⟨plot, hp1, hp2⟩ := getAt_of_cell hh0
          obtain ⟨z, hz0⟩ := cell_of_shape hz hj hi
          have ht1z : cell t1 j i = some z := by
            rw [ht1, if_neg (by omega), ht, if_neg (by omega), hz0]
          obtain ⟨t2, ht2, hlen2, hc2⟩ := setAt2_spec ((metrics[j]).GetFinalError h0) ht1z
          refine ⟨t2, ?_, by omega, ?_⟩
          · unfold ScoreCell
            simp only [getAt_eq_ok hm, hp1, hp2]
            exact ht2
          · intro r c
            rw [hc2]
            by_cases hrc : r = j ∧ c = i
            · obtain ⟨hr, hc⟩ := hrc
              subst hr hc
              simp [scoreOf, hm, hh0]
            · rw [if_neg hrc, ht1]
              by_cases hc : c = i
              · subst hc
                have hr : r ≠ j := fun h => hrc ⟨h, rfl⟩
                by_cases hlt : r < j
                · simp [hlt, show r < j + 1 by omega]
                · simp [hlt, show ¬ r < j + 1 by omega]
              · simp [hc])
      obtain ⟨t1, ht1, hlen1, hc1⟩ := hin
      refine ⟨t1, ht1, hlen1, ?_⟩
      intro r c
      rw [hc1]
      by_cases hc : c = i
      · subst hc
        by_cases hr : r < metrics.length
        · simp [hr]
        · simp [hr, ht]
      · rw [if_neg (by tauto), ht]
        by_cases hlt : c < i
        · simp [hlt, show c < i + 1 by omega]
        · simp [hlt, show ¬ c < i + 1 by omega])
  obtain ⟨t, ht, hlent, hct⟩ := h
  refine ⟨t, ht, hlent, ?_⟩
  intro r c hr hc
  rw [hct, if_pos ⟨hc, hr⟩]

end Scores

section DeferredRun
variable {V S : Type} [Zero V] [Add V] [Zero S] [Add S]

/-- The deferred pass after a run: every slot of a non-additive metric holds the
full evaluation on the cursor of its checkpoint; the other slots, the metrics
and the recorded iterations are as the run left them. -/
theorem ComputeNonAdditiveMetrics_run (self0 s : TMetricsPlotCalcer V S) (pool : TPool V)
    (j : Nat) (hok : RunOk self0 pool) (hinv : RunInv self0 pool (j + 1) s)
    (hdocs : pool.Docs.Target.length = pool.Docs.DocCount) (hj : j + 1 < 4294967296)
    (hna : HasNonAdditiveMetric self0 = true) :
    ∃ plots, ComputeNonAdditiveMetrics s = .ok { s with MetricPlots := plots } ∧
      plots.length = self0.Metrics.length ∧
      ∀ r c, cell plots r c =
        if nonAdditiveAt self0.Metrics r = true ∧ c < j + 1 then
          fullEval self0.Metrics (cursorAt self0 pool c) pool.Docs.Target pool.Docs.Weight r
        else cell (plotsAt self0 pool (j + 1)) r c := by
  have hplots : s.MetricPlots = plotsAt self0 pool (j + 1) := by
    rw [hinv.plots, if_neg (by omega)]
  have htarget : s.NonAdditiveMetricsData.Target = pool.Docs.Target := by
    rw [hinv.target hna, if_neg (by omega)]
  have hweights : s.NonAdditiveMetricsData.Weights = pool.Docs.Weight := by
    rw [hinv.weights hna, if_neg (by omega)]
  have hitl : s.Iterations.length = j + 1 := by rw [hinv.iterations]; simp
  have hshape := plotsAt_shape self0 pool (j + 1)
  have h := forRange_inv
    (fun idx (s1 : TMetricsPlotCalcer V S) =>
      ∃ plots, s1 = { s with MetricPlots := plots } ∧ plots.length = self0.Metrics.length ∧
        ∀ r c, cell plots r c =
          if nonAdditiveAt self0.Metrics r = true ∧ c < idx then
            fullEval self0.Metrics (cursorAt self0 pool c) pool.Docs.Target pool.Docs.Weight r
          else cell (plotsAt self0 pool (j + 1)) r c)
    ComputeNonAdditiveCheckpoint (j + 1) s
    ⟨s.MetricPlots, rfl, by rw [hplots]; exact hshape.1, fun r c => by simp [hplots]⟩
    (by
      intro idx s1 hidx ⟨plots, hs1, hlen, hcells⟩
      subst hs1
      have hname : ({ s with MetricPlots := plots } :
          TMetricsPlotCalcer V S).NonAdditiveMetricsData.ApproxFiles[idx]? = some (some idx) := by
        simp only [hinv.approxFiles hna]
        rw [List.getElem?_map, List.getElem?_range hidx]
        rfl
      obtain ⟨recs, hfile, hrl, hrc⟩ := hinv.files hna idx hidx
      have hcur := cursorAt_shape self0 pool hok.applier idx
      have hload : LoadApprox ({ s with MetricPlots := plots } : TMetricsPlotCalcer V S) idx
          = .ok (cursorAt self0 pool idx, { s with MetricPlots := plots }) := by
        apply LoadApprox_spec _ _ idx idx _ recs
          (GetApproxFileName_named _ idx idx hname (by omega)) hfile
        · rw [hrl, headD_length_of_shape hcur hok.dimension]
          simp only [htarget, hdocs]
        · exact hrc
        · simp only [htarget, hdocs, hinv.model]
          exact hcur
      have hsome : ∀ r c, r < self0.Metrics.length → c < j + 1 → ∃ v, cell plots r c = some v := by
        intro r c hr hc
        rw [hcells]
        split
        · unfold fullEval
          rw [List.getElem?_eq_getElem hr]
          exact ⟨_, rfl⟩
        · exact cell_of_shape hshape hr hc
      obtain ⟨plots1, hloop, hlen1, hcells1⟩ := ComputeNonAdditiveMetric_loop self0.Metrics
        (cursorAt self0 pool idx) pool.Docs.Target pool.Docs.Weight idx (j + 1) plots hidx hlen
        hsome
      refine ⟨{ s with MetricPlots := plots1 }, ?_, plots1, rfl, hlen1, ?_⟩
      · unfold ComputeNonAdditiveCheckpoint
        rw [hload]
        simp only [hinv.metrics, htarget, hweights, hloop]
      · intro r c
        rw [hcells1, hcells]
        by_cases hn : nonAdditiveAt self0.Metrics r = true
        · by_cases hc : c = idx
          · subst hc
            simp [hn]
          · by_cases hlt : c < idx
            · simp [hn, hc, hlt, show c < idx + 1 by omega]
            · simp [hn, hc, hlt, show ¬ c < idx + 1 by omega]
        · simp [hn])
  obtain ⟨s1, hs1, plots, hs1eq, hlen, hcells⟩ := h
  subst hs1eq
  refine ⟨plots, ?_, hlen, hcells⟩
  unfold ComputeNonAdditiveMetrics
  rw [hitl]
  exact hs1

end DeferredRun

section NonAdditive
variable {V S : Type} [Zero V] [Add V] [Zero S] [Add S]

omit [Zero V] [Add V] [Zero S] [Add S] in
theorem HasNonAdditiveMetric_of_mem (self : TMetricsPlotCalcer V S) (mi : Nat) (m : IMetric V S)
    (hm : self.Metrics[mi]? = some m) (hna : m.IsAdditiveMetric = false) :
    HasNonAdditiveMetric self = true := by
  unfold HasNonAdditiveMetric
  rw [List.any_eq_true]
  obtain ⟨hlt, hget⟩ := List.getElem?_eq_some.mp hm
  exact ⟨m, hget ▸ List.getElem_mem hlt, by simp [hna]⟩

/-- C5 (non-additive deferral): after a run of `ProceedDataSet` on one dataset
(no step of which raises an exception), `GetMetricsScore` returns a table in
which the score of every non-additive metric `m` at every checkpoint ordinal
`k` is `GetFinalError(Eval(cursor_k, targets, weights, 0, docCount))`, for
`cursor_k` the cursor handed to `ProceedMetrics` at ordinal `k` and the
dataset's targets and weights. -/
theorem C5_non_additive_deferral (ensure : TMetricsPlotCalcer V S → Except TError Unit)
    (self : TMetricsPlotCalcer V S) (pool : TPool V) (hs : 1 ≤ self.Step)
    (hw : self.Last + self.Step < 4294967296) (hok : RunOk self pool)
    (hdocs : pool.Docs.Target.length = pool.Docs.DocCount)
    (hens : ensure self = .ok ()) (fuel : Nat)
    (hfuel : batchCount self.First self.Last self.Step + 1 ≤ fuel) :
    ∃ st table self1, ProceedDataSet ensure fuel self pool = some (.ok st) ∧
      GetMetricsScore st.self = .ok (table, self1) ∧
      ∀ mi m k cursor, self.Metrics[mi]? = some m → m.IsAdditiveMetric = false →
        (cursorsOf st.calls)[k]? = some cursor →
        cell table mi k = some (m.GetFinalError
          (m.Eval cursor pool.Docs.Target pool.Docs.Weight 0 (pool.Docs.Target.length : Int))) := by
  obtain ⟨st, hrun, hinv, -, hcalls, -, -, -⟩ := ProceedDataSet_run ensure self pool hok
    hs hw hens fuel hfuel
  have hB := batchCount_le self.First self.Last self.Step hs
  have hitl : st.self.Iterations.length = batchCount self.First self.Last self.Step + 1 := by
    rw [hinv.iterations]; simp
  have hcur : ∀ k cursor, (cursorsOf st.calls)[k]? = some cursor →
      k < batchCount self.First self.Last self.Step + 1 ∧ cursor = cursorAt self pool k := by
    intro k cursor hk
    have hall : cursorsOf st.calls
        = (List.range (batchCount self.First self.Last self.Step + 1)).map
            (cursorAt self pool) := by
      rw [hcalls, cursorsOf_append, cursorsOf_callsUpTo, List.range_succ, List.map_append]
      rfl
    rw [hall] at hk
    have hlt : k < batchCount self.First self.Last self.Step + 1 := by
      by_contra hge
      rw [List.getElem?_eq_none (by simp; omega)] at hk
      cases hk
    rw [List.getElem?_map, List.getElem?_range hlt] at hk
    simp only [Option.map_some', Option.some.injEq] at hk
    exact ⟨hlt, hk.symm⟩
  have hshape := plotsAt_shape self pool (batchCount self.First self.Last self.Step + 1)
  cases hna : HasNonAdditiveMetric self with
  | false =>
    have hplots : st.self.MetricPlots
        = plotsAt self pool (batchCount self.First self.Last self.Step + 1) := by
      rw [hinv.plots, if_neg (by omega)]
    obtain ⟨table, htable, -, -⟩ := ScoreCell_loops (V := V) self.Metrics
      (plotsAt self pool (batchCount self.First self.Last self.Step + 1))
      (batchCount self.First self.Last self.Step + 1)
      (fun r c hr hc => cell_of_shape hshape hr hc)
    refine ⟨st, table, st.self, hrun, ?_, ?_⟩
    · unfold GetMetricsScore
      simp only [HasNonAdditiveMetric_congr st.self self hinv.metrics, hna, Bool.false_eq_true,
        if_false, hinv.metrics, hitl, hplots, htable]
    · intro mi m k cursor hm hadd _
      rw [HasNonAdditiveMetric_of_mem self mi m hm hadd] at hna
      cases hna
  | true =>
    obtain ⟨plots, hdef, hlen, hcells⟩ := ComputeNonAdditiveMetrics_run self st.self pool
      (batchCount self.First self.Last self.Step) hok hinv hdocs (by omega) hna
    have hsome : ∀ r c, r < self.Metrics.length →
        c < batchCount self.First self.Last self.Step + 1 → ∃ v, cell plots r c = some v := by
      intro r c hr hc
      rw [hcells]
      split
      · unfold fullEval
        rw [List.getElem?_eq_getElem hr]
        exact ⟨_, rfl⟩
      · exact cell_of_shape hshape hr hc
    obtain ⟨table, htable, -, hscore⟩ := ScoreCell_loops (V := V) self.Metrics plots
      (batchCount self.First self.Last self.Step + 1) hsome
    refine ⟨st, table, { st.self with MetricPlots := plots }, hrun, ?_, ?_⟩
    · unfold GetMetricsScore
      simp only [HasNonAdditiveMetric_congr st.self self hinv.metrics, hna, if_true, hdef,
        hinv.metrics, hitl, htable]
    · intro mi m k cursor hm hadd hk
      obtain ⟨hlt, hc⟩ := hcur k cursor hk
      have hmi : mi < self.Metrics.length := (List.getElem?_eq_some.mp hm).1
      have hnat : nonAdditiveAt self.Metrics mi = true := by
        simp [nonAdditiveAt, hm, hadd]
      rw [hscore mi k hmi hlt, hcells, if_pos ⟨hnat, hlt⟩, hc]
      simp [scoreOf, fullEval, hm]

end NonAdditive

/-- The scenario for C5: a non-additive per-object metric over the window
`[0, 10)` in steps of 5; its score at checkpoint 1 is its full evaluation on the
cursor of that checkpoint, `(5 - 1)^2 + 5^2 + (5 - 1)^2 + 5^2 = 82`. -/
theorem C5_non_additive_deferral_witness :
    ∃ st table self1,
      ProceedDataSet (fun _ => .ok ()) 3
          (demoCalcer 0 10 5 [demoMetric false EErrorType.PerObjectError]) (demoPool [])
        = some (.ok st) ∧
      GetMetricsScore st.self = .ok (table, self1) ∧
      (cursorsOf st.calls)[1]? = some [[5, 5, 5, 5]] ∧
      cell table 0 1 = some 82 := by
  obtain ⟨st, table, self1, hrun, hscore, hcell⟩ := C5_non_additive_deferral (fun _ => .ok ())
    (demoCalcer 0 10 5 [demoMetric false EErrorType.PerObjectError]) (demoPool [])
    (by decide) (by decide) (demo_RunOk 0 10 5 false) rfl rfl 3 (by decide)
  have hc0 : (match ProceedDataSet (fun _ => .ok ()) 3
      (demoCalcer 0 10 5 [demoMetric false EErrorType.PerObjectError]) (demoPool []) with
      | some (.ok st0) => (cursorsOf st0.calls)[1]?
      | _ => none) = some [[5, 5, 5, 5]] := by
    decide
  have hc : (cursorsOf st.calls)[1]? = some [[5, 5, 5, 5]] := by
    rw [hrun] at hc0
    exact hc0
  refine ⟨st, table, self1, hrun, hscore, hc, ?_⟩
  rw [hcell 0 (demoMetric false EErrorType.PerObjectError) 1 [[5, 5, 5, 5]] rfl rfl hc]
  decide

section AppendClaim
variable {V : Type} [AddCommMonoid V]

/-- C19 (cursor update): for `dst` and `approx` of the same rectangular shape
with at least one row, `Append(approx, dst)` returns without leaving the bounds
of a vector; the new `dst` has the same shape and holds
`dst[dim][i] + approx[dim][i]` in every cell; and appending `approx` then
`other` gives the same cursor as appending `other` then `approx`. -/
theorem C19_append_cursor_update (rows cols : Nat) (approx dst : TMatrix V)
    (hrows : 1 ≤ rows) (ha : IsShape rows cols approx) (hd : IsShape rows cols dst) :
    ∃ dst1, Append approx dst = .ok dst1 ∧ IsShape rows cols dst1 ∧
      (∀ dim i, dim < rows → i < cols →
        ∃ d a, cell dst dim i = some d ∧ cell approx dim i = some a ∧
          cell dst1 dim i = some (d + a)) ∧
      ∀ other, IsShape rows cols other →
        ∃ dst2 final, Append other dst1 = .ok final ∧ Append other dst = .ok dst2 ∧
          Append approx dst2 = .ok final := by
  refine ⟨addMatrix dst approx, Append_eq hrows ha hd, addMatrix_shape hd ha, ?_, ?_⟩
  · intro dim i hdim hi
    obtain ⟨d, hcd⟩ := cell_of_shape hd hdim hi
    obtain ⟨a, hca⟩ := cell_of_shape ha hdim hi
    exact ⟨d, a, hcd, hca, by rw [cell_addMatrix, hcd, hca]⟩
  · intro other ho
    have h1 := addMatrix_shape hd ha
    have h2 := addMatrix_shape hd ho
    refine ⟨addMatrix dst other, addMatrix (addMatrix dst approx) other,
      Append_eq hrows ho h1, Append_eq hrows ho hd, ?_⟩
    rw [Append_eq hrows ha h2]
    congr 1
    apply matrix_ext
    · rw [(addMatrix_shape h2 ha).1, (addMatrix_shape h1 ho).1]
    · intro r c
      rw [cell_addMatrix, cell_addMatrix, cell_addMatrix, cell_addMatrix]
      cases cell dst r c <;> cases cell approx r c <;> cases cell other r c <;>
        simp [add_right_comm]

end AppendClaim

/-- The scenario for C19: two `2 x 2` matrices. -/
theorem C19_append_cursor_update_witness :
    ∃ dst1, Append [[10, 20], [30, 40]] ([[1, 2], [3, 4]] : TMatrix Int) = .ok dst1 ∧
      IsShape 2 2 dst1 ∧ cell dst1 1 0 = some 33 := by
  obtain ⟨dst1, h1, h2, h3, -⟩ := C19_append_cursor_update 2 2
    ([[10, 20], [30, 40]] : TMatrix Int) [[1, 2], [3, 4]] (by decide)
    (by simp [IsShape]) (by simp [IsShape])
  refine ⟨dst1, h1, h2, ?_⟩
  obtain ⟨d, a, hd, ha, hs⟩ := h3 1 0 (by decide) (by decide)
  have hd1 : d = 3 := by
    have : cell ([[1, 2], [3, 4]] : TMatrix Int) 1 0 = some 3 := by decide
    rw [this] at hd
    exact (Option.some.inj hd).symm
  have ha1 : a = 30 := by
    have : cell ([[10, 20], [30, 40]] : TMatrix Int) 1 0 = some 30 := by decide
    rw [this] at ha
    exact (Option.some.inj ha).symm
  rw [hs, hd1, ha1]
  rfl

section LoadMissing
variable {V S : Type}

theorem getElem?_resize_some {α : Type} (xs : List (Option α)) (n k : Nat) (x : α)
    (h : (if xs.length < n then resize xs n none else xs)[k]? = some (some x)) :
    xs[k]? = some (some x) := by
  split at h
  · unfold resize at h
    by_cases hk : k < (xs.take n).length
    · rw [List.getElem?_append_left hk] at h
      rw [List.getElem?_take] at h
      split at h
      · exact h
      · cases h
    · rw [List.getElem?_append_right (by omega), List.getElem?_replicate] at h
      split at h <;> cases h
  · exact h

variable [Zero V]

/-- C15 (reading a checkpoint that was never written): when the ordinal `k` has
no file name, or has one under which no file exists, `LoadApprox(k)` fails; the
error is that of opening a missing file whenever `k + 1` fits `ui32`.  This
holds whatever the captured document count is. -/
theorem C15_load_never_written (self : TMetricsPlotCalcer V S) (k : Nat)
    (hnever : ∀ path, self.NonAdditiveMetricsData.ApproxFiles[k]? = some (some path) →
      self.TmpDir.Files path = none) :
    (∃ e, LoadApprox self k = .error e) ∧
      (k + 1 < 4294967296 → LoadApprox self k = .error TError.fileNotFound) := by
  constructor
  · unfold LoadApprox GetApproxFileName
    simp only []
    split
    · exact ⟨_, rfl⟩
    · rename_i x fileName self1 heq
      split at heq
      · cases heq
      · rename_i path1 hfiles
        simp only [Except.ok.injEq, Prod.mk.injEq] at heq
        obtain ⟨hpath, hself⟩ := heq
        have hp := getElem?_resize_some _ _ _ _ hfiles
        subst hpath
        rw [← hself]
        simp only [hnever _ hp]
        exact ⟨_, rfl⟩
      · rename_i hfiles
        simp only [Except.ok.injEq, Prod.mk.injEq] at heq
        obtain ⟨hpath, hself⟩ := heq
        rw [← hself, ← hpath]
        simp only [if_true]
        exact ⟨_, rfl⟩
  · intro hk
    by_cases hname : ∃ path, self.NonAdditiveMetricsData.ApproxFiles[k]? = some (some path)
    · obtain ⟨path, hp⟩ := hname
      unfold LoadApprox
      rw [GetApproxFileName_named self k path hp hk]
      simp only [hnever path hp]
    · obtain ⟨files, -, h⟩ := GetApproxFileName_unnamed self k
        (fun path h => hname ⟨path, h⟩) hk
      unfold LoadApprox
      rw [h]
      simp

end LoadMissing

/-- The scenario for C15: a calculator that has captured four targets and has
saved nothing is asked for the snapshot of ordinal 3. -/
theorem C15_load_never_written_witness :
    LoadApprox
        { demoCalcer 0 10 5 [demoMetric false EErrorType.PerObjectError] with
          NonAdditiveMetricsData :=
            { ApproxFiles := [], Target := [1, 0, 1, 0], Weights := [1, 1, 1, 1] } } 3
      = .error TError.fileNotFound :=
  (C15_load_never_written
    { demoCalcer 0 10 5 [demoMetric false EErrorType.PerObjectError] with
      NonAdditiveMetricsData :=
        { ApproxFiles := [], Target := [1, 0, 1, 0], Weights := [1, 1, 1, 1] } } 3
    (by intro path h; simp at h)).2 (by decide)

section Frame
variable {V S : Type}

/-- Invariant rule for a counted loop that returned. -/
theorem forRange_ok_inv {σ : Type} (P : Nat → σ → Prop) (body : Nat → σ → Except TError σ)
    (n : Nat) (s0 s1 : σ) (h : forRange n body s0 = .ok s1) (h0 : P 0 s0)
    (hstep : ∀ i s s2, i < n → P i s → body i s = .ok s2 → P (i + 1) s2) : P n s1 := by
  induction n generalizing s1 with
  | zero =>
    rw [forRange_zero] at h
    cases h
    exact h0
  | succ n ih =>
    rw [forRange_succ] at h
    cases hn : forRange n body s0 with
    | error e => rw [hn] at h; cases h
    | ok s =>
      rw [hn] at h
      exact hstep n s s1 (Nat.lt_succ_self n)
        (ih s hn (fun i s s2 hi hp hb => hstep i s s2 (Nat.lt_succ_of_lt hi) hp hb)) h

theorem GetApproxFileName_frame (s s1 : TMetricsPlotCalcer V S) (k path : Nat)
    (h : GetApproxFileName s k = .ok (path, s1)) :
    s1.Model = s.Model ∧ s1.First = s.First ∧ s1.Last = s.Last ∧ s1.Step = s.Step ∧
      s1.Metrics = s.Metrics ∧ s1.MetricPlots = s.MetricPlots ∧
      s1.Iterations = s.Iterations ∧
      s1.NonAdditiveMetricsData.Target = s.NonAdditiveMetricsData.Target ∧
      s1.NonAdditiveMetricsData.Weights = s.NonAdditiveMetricsData.Weights := by
  unfold GetApproxFileName at h
  simp only [] at h
  split at h
  · cases h
  · simp only [Except.ok.injEq, Prod.mk.injEq] at h
    rw [← h.2]
    exact ⟨rfl, rfl, rfl, rfl, rfl, rfl, rfl, rfl, rfl⟩
  · simp only [Except.ok.injEq, Prod.mk.injEq] at h
    rw [← h.2]
    exact ⟨rfl, rfl, rfl, rfl, rfl, rfl, rfl, rfl, rfl⟩

theorem SaveApproxToFile_frame [Zero V] (s s1 : TMetricsPlotCalcer V S) (k : Nat)
    (approx : TMatrix V) (h : SaveApproxToFile s k approx = .ok s1) :
    s1.Model = s.Model ∧ s1.First = s.First ∧ s1.Last = s.Last ∧ s1.Step = s.Step ∧
      s1.Metrics = s.Metrics ∧ s1.MetricPlots = s.MetricPlots ∧
      s1.Iterations = s.Iterations ∧
      s1.NonAdditiveMetricsData.Target = s.NonAdditiveMetricsData.Target ∧
      s1.NonAdditiveMetricsData.Weights = s.NonAdditiveMetricsData.Weights := by
  unfold SaveApproxToFile at h
  split at h
  · cases h
  · rename_i fileName self1 hname
    have hf := GetApproxFileName_frame s self1 k fileName hname
    split at h
    · cases h
    · simp only [] at h
      split at h
      · cases h
      · simp only [Except.ok.injEq] at h
        rw [← h]
        exact hf

variable [Zero S] [Add S]

/-- A pass of the metric loop that returned has replaced the plot of its metric
by one of `k + 1` entries. -/
theorem ProceedMetric_ok_set (metrics : List (IMetric V S)) (cursor : TMatrix V)
    (pool : TPool V) (target weights : List V) (k j : Nat) (plots plots1 : List (List S))
    (hrow : ∀ row, plots[j]? = some row → row.length = k)
    (h : ProceedMetric metrics cursor pool target weights k (k + 1) j plots = .ok plots1) :
    ∃ row1, row1.length = k + 1 ∧ plots1 = plots.set j row1 := by
  unfold ProceedMetric at h
  split at h
  · cases h
  · rename_i plot hplot
    have hp : plots[j]? = some plot := by
      unfold getAt at hplot
      split at hplot
      · rename_i x hx
        simp only [Except.ok.injEq] at hplot
        rw [hx, hplot]
      · cases hplot
    have hlen := hrow plot hp
    simp only [hlen, Nat.lt_succ_self, if_true, resize_succ plot k 0 hlen] at h
    split at h
    · cases h
    · rename_i metric hmetric
      split at h
      · split at h
        · cases h
        · split at h
          · cases h
          · rename_i stat hstat
            split at h
            · cases h
            · rename_i plot2 hplot2
              unfold setAt at hplot2 h
              split at hplot2
              · simp only [Except.ok.injEq] at hplot2
                split at h
                · simp only [Except.ok.injEq] at h
                  exact ⟨plot2, by rw [← hplot2]; simp [hlen], h.symm⟩
                · cases h
              · cases hplot2
      · split at h
        · unfold setAt at h
          split at h
          · simp only [Except.ok.injEq] at h
            exact ⟨plot ++ [0], by simp [hlen], h.symm⟩
          · cases h
        · cases h

/-- The metric loop of `ProceedMetrics`, when it returns, leaves `k + 1`
entries in every plot. -/
theorem ProceedMetric_loop_ok_shape (metrics : List (IMetric V S)) (cursor : TMatrix V)
    (pool : TPool V) (target weights : List V) (k : Nat) (plots0 plots : List (List S))
    (hshape : IsShape metrics.length k plots0)
    (h : forRange metrics.length (ProceedMetric metrics cursor pool target weights k (k + 1))
      plots0 = .ok plots) :
    IsShape metrics.length (k + 1) plots := by
  have hinv := forRange_ok_inv
    (fun j (p : List (List S)) => p.length = metrics.length ∧
      ∀ r row, p[r]? = some row → row.length = if r < j then k + 1 else k)
    _ _ _ _ h
    ⟨hshape.1, fun r row hr => by
      simp only [Nat.not_lt_zero, if_false]
      obtain ⟨hlt, hget⟩ := List.getElem?_eq_some.mp hr
      exact hshape.2 row (hget ▸ List.getElem_mem hlt)⟩
    (by
      intro j p p2 hj ⟨hlen, hrows⟩ hb
      obtain ⟨row1, hl1, hp2⟩ := ProceedMetric_ok_set metrics cursor pool target weights k j
        p p2 (fun row hr => by rw [hrows j row hr, if_neg (Nat.lt_irrefl j)]) hb
      subst hp2
      refine ⟨by simp [hlen], ?_⟩
      intro r row hr
      rw [List.getElem?_set] at hr
      by_cases hjr : j = r
      · subst hjr
        rw [if_pos rfl] at hr
        split at hr
        · simp only [Option.some.injEq] at hr
          rw [← hr, if_pos (Nat.lt_succ_self _)]
          exact hl1
        · cases hr
      · rw [if_neg hjr] at hr
        rw [hrows r row hr]
        by_cases hlt : r < j
        · rw [if_pos hlt, if_pos (by omega)]
        · rw [if_neg hlt, if_neg (by omega)])
  obtain ⟨hlen, hrows⟩ := hinv
  refine ⟨hlen, ?_⟩
  intro row hrow
  obtain ⟨i, hi, hget⟩ := List.getElem_of_mem hrow
  have := hrows i row (by rw [List.getElem?_eq_getElem hi, hget])
  rw [this, if_pos (by omega)]

end Frame

section Frame2
variable {V S : Type} [Zero V] [Zero S] [Add S]

omit [Zero V] in
/-- The errors of a pass of the metric loop. -/
theorem ProceedMetric_error (metrics : List (IMetric V S)) (cursor : TMatrix V)
    (pool : TPool V) (target weights : List V) (k plotSize j : Nat) (plots : List (List S))
    (e : TError)
    (h : ProceedMetric metrics cursor pool target weights k plotSize j plots = .error e) :
    e = .outOfBounds ∨ e = .badTarget ∨ e = .noPairs ∨ e = .nonAdditivePairwise := by
  unfold ProceedMetric at h
  split at h
  · rename_i e1 h1
    cases h
    exact Or.inl (getAt_error h1)
  · rename_i plot hplot
    simp only [] at h
    generalize (if plot.length < plotSize then resize plot plotSize 0 else plot) = plot1 at h
    split at h
    · rename_i e1 h1
      cases h
      exact Or.inl (getAt_error h1)
    · rename_i metric hmetric
      by_cases hadd : metric.IsAdditiveMetric = true
      · rw [if_pos hadd] at h
        split at h
        · rename_i e1 h1
          cases h
          exact Or.inl (getAt_error h1)
        · split at h
          · rename_i e1 h1
            cases h
            rcases ComputeMetric_error h1 with h2 | h2
            · exact Or.inr (Or.inl h2)
            · exact Or.inr (Or.inr (Or.inl h2))
          · split at h
            · rename_i e1 h1
              cases h
              exact Or.inl (setAt_error h1)
            · exact Or.inl (setAt_error h)
      · rw [if_neg hadd] at h
        by_cases hpo : metric.GetErrorType = EErrorType.PerObjectError
        · rw [if_pos hpo] at h
          exact Or.inl (setAt_error h)
        · rw [if_neg hpo] at h
          cases h
          exact Or.inr (Or.inr (Or.inr rfl))

/-- What a call of `ProceedMetrics` that returned has left unchanged, and what
it has added to the target/weight buffer. -/
theorem ProceedMetrics_frame (s s1 : TMetricsPlotCalcer V S) (cursor : TMatrix V)
    (pool : TPool V) (target weights : List V) (k it : Nat)
    (h : ProceedMetrics s cursor pool target weights k it = .ok s1) :
    s1.Model = s.Model ∧ s1.First = s.First ∧ s1.Last = s.Last ∧ s1.Step = s.Step ∧
      s1.Metrics = s.Metrics ∧
      s1.NonAdditiveMetricsData.Target = s.NonAdditiveMetricsData.Target ++
        (if HasNonAdditiveMetric s = true ∧ k = 0 then target else []) ∧
      s1.NonAdditiveMetricsData.Weights = s.NonAdditiveMetricsData.Weights ++
        (if HasNonAdditiveMetric s = true ∧ k = 0 then weights else []) ∧
      (HasNonAdditiveMetric s = false →
        s1.NonAdditiveMetricsData = s.NonAdditiveMetricsData ∧ s1.TmpDir = s.TmpDir ∧
          s1.DeleteTmpDirOnExitFlag = s.DeleteTmpDirOnExitFlag) := by
  unfold ProceedMetrics at h
  simp only [] at h
  split at h
  · cases h
  · split at h
    · cases h
    · rename_i iterations hits plots hplots
      have hna : ∀ its ps, HasNonAdditiveMetric
          ({ s with MetricPlots := ps, Iterations := its } : TMetricsPlotCalcer V S)
          = HasNonAdditiveMetric s := fun _ _ => rfl
      rw [hna] at h
      cases hcase : HasNonAdditiveMetric s with
      | false =>
        rw [hcase] at h
        simp only [Bool.false_eq_true, if_false, Except.ok.injEq] at h
        rw [← h]
        simp
      | true =>
        rw [hcase] at h
        simp only [if_true] at h
        have hf := SaveApproxToFile_frame _ _ _ _ h
        obtain ⟨h1, h2, h3, h4, h5, -, -, h8, h9⟩ := hf
        refine ⟨?_, ?_, ?_, ?_, ?_, ?_, ?_, fun hc => by cases hc⟩
        · rw [h1]; split <;> rfl
        · rw [h2]; split <;> rfl
        · rw [h3]; split <;> rfl
        · rw [h4]; split <;> rfl
        · rw [h5]; split <;> rfl
        · rw [h8]
          by_cases hk : k = 0
          · simp [hk]
          · simp [hk]
        · rw [h9]
          by_cases hk : k = 0
          · simp [hk]
          · simp [hk]

/-- A call of `ProceedMetrics` at the ordinal that follows the recorded ones, on
plots that hold one entry per recorded checkpoint: when it returns, one more
iteration is recorded and every plot holds one more entry. -/
theorem ProceedMetrics_consistent (s s1 : TMetricsPlotCalcer V S) (cursor : TMatrix V)
    (pool : TPool V) (target weights : List V) (it : Nat)
    (hk : s.Iterations.length + 1 < 4294967296)
    (hshape : IsShape s.Metrics.length s.Iterations.length
      (resize s.MetricPlots s.Metrics.length []))
    (h : ProceedMetrics s cursor pool target weights s.Iterations.length it = .ok s1) :
    s1.Iterations = s.Iterations ++ [it] ∧
      IsShape s1.Metrics.length s1.Iterations.length s1.MetricPlots := by
  have hm := (ProceedMetrics_frame s s1 cursor pool target weights _ it h).2.2.2.2.1
  unfold ProceedMetrics at h
  simp only [ui32_of_lt hk, Nat.lt_succ_self, if_true, List.length_append,
    List.length_singleton] at h
  split at h
  · cases h
  · rename_i plots hplots
    have hsh := ProceedMetric_loop_ok_shape s.Metrics cursor pool target weights _ _ plots
      hshape hplots
    split at h
    · have hf := SaveApproxToFile_frame _ _ _ _ h
      obtain ⟨-, -, -, -, -, h6, h7, -, -⟩ := hf
      have h6a : s1.MetricPlots = plots := by rw [h6]; split <;> rfl
      have h7a : s1.Iterations = s.Iterations ++ [it] := by rw [h7]; split <;> rfl
      refine ⟨h7a, ?_⟩
      rw [hm, h6a, h7a]
      simpa using hsh
    · simp only [Except.ok.injEq] at h
      rw [← h]
      refine ⟨rfl, ?_⟩
      simpa using hsh

/-- A call of `ProceedMetrics` at an ordinal that does not skip one never fails
the check `CB_ENSURE(Iterations.size() == plotSize)`. -/
theorem ProceedMetrics_no_mismatch (s : TMetricsPlotCalcer V S) (cursor : TMatrix V)
    (pool : TPool V) (target weights : List V) (k it : Nat)
    (hk : k + 1 < 4294967296) (hle : k ≤ s.Iterations.length) :
    ProceedMetrics s cursor pool target weights k it ≠ .error TError.iterationsMismatch := by
  intro h
  unfold ProceedMetrics at h
  simp only [ui32_of_lt hk] at h
  split at h
  · rename_i e1 h1
    split at h1
    · rename_i hlt
      have hlen : s.Iterations.length = k := by omega
      simp [hlen] at h1
    · cases h1
  · split at h
    · rename_i e1 h1
      simp only [Except.error.injEq] at h
      subst h
      obtain ⟨i, p, -, hb⟩ := forRange_error_elim _ _ _ _ h1
      rcases ProceedMetric_error _ _ _ _ _ _ _ _ _ _ hb with h2 | h2 | h2 | h2 <;> cases h2
    · split at h
      · have := SaveApproxToFile_error h
        cases this
      · cases h

end Frame2

section Termination
variable {V S : Type} [Zero V] [Add V] [Zero S] [Add S]

omit [Zero V] [Add V] [Zero S] [Add S] in
theorem batchesOf_append (xs ys : List (TCall V)) :
    batchesOf (xs ++ ys) = batchesOf xs ++ batchesOf ys := by
  induction xs with
  | nil => rfl
  | cons x xs ih =>
    cases x <;> simp [batchesOf, ih]

omit [Zero S] [Add S] in
theorem batchesOf_callsUpTo (self : TMetricsPlotCalcer V S) (pool : TPool V) (j : Nat) :
    batchesOf (callsUpTo self pool j)
      = (List.range j).map (fun i =>
          (self.First + i * self.Step, min self.Last (self.First + (i + 1) * self.Step))) := by
  induction j with
  | zero => rfl
  | succ j ih =>
    rw [callsUpTo, batchesOf_append, ih, List.range_succ, List.map_append]
    rfl

omit [Zero V] [Add V] [Zero S] [Add S] in
theorem appendsOf_append (xs ys : List (TCall V)) :
    appendsOf (xs ++ ys) = appendsOf xs ++ appendsOf ys := by
  induction xs with
  | nil => rfl
  | cons x xs ih =>
    cases x <;> simp [appendsOf, ih]

omit [Zero S] [Add S] in
theorem appendsOf_callsUpTo (self : TMetricsPlotCalcer V S) (pool : TPool V) (j : Nat) :
    appendsOf (callsUpTo self pool j)
      = (List.range j).map (fun i =>
          ApplyBatch self.Model pool (self.First + i * self.Step)
            (min self.Last (self.First + (i + 1) * self.Step))) := by
  induction j with
  | zero => rfl
  | succ j ih =>
    rw [callsUpTo, appendsOf_append, ih, List.range_succ, List.map_append]
    rfl

/-- The loop of `ProceedDataSet` returns, with a result or an exception, given
one unit of fuel per batch left and one more, whatever the metrics do. -/
theorem ProceedDataSetLoop_terminates (pool : TPool V) (first last step : Nat)
    (hs : 1 ≤ step) (hw : last + step < 4294967296) :
    ∀ (n j fuel : Nat) (st : TScan V S),
      j + n = batchCount first last step → n + 1 ≤ fuel →
      st.self.Last = last → st.self.Step = step →
      ∃ r, ProceedDataSetLoop pool fuel (first + j * step) st = some r := by
  intro n
  induction n with
  | zero =>
    intro j fuel st hj hfuel hlast hstep
    obtain ⟨fuel1, rfl⟩ : ∃ f, fuel = f + 1 := ⟨fuel - 1, by omega⟩
    have hnot : ¬ first + j * step < st.self.Last := by
      rw [hlast, ← batch_lt_iff _ _ _ _ hs]
      omega
    exact ⟨_, by rw [ProceedDataSetLoop, if_neg hnot]⟩
  | succ n ih =>
    intro j fuel st hj hfuel hlast hstep
    obtain ⟨fuel1, rfl⟩ : ∃ f, fuel = f + 1 := ⟨fuel - 1, by omega⟩
    have hlt0 := (batch_lt_iff first last step j hs).mp (by omega)
    have hlt : first + j * step < st.self.Last := by rw [hlast]; exact hlt0
    rw [ProceedDataSetLoop, if_pos hlt]
    simp only []
    cases hpm : ProceedMetrics st.self st.cursor pool pool.Docs.Target pool.Docs.Weight
        st.idx st.currentIter with
    | error e => exact ⟨_, rfl⟩
    | ok s1 =>
      simp only []
      obtain ⟨-, -, hl1, hs1, -⟩ := ProceedMetrics_frame _ _ _ _ _ _ _ _ hpm
      cases happ : Append (ApplyBatch s1.Model pool (first + j * step)
          (min st.self.Last (ui32 (first + j * step + st.self.Step)))) st.cursor with
      | error e => exact ⟨_, rfl⟩
      | ok cursor1 =>
        simp only []
        have hnext : ui32 (first + j * step + s1.Step) = first + (j + 1) * step := by
          rw [hs1, hstep, ui32_of_lt (by omega)]
          ring
        rw [hnext]
        exact ih (j + 1) fuel1 _ (by omega) (by omega) (by simp only [hl1, hlast])
          (by simp only [hs1, hstep])

/-- C16 (termination of the batch scanner): with `Step >= 1` and
`Last + Step < 2 ^ 32`, `ProceedDataSet` returns (with a result or an exception)
given one unit of fuel per batch and one more, whatever the metrics do, because
`Last - nextBatchStart` decreases on every pass; in a run that raises no
exception the loop body runs `batchCount` times, which is
`ceil((Last - First) / Step)` when `First < Last` and zero otherwise.  With a
step of zero the loop variable, and so the measure, does not change. -/
theorem C16_loop_termination (ensure : TMetricsPlotCalcer V S → Except TError Unit)
    (self : TMetricsPlotCalcer V S) (pool : TPool V) (hs : 1 ≤ self.Step)
    (hw : self.Last + self.Step < 4294967296) (fuel : Nat)
    (hfuel : batchCount self.First self.Last self.Step + 1 ≤ fuel) :
    (∃ r, ProceedDataSet ensure fuel self pool = some r) ∧
      (∀ nextBatchStart, nextBatchStart < self.Last →
        self.Last - ui32 (nextBatchStart + self.Step) < self.Last - nextBatchStart) ∧
      batchCount self.First self.Last self.Step
        = (if self.First < self.Last then
            (self.Last - self.First + self.Step - 1) / self.Step
          else 0) ∧
      (RunOk self pool → ensure self = .ok () →
        ∃ st, ProceedDataSet ensure fuel self pool = some (.ok st) ∧
          (batchesOf st.calls).length = batchCount self.First self.Last self.Step ∧
          (appendsOf st.calls).length = batchCount self.First self.Last self.Step) ∧
      (∀ nextBatchStart, nextBatchStart < self.Last →
        self.Last - ui32 (nextBatchStart + 0) = self.Last - nextBatchStart) := by
  refine ⟨?_, ?_, rfl, ?_, ?_⟩
  · unfold ProceedDataSet
    cases ensure self with
    | error e => exact ⟨_, rfl⟩
    | ok u =>
      simp only []
      obtain ⟨r, hr⟩ := ProceedDataSetLoop_terminates pool self.First self.Last self.Step hs hw
        (batchCount self.First self.Last self.Step) 0 fuel
        { self := self
          cursor := List.replicate self.Model.ApproxDimension
            (List.replicate pool.Docs.DocCount 0)
          currentIter := 0, idx := 0, calls := [], states := [] }
        (by omega) hfuel rfl rfl
      simp only [Nat.zero_mul, Nat.add_zero] at hr
      rw [hr]
      cases r with
      | error e => exact ⟨_, rfl⟩
      | ok st =>
        simp only []
        cases ProceedMetrics st.self st.cursor pool pool.Docs.Target pool.Docs.Weight st.idx
            st.currentIter with
        | error e => exact ⟨_, rfl⟩
        | ok s1 => exact ⟨_, rfl⟩
  · intro nbs hlt
    rw [ui32_of_lt (by omega)]
    omega
  · intro hok hens
    obtain ⟨st, hrun, -, -, hcalls, -, -, -⟩ := ProceedDataSet_run ensure self pool hok hs hw
      hens fuel hfuel
    refine ⟨st, hrun, ?_, ?_⟩
    · rw [hcalls, batchesOf_append, batchesOf_callsUpTo]
      simp [batchesOf]
    · rw [hcalls, appendsOf_append, appendsOf_callsUpTo]
      simp [appendsOf]
  · intro nbs hlt
    rw [ui32_of_lt (by omega)]
    rfl

/-- C17 (the batches partition the window): with `First < Last` and
`Step >= 1`, the ranges handed to the scoring applier are, for `j` below the
number of batches, `[First + j * Step, min(Last, First + (j + 1) * Step))`: the
first starts at `First`, each starts where the one before ended, the last ends
at `Last`, every one is non-empty and at most `Step` long, and every one but the
last is exactly `Step` long. -/
theorem C17_batches_partition (ensure : TMetricsPlotCalcer V S → Except TError Unit)
    (self : TMetricsPlotCalcer V S) (pool : TPool V) (hFL : self.First < self.Last)
    (hs : 1 ≤ self.Step) (hw : self.Last + self.Step < 4294967296) (hok : RunOk self pool)
    (hens : ensure self = .ok ()) (fuel : Nat)
    (hfuel : batchCount self.First self.Last self.Step + 1 ≤ fuel) :
    ∃ st, ProceedDataSet ensure fuel self pool = some (.ok st) ∧
      batchesOf st.calls
        = (List.range (batchCount self.First self.Last self.Step)).map (fun j =>
            (self.First + j * self.Step, min self.Last (self.First + (j + 1) * self.Step))) ∧
      1 ≤ batchCount self.First self.Last self.Step ∧
      (∃ batchEnd, (batchesOf st.calls)[0]? = some (self.First, batchEnd)) ∧
      (∃ batchStart, (batchesOf st.calls)[batchCount self.First self.Last self.Step - 1]?
        = some (batchStart, self.Last)) ∧
      (∀ j b, (batchesOf st.calls)[j]? = some b →
        b.1 < b.2 ∧ b.2 - b.1 ≤ self.Step ∧
          (j + 1 < batchCount self.First self.Last self.Step → b.2 - b.1 = self.Step)) ∧
      (∀ j b c, (batchesOf st.calls)[j]? = some b → (batchesOf st.calls)[j + 1]? = some c →
        c.1 = b.2) := by
  obtain ⟨st, hrun, -, -, hcalls, -, -, -⟩ := ProceedDataSet_run ensure self pool hok hs hw
    hens fuel hfuel
  have hb : batchesOf st.calls
      = (List.range (batchCount self.First self.Last self.Step)).map (fun j =>
          (self.First + j * self.Step, min self.Last (self.First + (j + 1) * self.Step))) := by
    rw [hcalls, batchesOf_append, batchesOf_callsUpTo]
    simp [batchesOf]
  have hB1 : 1 ≤ batchCount self.First self.Last self.Step := by
    have := (batch_lt_iff self.First self.Last self.Step 0 hs).mpr (by omega)
    omega
  have hget : ∀ j b, (batchesOf st.calls)[j]? = some b →
      j < batchCount self.First self.Last self.Step ∧
        b = (self.First + j * self.Step, min self.Last (self.First + (j + 1) * self.Step)) := by
    intro j b hj
    rw [hb] at hj
    have hlt : j < batchCount self.First self.Last self.Step := by
      by_contra hge
      rw [List.getElem?_eq_none (by simp; omega)] at hj
      cases hj
    rw [List.getElem?_map, List.getElem?_range hlt] at hj
    simp only [Option.map_some', Option.some.injEq] at hj
    exact ⟨hlt, hj.symm⟩
  have hmul : ∀ j, (j + 1) * self.Step = j * self.Step + self.Step := fun j => by ring
  refine ⟨st, hrun, hb, hB1, ?_, ?_, ?_, ?_⟩
  · refine ⟨min self.Last (self.First + (0 + 1) * self.Step), ?_⟩
    rw [hb, List.getElem?_map, List.getElem?_range (by omega)]
    simp
  · refine ⟨self.First + (batchCount self.First self.Last self.Step - 1) * self.Step, ?_⟩
    rw [hb, List.getElem?_map, List.getElem?_range (by omega)]
    have hsub : batchCount self.First self.Last self.Step - 1 + 1
        = batchCount self.First self.Last self.Step := by omega
    simp only [Option.map_some', hsub, batchCount_boundary _ _ _ hs]
  · intro j b hj
    obtain ⟨hlt, hbeq⟩ := hget j b hj
    subst hbeq
    have h1 := (batch_lt_iff self.First self.Last self.Step j hs).mp hlt
    have h2 := hmul j
    refine ⟨?_, ?_, ?_⟩
    · simp only []
      omega
    · simp only []
      omega
    · intro hj1
      have h3 := (batch_lt_iff self.First self.Last self.Step (j + 1) hs).mp hj1
      simp only []
      omega
  · intro j b c hj hj1
    obtain ⟨hlt, hbeq⟩ := hget j b hj
    obtain ⟨hlt1, hceq⟩ := hget (j + 1) c hj1
    subst hbeq hceq
    have h3 := (batch_lt_iff self.First self.Last self.Step (j + 1) hs).mp hlt1
    simp only []
    omega

/-- C11 (empty window): with `Last <= First`, whatever the step, a run of
`ProceedDataSet` on a fresh calculator makes exactly one call, the call of
`ProceedMetrics` with `plotLineIndex = 0` and the all-zero cursor; it calls
neither the scoring applier nor `Append`. -/
theorem C11_empty_window (ensure : TMetricsPlotCalcer V S → Except TError Unit)
    (self : TMetricsPlotCalcer V S) (pool : TPool V) (hLF : self.Last ≤ self.First)
    (hfresh : Fresh self)
    (hsupp : ∀ m ∈ self.Metrics, MetricSupported pool pool.Docs.Target m)
    (hdim : 1 ≤ self.Model.ApproxDimension) (hens : ensure self = .ok ()) (fuel : Nat)
    (hfuel : 1 ≤ fuel) :
    ∃ st, ProceedDataSet ensure fuel self pool = some (.ok st) ∧
      st.calls = [TCall.proceedMetrics
        (zeroMatrix self.Model.ApproxDimension pool.Docs.DocCount) 0 0] ∧
      plotLineIndices st.calls = [0] ∧ batchesOf st.calls = [] ∧ appendsOf st.calls = [] := by
  obtain ⟨fuel1, rfl⟩ : ∃ f, fuel = f + 1 := ⟨fuel - 1, by omega⟩
  obtain ⟨s1, hpm, -⟩ := ProceedMetrics_step_of_shape self self pool 0 hsupp hdim
    (zeroMatrix_shape _ _) (RunInv_zero self pool hfresh) (by decide)
  have hnot : ¬ self.First < self.Last := by omega
  refine ⟨{ self := s1
            cursor := zeroMatrix self.Model.ApproxDimension pool.Docs.DocCount
            currentIter := 0, idx := 0
            calls := [TCall.proceedMetrics
              (zeroMatrix self.Model.ApproxDimension pool.Docs.DocCount) 0 0]
            states := [s1] }, ?_, rfl, rfl, rfl, rfl⟩
  unfold ProceedDataSet
  simp only [hens]
  rw [ProceedDataSetLoop, if_neg hnot]
  simp only []
  have hpm1 : ProceedMetrics self
      (List.replicate self.Model.ApproxDimension (List.replicate pool.Docs.DocCount 0))
      pool pool.Docs.Target pool.Docs.Weight 0 0 = .ok s1 := hpm
  rw [hpm1]
  rfl

end Termination

/-- The scenario for C11: the window `[10, 10)` with a step of zero. -/
theorem C11_empty_window_witness :
    ∃ st, ProceedDataSet (fun _ => .ok ()) 1
        (demoCalcer 10 10 0 [demoMetric true EErrorType.PerObjectError]) (demoPool [])
          = some (.ok st) ∧
      st.calls = [TCall.proceedMetrics [[0, 0, 0, 0]] 0 0] := by
  obtain ⟨st, hrun, hcalls, -⟩ := C11_empty_window (fun _ => .ok ())
    (demoCalcer 10 10 0 [demoMetric true EErrorType.PerObjectError]) (demoPool [])
    (by decide) (demo_RunOk 10 10 0 true).fresh (demo_RunOk 10 10 0 true).supported
    (by decide) rfl 1 (by decide)
  exact ⟨st, hrun, hcalls⟩

/-- The scenario for C16: the window `[0, 10)` in steps of 3 has four batches;
with a step of zero five units of fuel are not enough. -/
theorem C16_loop_termination_witness :
    (∃ st, ProceedDataSet (fun _ => .ok ()) 5
        (demoCalcer 0 10 3 [demoMetric true EErrorType.PerObjectError]) (demoPool [])
          = some (.ok st) ∧
      (batchesOf st.calls).length = 4) ∧
      ProceedDataSet (fun _ => .ok ()) 5
        (demoCalcer 0 10 0 [demoMetric true EErrorType.PerObjectError]) (demoPool []) = none := by
  obtain ⟨-, -, -, h, -⟩ := C16_loop_termination (fun _ => .ok ())
    (demoCalcer 0 10 3 [demoMetric true EErrorType.PerObjectError]) (demoPool [])
    (by decide) (by decide) 5 (by decide)
  obtain ⟨st, hrun, hlen, -⟩ := h (demo_RunOk 0 10 3 true) rfl
  exact ⟨⟨st, hrun, hlen.trans (by decide)⟩, rfl⟩

/-- The scenario for C17: the window `[2, 10)` in steps of 3 is cut into
`[2, 5)`, `[5, 8)` and `[8, 10)`. -/
theorem C17_batches_partition_witness :
    ∃ st, ProceedDataSet (fun _ => .ok ()) 4
        (demoCalcer 2 10 3 [demoMetric true EErrorType.PerObjectError]) (demoPool [])
          = some (.ok st) ∧
      batchesOf st.calls = [(2, 5), (5, 8), (8, 10)] := by
  obtain ⟨st, hrun, hb, -⟩ := C17_batches_partition (fun _ => .ok ())
    (demoCalcer 2 10 3 [demoMetric true EErrorType.PerObjectError]) (demoPool [])
    (by decide) (by decide) (by decide) (demo_RunOk 2 10 3 true) rfl 4 (by decide)
  exact ⟨st, hrun, hb.trans (by decide)⟩

section ScoreTable
variable {V S : Type}

theorem setAt2_ok_shape {α : Type} {rows cols : Nat} (m m1 : List (List α)) (r c : Nat) (x : α)
    (h : setAt2 m r c x = .ok m1) (hm : IsShape rows cols m) : IsShape rows cols m1 := by
  unfold setAt2 at h
  split at h
  · cases h
  · rename_i row hrow
    split at h
    · cases h
    · rename_i row1 hrow1
      simp only [Except.ok.injEq] at h
      subst h
      unfold setAt at hrow1
      split at hrow1
      · simp only [Except.ok.injEq] at hrow1
        subst hrow1
        obtain ⟨hlt, hget⟩ := List.getElem?_eq_some.mp hrow
        have hrl : row.length = cols := hm.2 row (hget ▸ List.getElem_mem hlt)
        constructor
        · simp [hm.1]
        · intro row2 hrow2
          rcases List.mem_or_eq_of_mem_set hrow2 with h1 | h1
          · exact hm.2 row2 h1
          · rw [h1]
            simp [hrl]
      · cases hrow1

/-- The score loops of `GetMetricsScore`, when they return, keep the shape of
the table. -/
theorem ScoreCell_loops_shape (metrics : List (IMetric V S)) (plots : List (List S))
    (n rows cols : Nat) (table0 table : TMatrix V) (h0 : IsShape rows cols table0)
    (h : forRange n
        (fun i metricsScore =>
          forRange metrics.length (ScoreCell metrics plots i) metricsScore) table0
      = .ok table) :
    IsShape rows cols table := by
  apply forRange_ok_inv (fun _ (t : TMatrix V) => IsShape rows cols t) _ _ _ _ h h0
  intro i t t2 _ ht hb
  apply forRange_ok_inv (fun _ (t1 : TMatrix V) => IsShape rows cols t1) _ _ _ _ hb ht
  intro j t1 t3 _ ht1 hb1
  unfold ScoreCell at hb1
  split at hb1
  · cases hb1
  · split at hb1
    · cases hb1
    · split at hb1
      · cases hb1
      · exact setAt2_ok_shape _ _ _ _ _ hb1 ht1

end ScoreTable

section ScoreRun
variable {V S : Type}

/-- The function `GetMetricsScore` once its deferred pass has returned the
calculator `s1` whose plots hold one entry per metric and recorded checkpoint:
the table has one row per metric and one entry per recorded checkpoint, the
score of the holder in the plots of `s1`. -/
theorem GetMetricsScore_of_deferred [Zero V] (s s1 : TMetricsPlotCalcer V S)
    (hdef : (if HasNonAdditiveMetric s = true then ComputeNonAdditiveMetrics s else .ok s)
      = .ok s1)
    (hcells : ∀ r c, r < s1.Metrics.length → c < s1.Iterations.length →
      ∃ v, cell s1.MetricPlots r c = some v) :
    ∃ table, GetMetricsScore s = .ok (table, s1) ∧
      IsShape s1.Metrics.length s1.Iterations.length table ∧
      ∀ r c, r < s1.Metrics.length → c < s1.Iterations.length →
        cell table r c = scoreOf s1.Metrics r (cell s1.MetricPlots r c) := by
  obtain ⟨table, htable, -, hscore⟩ := ScoreCell_loops (V := V) s1.Metrics s1.MetricPlots
    s1.Iterations.length hcells
  have hshape := ScoreCell_loops_shape s1.Metrics s1.MetricPlots s1.Iterations.length
    s1.Metrics.length s1.Iterations.length _ table (zeroMatrix_shape _ _) htable
  refine ⟨table, ?_, hshape, hscore⟩
  unfold GetMetricsScore
  simp only [hdef, htable]

variable [Zero V] [Add V] [Zero S] [Add S]

/-- The function `GetMetricsScore` after a run: it returns; the calculator it
leaves differs from that of the run in the plots only, where the slots of the
non-additive metrics hold the full evaluations; and the table holds the score
of every holder. -/
theorem GetMetricsScore_run (self0 s : TMetricsPlotCalcer V S) (pool : TPool V) (j : Nat)
    (hok : RunOk self0 pool) (hinv : RunInv self0 pool (j + 1) s)
    (hdocs : pool.Docs.Target.length = pool.Docs.DocCount) (hj : j + 1 < 4294967296) :
    ∃ table plots, GetMetricsScore s = .ok (table, { s with MetricPlots := plots }) ∧
      plots.length = self0.Metrics.length ∧
      (∀ r c, cell plots r c =
        if nonAdditiveAt self0.Metrics r = true ∧ c < j + 1 then
          fullEval self0.Metrics (cursorAt self0 pool c) pool.Docs.Target pool.Docs.Weight r
        else cell (plotsAt self0 pool (j + 1)) r c) ∧
      IsShape self0.Metrics.length (j + 1) table ∧
      ∀ r c, r < self0.Metrics.length → c < j + 1 →
        cell table r c = scoreOf self0.Metrics r (cell plots r c) := by
  have hitl : s.Iterations.length = j + 1 := by rw [hinv.iterations]; simp
  have hplots : s.MetricPlots = plotsAt self0 pool (j + 1) := by
    rw [hinv.plots, if_neg (by omega)]
  have hshape := plotsAt_shape self0 pool (j + 1)
  have hnaeq := HasNonAdditiveMetric_congr s self0 hinv.metrics
  cases hna : HasNonAdditiveMetric self0 with
  | false =>
    have hnone : ∀ r, nonAdditiveAt self0.Metrics r = false := by
      intro r
      unfold nonAdditiveAt
      cases hm : self0.Metrics[r]? with
      | none => rfl
      | some m =>
        simp only []
        cases hadd : m.IsAdditiveMetric with
        | true => rfl
        | false =>
          rw [HasNonAdditiveMetric_of_mem self0 r m hm hadd] at hna
          cases hna
    obtain ⟨table, h1, h2, h3⟩ := GetMetricsScore_of_deferred s s
      (by rw [hnaeq, hna]; rfl)
      (by
        intro r c hr hc
        rw [hplots]
        rw [hinv.metrics] at hr
        rw [hitl] at hc
        exact cell_of_shape hshape hr hc)
    rw [hinv.metrics, hitl] at h2 h3
    refine ⟨table, s.MetricPlots, h1, by rw [hplots]; exact hshape.1, ?_, h2, h3⟩
    intro r c
    rw [hnone r, hplots]
    simp
  | true =>
    obtain ⟨plots, hdef, hlen, hcells⟩ := ComputeNonAdditiveMetrics_run self0 s pool j hok hinv
      hdocs hj hna
    have hsome : ∀ r c, r < self0.Metrics.length → c < j + 1 →
        ∃ v, cell plots r c = some v := by
      intro r c hr hc
      rw [hcells]
      split
      · unfold fullEval
        rw [List.getElem?_eq_getElem hr]
        exact ⟨_, rfl⟩
      · exact cell_of_shape hshape hr hc
    obtain ⟨table, h1, h2, h3⟩ := GetMetricsScore_of_deferred s
      ({ s with MetricPlots := plots } : TMetricsPlotCalcer V S)
      (by rw [hnaeq, hna, if_pos rfl]; exact hdef)
      (by
        intro r c hr hc
        simp only [hinv.metrics] at hr
        simp only [hitl] at hc
        exact hsome r c hr hc)
    simp only [hinv.metrics, hitl] at h2 h3
    exact ⟨table, plots, h1, hlen, hcells, h2, h3⟩

end ScoreRun

section ScoreClaims
variable {V S : Type} [Zero V] [Add V] [Zero S] [Add S]

/-- C12 (score table): after a run of `ProceedDataSet` (no step of which raises
an exception) `GetMetricsScore` returns a table with one row per registered
metric, in registration order, and in each row one entry per recorded
checkpoint, the entry `[m][i]` being `GetFinalError` of the holder
`MetricPlots[m][i]` of the calculator it leaves; and on every calculator without
a non-additive metric whose plots hold one entry per recorded checkpoint it
returns such a table, leaves the calculator as it was, and gives the same table
whatever the temporary directory holds. -/
theorem C12_score_table (ensure : TMetricsPlotCalcer V S → Except TError Unit)
    (self : TMetricsPlotCalcer V S) (pool : TPool V) (hs : 1 ≤ self.Step)
    (hw : self.Last + self.Step < 4294967296) (hok : RunOk self pool)
    (hdocs : pool.Docs.Target.length = pool.Docs.DocCount)
    (hens : ensure self = .ok ()) (fuel : Nat)
    (hfuel : batchCount self.First self.Last self.Step + 1 ≤ fuel) :
    (∃ st table self1, ProceedDataSet ensure fuel self pool = some (.ok st) ∧
      GetMetricsScore st.self = .ok (table, self1) ∧
      self1.Metrics = self.Metrics ∧ self1.Iterations = st.self.Iterations ∧
      IsShape self.Metrics.length st.self.Iterations.length table ∧
      ∀ r c, r < self.Metrics.length → c < st.self.Iterations.length →
        cell table r c = scoreOf self.Metrics r (cell self1.MetricPlots r c)) ∧
      ∀ s : TMetricsPlotCalcer V S, HasNonAdditiveMetric s = false →
        IsShape s.Metrics.length s.Iterations.length s.MetricPlots →
        ∃ table, GetMetricsScore s = .ok (table, s) ∧
          IsShape s.Metrics.length s.Iterations.length table ∧
          (∀ r c, r < s.Metrics.length → c < s.Iterations.length →
            cell table r c = scoreOf s.Metrics r (cell s.MetricPlots r c)) ∧
          ∀ tmpDir : TTmpDir V,
            GetMetricsScore ({ s with TmpDir := tmpDir } : TMetricsPlotCalcer V S)
              = .ok (table, { s with TmpDir := tmpDir }) := by
  constructor
  · obtain ⟨st, hrun, hinv, -, -, -, -, -⟩ := ProceedDataSet_run ensure self pool hok
      hs hw hens fuel hfuel
    have hB := batchCount_le self.First self.Last self.Step hs
    have hitl : st.self.Iterations.length = batchCount self.First self.Last self.Step + 1 := by
      rw [hinv.iterations]; simp
    obtain ⟨table, plots, hscore, -, -, hshape, hcells⟩ := GetMetricsScore_run self st.self pool
      (batchCount self.First self.Last self.Step) hok hinv hdocs (by omega)
    refine ⟨st, table, _, hrun, hscore, hinv.metrics, rfl, ?_, ?_⟩
    · rw [hitl]; exact hshape
    · intro r c hr hc
      rw [hitl] at hc
      exact hcells r c hr hc
  · intro s hna hshape
    obtain ⟨table, htable, -, hscore⟩ := ScoreCell_loops (V := V) s.Metrics s.MetricPlots
      s.Iterations.length (fun r c hr hc => cell_of_shape hshape hr hc)
    have hsh := ScoreCell_loops_shape s.Metrics s.MetricPlots s.Iterations.length
      s.Metrics.length s.Iterations.length _ table (zeroMatrix_shape _ _) htable
    refine ⟨table, ?_, hsh, hscore, ?_⟩
    · unfold GetMetricsScore
      simp only [hna, Bool.false_eq_true, if_false, htable]
    · intro tmpDir
      have hna1 : HasNonAdditiveMetric ({ s with TmpDir := tmpDir } : TMetricsPlotCalcer V S)
          = false := hna
      unfold GetMetricsScore
      simp only [hna1, Bool.false_eq_true, if_false, htable]

omit [Zero S] [Add S] in
theorem cursorAt_congr (self1 self2 : TMetricsPlotCalcer V S) (pool : TPool V)
    (hmodel : self2.Model = self1.Model) (hfirst : self2.First = self1.First)
    (hlast : self2.Last = self1.Last) (hstep : self2.Step = self1.Step) (k : Nat) :
    cursorAt self2 pool k = cursorAt self1 pool k := by
  induction k with
  | zero => simp only [cursorAt, hmodel]
  | succ k ih => simp only [cursorAt, ih, hmodel, hfirst, hlast, hstep]

/-- C18 (the deferred pass touches only non-additive slots): after a run of
`ProceedDataSet` with a non-additive metric registered,
`ComputeNonAdditiveMetrics` returns the calculator of the run with new plots
only (the recorded iterations and the target/weight buffer are as before); the
slot `[m][i]` of every non-additive metric holds the full evaluation on the
cursor of checkpoint `i`, and the slots of the additive metrics are as before.
The scores that `GetMetricsScore` gives an additive metric are those it gives it
when the non-additive metrics are not registered. -/
theorem C18_deferred_pass_frame (ensure : TMetricsPlotCalcer V S → Except TError Unit)
    (self : TMetricsPlotCalcer V S) (pool : TPool V) (hs : 1 ≤ self.Step)
    (hw : self.Last + self.Step < 4294967296) (hok : RunOk self pool)
    (hdocs : pool.Docs.Target.length = pool.Docs.DocCount)
    (hna : HasNonAdditiveMetric self = true)
    (hens : ensure self = .ok ())
    (hens1 : ensure { self with Metrics := self.Metrics.filter (fun m => m.IsAdditiveMetric) }
      = .ok ())
    (fuel : Nat) (hfuel : batchCount self.First self.Last self.Step + 1 ≤ fuel) :
    ∃ st plots, ProceedDataSet ensure fuel self pool = some (.ok st) ∧
      ComputeNonAdditiveMetrics st.self = .ok { st.self with MetricPlots := plots } ∧
      (∀ r m c cursor, self.Metrics[r]? = some m → m.IsAdditiveMetric = false →
        (cursorsOf st.calls)[c]? = some cursor →
        cell plots r c = some (m.Eval cursor pool.Docs.Target pool.Docs.Weight 0
          (pool.Docs.Target.length : Int))) ∧
      (∀ r m c, self.Metrics[r]? = some m → m.IsAdditiveMetric = true →
        cell plots r c = cell st.self.MetricPlots r c) ∧
      ∃ st1 table table1 self1 self2,
        ProceedDataSet ensure fuel
          { self with Metrics := self.Metrics.filter (fun m => m.IsAdditiveMetric) } pool
            = some (.ok st1) ∧
        GetMetricsScore st.self = .ok (table, self1) ∧
        GetMetricsScore st1.self = .ok (table1, self2) ∧
        ∀ r r1 m c, self.Metrics[r]? = some m →
          (self.Metrics.filter (fun m => m.IsAdditiveMetric))[r1]? = some m →
          m.IsAdditiveMetric = true → c < st.self.Iterations.length →
          cell table r c = cell table1 r1 c := by
  obtain ⟨st, hrun, hinv, -, hcalls, -, -, -⟩ := ProceedDataSet_run ensure self pool hok
    hs hw hens fuel hfuel
  have hB := batchCount_le self.First self.Last self.Step hs
  have hitl : st.self.Iterations.length = batchCount self.First self.Last self.Step + 1 := by
    rw [hinv.iterations]; simp
  have hplots0 : st.self.MetricPlots
      = plotsAt self pool (batchCount self.First self.Last self.Step + 1) := by
    rw [hinv.plots, if_neg (by omega)]
  obtain ⟨plots, hdef, hlen, hcells⟩ := ComputeNonAdditiveMetrics_run self st.self pool
    (batchCount self.First self.Last self.Step) hok hinv hdocs (by omega) hna
  have hcur : ∀ k cursor, (cursorsOf st.calls)[k]? = some cursor →
      k < batchCount self.First self.Last self.Step + 1 ∧ cursor = cursorAt self pool k := by
    intro k cursor hk
    have hall : cursorsOf st.calls
        = (List.range (batchCount self.First self.Last self.Step + 1)).map
            (cursorAt self pool) := by
      rw [hcalls, cursorsOf_append, cursorsOf_callsUpTo, List.range_succ, List.map_append]
      rfl
    rw [hall] at hk
    have hlt : k < batchCount self.First self.Last self.Step + 1 := by
      by_contra hge
      rw [List.getElem?_eq_none (by simp; omega)] at hk
      cases hk
    rw [List.getElem?_map, List.getElem?_range hlt] at hk
    simp only [Option.map_some', Option.some.injEq] at hk
    exact ⟨hlt, hk.symm⟩
  -- the run without the non-additive metrics
  have hok1 : RunOk ({ self with Metrics := self.Metrics.filter (fun m => m.IsAdditiveMetric) } :
      TMetricsPlotCalcer V S) pool :=
    { fresh := ⟨hok.fresh.iterations, hok.fresh.plots, hok.fresh.target, hok.fresh.weights,
        hok.fresh.approxFiles⟩
      supported := fun m hm => hok.supported m (List.mem_filter.mp hm).1
      dimension := hok.dimension
      applier := hok.applier }
  obtain ⟨st1, hrun1, hinv1, -, -, -, -, -⟩ := ProceedDataSet_run ensure
    ({ self with Metrics := self.Metrics.filter (fun m => m.IsAdditiveMetric) } :
      TMetricsPlotCalcer V S) pool hok1 hs hw hens1 fuel hfuel
  obtain ⟨table, plotsA, hscore, -, hcellsA, -, htable⟩ := GetMetricsScore_run self st.self pool
    (batchCount self.First self.Last self.Step) hok hinv hdocs (by omega)
  obtain ⟨table1, plotsB, hscore1, -, hcellsB, -, htable1⟩ := GetMetricsScore_run
    ({ self with Metrics := self.Metrics.filter (fun m => m.IsAdditiveMetric) } :
      TMetricsPlotCalcer V S) st1.self pool
    (batchCount self.First self.Last self.Step) hok1 hinv1 hdocs (by omega)
  refine ⟨st, plots, hrun, hdef, ?_, ?_, st1, table, table1, _, _, hrun1, hscore, hscore1, ?_⟩
  · intro r m c cursor hm hadd hc
    obtain ⟨hlt, hceq⟩ := hcur c cursor hc
    have hnat : nonAdditiveAt self.Metrics r = true := by
      simp [nonAdditiveAt, hm, hadd]
    rw [hcells, if_pos ⟨hnat, hlt⟩, hceq]
    simp [fullEval, hm]
  · intro r m c hm hadd
    have hnat : nonAdditiveAt self.Metrics r = false := by
      simp [nonAdditiveAt, hm, hadd]
    rw [hcells, hplots0]
    simp [hnat]
  · intro r r1 m c hm hm1 hadd hc
    rw [hitl] at hc
    have hr : r < self.Metrics.length := (List.getElem?_eq_some.mp hm).1
    have hr1 : r1 < (self.Metrics.filter (fun m => m.IsAdditiveMetric)).length :=
      (List.getElem?_eq_some.mp hm1).1
    have hnat : nonAdditiveAt self.Metrics r = false := by
      simp [nonAdditiveAt, hm, hadd]
    have hnat1 : nonAdditiveAt (self.Metrics.filter (fun m => m.IsAdditiveMetric)) r1
        = false := by
      simp [nonAdditiveAt, hm1, hadd]
    have hcc := cursorAt_congr self
      ({ self with Metrics := self.Metrics.filter (fun m => m.IsAdditiveMetric) } :
        TMetricsPlotCalcer V S) pool rfl rfl rfl rfl c
    rw [htable r c hr hc, htable1 r1 c hr1 hc, hcellsA, hcellsB]
    simp only [hnat, hnat1, Bool.false_eq_true, false_and, if_false]
    rw [cell_plotsAt, cell_plotsAt, hm]
    simp only [hm1, hc, if_true, hcc]
    simp [scoreOf, hm, hm1]

end ScoreClaims

/-- The scenario with one additive and one non-additive per-object metric
satisfies the conditions of a run without exception. -/
theorem demo_RunOk_mixed (first last step : Nat) :
    RunOk (demoCalcer first last step
        [demoMetric true EErrorType.PerObjectError, demoMetric false EErrorType.PerObjectError])
      (demoPool []) :=
  { fresh := ⟨rfl, rfl, rfl, rfl, rfl⟩
    supported := by
      intro m hm
      simp only [demoCalcer, List.mem_cons, List.mem_singleton, List.not_mem_nil,
        or_false] at hm
      rcases hm with hm | hm <;> subst hm <;> simp [MetricSupported, demoMetric]
    dimension := Nat.le_refl 1
    applier := by
      intro b e
      simp [IsShape, demoCalcer, demoModel, demoPool] }

/-- The scenario for C12: one additive metric over the window `[0, 10)` in
steps of 5; the table is the single row of the scores 2, 82 and 362. -/
theorem C12_score_table_witness :
    ∃ st table self1,
      ProceedDataSet (fun _ => .ok ()) 3
          (demoCalcer 0 10 5 [demoMetric true EErrorType.PerObjectError]) (demoPool [])
        = some (.ok st) ∧
      GetMetricsScore st.self = .ok (table, self1) ∧
      IsShape 1 st.self.Iterations.length table ∧ table = [[2, 82, 362]] := by
  obtain ⟨st, table, self1, hrun, hscore, -, -, hshape, -⟩ := (C12_score_table (fun _ => .ok ())
    (demoCalcer 0 10 5 [demoMetric true EErrorType.PerObjectError]) (demoPool [])
    (by decide) (by decide) (demo_RunOk 0 10 5 true) rfl rfl 3 (by decide)).1
  have h0 : (match ProceedDataSet (fun _ => .ok ()) 3
      (demoCalcer 0 10 5 [demoMetric true EErrorType.PerObjectError]) (demoPool []) with
      | some (.ok st0) =>
        (match GetMetricsScore st0.self with
          | .ok r => some r.1
          | .error _ => none)
      | _ => none) = some [[2, 82, 362]] := by
    decide
  rw [hrun] at h0
  simp only [hscore, Option.some.injEq] at h0
  exact ⟨st, table, self1, hrun, hscore, hshape, h0⟩

/-- The scenario for C18: an additive and a non-additive metric over the window
`[0, 10)` in steps of 5; the slot of the non-additive metric at checkpoint 1
holds its full evaluation 82 on the cursor of that checkpoint. -/
theorem C18_deferred_pass_frame_witness :
    ∃ st plots,
      ProceedDataSet (fun _ => .ok ()) 3
          (demoCalcer 0 10 5
            [demoMetric true EErrorType.PerObjectError,
              demoMetric false EErrorType.PerObjectError]) (demoPool [])
        = some (.ok st) ∧
      ComputeNonAdditiveMetrics st.self = .ok { st.self with MetricPlots := plots } ∧
      (cursorsOf st.calls)[1]? = some [[5, 5, 5, 5]] ∧
      cell plots 1 1 = some 82 ∧
      cell plots 0 1 = cell st.self.MetricPlots 0 1 := by
  obtain ⟨st, plots, hrun, hdef, hnon, hadd, -⟩ := C18_deferred_pass_frame (fun _ => .ok ())
    (demoCalcer 0 10 5
      [demoMetric true EErrorType.PerObjectError, demoMetric false EErrorType.PerObjectError])
    (demoPool []) (by decide) (by decide) (demo_RunOk_mixed 0 10 5) rfl rfl rfl rfl 3
    (by decide)
  have hc0 : (match ProceedDataSet (fun _ => .ok ()) 3
      (demoCalcer 0 10 5
        [demoMetric true EErrorType.PerObjectError, demoMetric false EErrorType.PerObjectError])
      (demoPool []) with
      | some (.ok st0) => (cursorsOf st0.calls)[1]?
      | _ => none) = some [[5, 5, 5, 5]] := by
    decide
  have hc : (cursorsOf st.calls)[1]? = some [[5, 5, 5, 5]] := by
    rw [hrun] at hc0
    exact hc0
  refine ⟨st, plots, hrun, hdef, hc, ?_, ?_⟩
  · rw [hnon 1 (demoMetric false EErrorType.PerObjectError) 1 [[5, 5, 5, 5]] rfl rfl hc]
    decide
  · exact hadd 0 (demoMetric true EErrorType.PerObjectError) 1 rfl rfl

section Consistency
variable {V S : Type} [Zero V] [Add V] [Zero S] [Add S]

omit [Zero V] [Zero S] [Add S] in
theorem Append_error (approx dst : TMatrix V) (e : TError)
    (h : Append approx dst = .error e) : e = .outOfBounds := by
  unfold Append at h
  split at h
  · rename_i e1 h1
    cases h
    exact getAt_error h1
  · simp only [] at h
    obtain ⟨dim, m, -, hb⟩ := forRange_error_elim _ _ _ _ h
    obtain ⟨i, m1, -, hc⟩ := forRange_error_elim _ _ _ _ hb
    unfold AppendCell at hc
    split at hc
    · rename_i e1 h1
      cases hc
      exact getAt_error h1
    · split at hc
      · rename_i e1 h1
        cases hc
        exact getAt_error h1
      · split at hc
        · rename_i e1 h1
          cases hc
          exact getAt_error h1
        · split at hc
          · rename_i e1 h1
            cases hc
            exact getAt_error h1
          · exact setAt2_error hc

omit [Zero S] [Add S] in
theorem cursorsOf_run (self : TMetricsPlotCalcer V S) (pool : TPool V) (j it : Nat)
    (k : Nat) (cursor : TMatrix V)
    (h : (cursorsOf (callsUpTo self pool j ++
      [TCall.proceedMetrics (cursorAt self pool j) j it]))[k]? = some cursor) :
    k < j + 1 ∧ cursor = cursorAt self pool k := by
  have hall : cursorsOf (callsUpTo self pool j ++
      [TCall.proceedMetrics (cursorAt self pool j) j it])
      = (List.range (j + 1)).map (cursorAt self pool) := by
    rw [cursorsOf_append, cursorsOf_callsUpTo, List.range_succ, List.map_append]
    rfl
  rw [hall] at h
  have hlt : k < j + 1 := by
    by_contra hge
    rw [List.getElem?_eq_none (by simp; omega)] at h
    cases h
  rw [List.getElem?_map, List.getElem?_range hlt] at h
  simp only [Option.map_some', Option.some.injEq] at h
  exact ⟨hlt, h.symm⟩

/-- The loop of `ProceedDataSet`, entered for pass `j` on a calculator that has
recorded `j` checkpoints and holds `j` entries per plot, never fails the check
`CB_ENSURE(Iterations.size() == plotSize)`, and when it returns the calculator
has recorded as many checkpoints as `idx` tells. -/
theorem ProceedDataSetLoop_no_mismatch (pool : TPool V) (first last step : Nat)
    (hs : 1 ≤ step) (hw : last + step < 4294967296) :
    ∀ (fuel j : Nat) (st : TScan V S),
      j ≤ batchCount first last step → st.self.Last = last → st.self.Step = step →
      st.idx = j → st.self.Iterations.length = j →
      IsShape st.self.Metrics.length j
        (resize st.self.MetricPlots st.self.Metrics.length []) →
      ProceedDataSetLoop pool fuel (first + j * step) st
          ≠ some (.error TError.iterationsMismatch) ∧
        ∀ st1, ProceedDataSetLoop pool fuel (first + j * step) st = some (.ok st1) →
          st1.idx ≤ batchCount first last step ∧ st1.self.Iterations.length = st1.idx := by
  intro fuel
  induction fuel with
  | zero =>
    intro j st _ _ _ _ _ _
    rw [ProceedDataSetLoop]
    exact ⟨by simp, by simp⟩
  | succ fuel ih =>
    intro j st hj hlast hstep hidx hits hshape
    rw [ProceedDataSetLoop]
    by_cases hlt : first + j * step < st.self.Last
    · rw [if_pos hlt]
      simp only []
      have hjB : j < batchCount first last step := by
        rw [batch_lt_iff _ _ _ _ hs, ← hlast]; exact hlt
      have hB := batchCount_le first last step hs
      cases hpm : ProceedMetrics st.self st.cursor pool pool.Docs.Target pool.Docs.Weight
          st.idx st.currentIter with
      | error e =>
        simp only []
        refine ⟨?_, by simp⟩
        intro h
        simp only [Option.some.injEq, Except.error.injEq] at h
        subst h
        exact ProceedMetrics_no_mismatch st.self st.cursor pool _ _ st.idx st.currentIter
          (by omega) (by omega) hpm
      | ok s1 =>
        simp only []
        rw [hidx, ← hits] at hpm
        obtain ⟨-, -, hl1, hs1, hm1, -⟩ := ProceedMetrics_frame _ _ _ _ _ _ _ _ hpm
        obtain ⟨hit1, hsh1⟩ := ProceedMetrics_consistent st.self s1 st.cursor pool _ _ _
          (by omega) (by rw [hits]; exact hshape) hpm
        cases happ : Append (ApplyBatch s1.Model pool (first + j * step)
            (min st.self.Last (ui32 (first + j * step + st.self.Step)))) st.cursor with
        | error e =>
          simp only []
          refine ⟨?_, by simp⟩
          intro h
          simp only [Option.some.injEq, Except.error.injEq] at h
          subst h
          have := Append_error _ _ _ happ
          cases this
        | ok cursor1 =>
          simp only []
          have hnext : ui32 (first + j * step + s1.Step) = first + (j + 1) * step := by
            rw [hs1, hstep, ui32_of_lt (by rw [hlast] at hlt; omega)]
            ring
          rw [hnext]
          have hlen1 : s1.Iterations.length = j + 1 := by rw [hit1]; simp [hits]
          apply ih (j + 1) _ (by omega) (by simp only [hl1, hlast]) (by simp only [hs1, hstep])
            (by simp only [hidx]; exact ui32_of_lt (by omega)) hlen1
          simp only []
          rw [hlen1] at hsh1
          rw [resize_of_length_eq _ _ _ hsh1.1]
          exact hsh1
    · rw [if_neg hlt]
      refine ⟨by simp, ?_⟩
      intro st1 h
      simp only [Option.some.injEq, Except.ok.injEq] at h
      subst h
      exact ⟨by omega, by omega⟩

/-- C13 (checkpoint-count consistency): on a fresh calculator, with
`Step >= 1` and counters that do not wrap, `ProceedDataSet` never fails the check
`CB_ENSURE(Iterations.size() == plotSize)`, whatever the metrics are; and in a
run that raises no exception the calculator left by every `ProceedMetrics` call
has one plot per metric, every plot as long as `Iterations`, so that every
access `MetricPlots[m][i]` with `i < Iterations.size()` is in bounds and
`GetMetricsScore` returns. -/
theorem C13_checkpoint_count_consistency
    (ensure : TMetricsPlotCalcer V S → Except TError Unit)
    (self : TMetricsPlotCalcer V S) (pool : TPool V) (hs : 1 ≤ self.Step)
    (hw : self.Last + self.Step < 4294967296) (hfresh : Fresh self) (fuel : Nat) :
    (ensure self ≠ .error TError.iterationsMismatch →
      ProceedDataSet ensure fuel self pool ≠ some (.error TError.iterationsMismatch)) ∧
      (RunOk self pool → ensure self = .ok () →
        batchCount self.First self.Last self.Step + 1 ≤ fuel →
        ∃ st, ProceedDataSet ensure fuel self pool = some (.ok st) ∧
          st.states.length = batchCount self.First self.Last self.Step + 1 ∧
          (∀ k s, st.states[k]? = some s →
            s.MetricPlots.length = s.Metrics.length ∧
              (∀ plot ∈ s.MetricPlots, plot.length = s.Iterations.length) ∧
              s.Iterations.length = k + 1 ∧
              ∀ m i, m < s.Metrics.length → i < s.Iterations.length →
                ∃ holder, cell s.MetricPlots m i = some holder) ∧
          (pool.Docs.Target.length = pool.Docs.DocCount →
            ∃ table self1, GetMetricsScore st.self = .ok (table, self1))) := by
  constructor
  · intro hens h
    unfold ProceedDataSet at h
    split at h
    · rename_i e he
      simp only [Option.some.injEq, Except.error.injEq] at h
      subst h
      exact hens he
    · simp only [] at h
      have hloop := ProceedDataSetLoop_no_mismatch pool self.First self.Last self.Step hs hw
        fuel 0
        { self := self
          cursor := List.replicate self.Model.ApproxDimension
            (List.replicate pool.Docs.DocCount 0)
          currentIter := 0, idx := 0, calls := [], states := [] }
        (Nat.zero_le _) rfl rfl rfl (by simp [hfresh.iterations])
        (by
          simp only [hfresh.plots, resize_nil]
          exact ⟨by simp, fun row hrow => by rw [List.eq_of_mem_replicate hrow]; rfl⟩)
      simp only [Nat.zero_mul, Nat.add_zero] at hloop
      obtain ⟨hne, hok⟩ := hloop
      split at h
      · cases h
      · rename_i e he
        simp only [Option.some.injEq, Except.error.injEq] at h
        subst h
        exact hne he
      · rename_i st hst
        obtain ⟨hidx, hlen⟩ := hok st hst
        have hB := batchCount_le self.First self.Last self.Step hs
        split at h
        · rename_i e he
          simp only [Option.some.injEq, Except.error.injEq] at h
          subst h
          exact ProceedMetrics_no_mismatch st.self st.cursor pool _ _ st.idx st.currentIter
            (by omega) (by omega) he
        · cases h
  · intro hok hens hfuel
    obtain ⟨st, hrun, hinv, -, -, hlen, -, hstates⟩ := ProceedDataSet_run ensure self pool hok
      hs hw hens fuel hfuel
    have hB := batchCount_le self.First self.Last self.Step hs
    refine ⟨st, hrun, hlen, ?_, ?_⟩
    · intro k s hk
      have hi := hstates k s hk
      have hitl : s.Iterations.length = k + 1 := by rw [hi.iterations]; simp
      have hplots : s.MetricPlots = plotsAt self pool (k + 1) := by
        rw [hi.plots, if_neg (by omega)]
      have hshape : IsShape s.Metrics.length s.Iterations.length s.MetricPlots := by
        rw [hplots, hi.metrics, hitl]
        exact plotsAt_shape self pool (k + 1)
      exact ⟨hshape.1, hshape.2, hitl, fun m i hm hi1 => cell_of_shape hshape hm hi1⟩
    · intro hdocs
      obtain ⟨table, plots, hscore, -⟩ := GetMetricsScore_run self st.self pool
        (batchCount self.First self.Last self.Step) hok hinv hdocs (by omega)
      exact ⟨table, _, hscore⟩

end Consistency

section Capture
variable {V S : Type} [Zero V] [Add V] [Zero S] [Add S]

/-- C14 (target/weight capture and spill gating): in a run of `ProceedDataSet`
on a fresh calculator, if a metric is non-additive the target/weight buffer has
grown by one copy of the dataset's targets and weights, it holds that one copy
after every `ProceedMetrics` call, and the spill file of every checkpoint
ordinal holds the `docCount` records of one `SaveApproxToFile` call, those of
the cursor of that checkpoint; if every metric is additive the buffer, the spill
file names and the temporary directory are untouched after every call.  For any
calculator, a `ProceedMetrics` call that returns has appended the targets and
weights at ordinal 0 only, and only if a metric is non-additive. -/
theorem C14_capture_and_spill_gating (ensure : TMetricsPlotCalcer V S → Except TError Unit)
    (self : TMetricsPlotCalcer V S) (pool : TPool V) (hs : 1 ≤ self.Step)
    (hw : self.Last + self.Step < 4294967296) (hok : RunOk self pool)
    (hens : ensure self = .ok ()) (fuel : Nat)
    (hfuel : batchCount self.First self.Last self.Step + 1 ≤ fuel) :
    ∃ st, ProceedDataSet ensure fuel self pool = some (.ok st) ∧
      (HasNonAdditiveMetric self = true →
        st.self.NonAdditiveMetricsData.Target
            = self.NonAdditiveMetricsData.Target ++ pool.Docs.Target ∧
          st.self.NonAdditiveMetricsData.Weights
            = self.NonAdditiveMetricsData.Weights ++ pool.Docs.Weight ∧
          (∀ (k : Nat) (s : TMetricsPlotCalcer V S), st.states[k]? = some s →
            s.NonAdditiveMetricsData.Target = pool.Docs.Target ∧
              s.NonAdditiveMetricsData.Weights = pool.Docs.Weight) ∧
          ∀ k cursor, (cursorsOf st.calls)[k]? = some cursor →
            ∃ recs, st.self.TmpDir.Files k = some recs ∧
              recs.length = pool.Docs.DocCount ∧ IsRecordsOf cursor recs) ∧
      (HasNonAdditiveMetric self = false →
        ∀ (k : Nat) (s : TMetricsPlotCalcer V S), st.states[k]? = some s →
          s.NonAdditiveMetricsData = self.NonAdditiveMetricsData ∧ s.TmpDir = self.TmpDir ∧
            s.DeleteTmpDirOnExitFlag = self.DeleteTmpDirOnExitFlag) ∧
      st.states[batchCount self.First self.Last self.Step]? = some st.self ∧
      ∀ (s s1 : TMetricsPlotCalcer V S) (cursor : TMatrix V) (target weights : List V)
        (k it : Nat), ProceedMetrics s cursor pool target weights k it = .ok s1 →
        s1.NonAdditiveMetricsData.Target = s.NonAdditiveMetricsData.Target ++
            (if HasNonAdditiveMetric s = true ∧ k = 0 then target else []) ∧
          s1.NonAdditiveMetricsData.Weights = s.NonAdditiveMetricsData.Weights ++
            (if HasNonAdditiveMetric s = true ∧ k = 0 then weights else []) ∧
          (HasNonAdditiveMetric s = false →
            s1.NonAdditiveMetricsData = s.NonAdditiveMetricsData ∧ s1.TmpDir = s.TmpDir) := by
  obtain ⟨st, hrun, hinv, -, hcalls, -, hlast, hstates⟩ := ProceedDataSet_run ensure self pool
    hok hs hw hens fuel hfuel
  refine ⟨st, hrun, ?_, ?_, hlast, ?_⟩
  · intro hna
    refine ⟨?_, ?_, ?_, ?_⟩
    · rw [hinv.target hna, if_neg (by omega), hok.fresh.target]
      rfl
    · rw [hinv.weights hna, if_neg (by omega), hok.fresh.weights]
      rfl
    · intro k s hk
      have hi := hstates k s hk
      exact ⟨by rw [hi.target hna, if_neg (by omega)],
        by rw [hi.weights hna, if_neg (by omega)]⟩
    · intro k cursor hk
      rw [hcalls] at hk
      obtain ⟨hlt, hc⟩ := cursorsOf_run self pool _ _ k cursor hk
      obtain ⟨recs, hfile, hrec⟩ := hinv.files hna k hlt
      subst hc
      refine ⟨recs, hfile, ?_, hrec⟩
      rw [hrec.1, headD_length_of_shape (cursorAt_shape self pool hok.applier k) hok.dimension]
  · intro hna k s hk
    exact (hstates k s hk).additiveOnly hna
  · intro s s1 cursor target weights k it hpm
    obtain ⟨-, -, -, -, -, h6, h7, h8⟩ := ProceedMetrics_frame s s1 cursor pool target weights
      k it hpm
    exact ⟨h6, h7, fun h => ⟨(h8 h).1, (h8 h).2.1⟩⟩

end Capture

/-- The scenario for C13: the window `[0, 10)` in steps of 5 with an additive
and a non-additive metric. -/
theorem C13_checkpoint_count_consistency_witness :
    ProceedDataSet (fun _ => .ok ()) 3
        (demoCalcer 0 10 5
          [demoMetric true EErrorType.PerObjectError,
            demoMetric false EErrorType.PerObjectError]) (demoPool [])
        ≠ some (.error TError.iterationsMismatch) ∧
      ∃ st, ProceedDataSet (fun _ => .ok ()) 3
          (demoCalcer 0 10 5
            [demoMetric true EErrorType.PerObjectError,
              demoMetric false EErrorType.PerObjectError]) (demoPool [])
          = some (.ok st) ∧ st.states.length = 3 := by
  have h := C13_checkpoint_count_consistency (fun _ => .ok ())
    (demoCalcer 0 10 5
      [demoMetric true EErrorType.PerObjectError, demoMetric false EErrorType.PerObjectError])
    (demoPool []) (by decide) (by decide) (demo_RunOk_mixed 0 10 5).fresh 3
  refine ⟨h.1 (by simp), ?_⟩
  obtain ⟨st, hrun, hlen, -⟩ := h.2 (demo_RunOk_mixed 0 10 5) rfl (by decide)
  exact ⟨st, hrun, hlen.trans (by decide)⟩

/-- The scenario for C14: with a non-additive metric the buffer holds the four
targets once after three checkpoints. -/
theorem C14_capture_and_spill_gating_witness :
    ∃ st, ProceedDataSet (fun _ => .ok ()) 3
        (demoCalcer 0 10 5
          [demoMetric true EErrorType.PerObjectError,
            demoMetric false EErrorType.PerObjectError]) (demoPool [])
        = some (.ok st) ∧
      st.self.NonAdditiveMetricsData.Target = [1, 0, 1, 0] ∧
      st.self.NonAdditiveMetricsData.Weights = [1, 1, 1, 1] := by
  obtain ⟨st, hrun, hna, -⟩ := C14_capture_and_spill_gating (fun _ => .ok ())
    (demoCalcer 0 10 5
      [demoMetric true EErrorType.PerObjectError, demoMetric false EErrorType.PerObjectError])
    (demoPool []) (by decide) (by decide) (demo_RunOk_mixed 0 10 5) rfl 3 (by decide)
  obtain ⟨h1, h2, -⟩ := hna rfl
  exact ⟨st, hrun, h1, h2⟩

section Columns
variable {V S : Type}

theorem cell_append_rows {α : Type} (xs ys : List (List α)) (r c : Nat) :
    cell (xs ++ ys) r c
      = if r < xs.length then cell xs r c else cell ys (r - xs.length) c := by
  unfold cell
  by_cases h1 : r < xs.length
  · rw [if_pos h1, List.getElem?_append_left h1]
  · rw [if_neg h1, List.getElem?_append_right (by omega)]

theorem appendColumns_shape {rows n1 n2 : Nat} {a b : TMatrix V} (ha : IsShape rows n1 a)
    (hb : IsShape rows n2 b) : IsShape rows (n1 + n2) (appendColumns a b) := by
  obtain ⟨hal, har⟩ := ha
  obtain ⟨hbl, hbr⟩ := hb
  refine ⟨by simp [appendColumns, hal, hbl], ?_⟩
  intro row hrow
  obtain ⟨i, hi, hget⟩ := List.getElem_of_mem hrow
  simp only [appendColumns, List.length_zipWith] at hi
  simp only [appendColumns, List.getElem_zipWith] at hget
  rw [← hget, List.length_append, har _ (List.getElem_mem _), hbr _ (List.getElem_mem _)]

theorem cell_appendColumns {rows n1 n2 : Nat} {a b : TMatrix V} (ha : IsShape rows n1 a)
    (hb : IsShape rows n2 b) (r c : Nat) :
    cell (appendColumns a b) r c = if c < n1 then cell a r c else cell b r (c - n1) := by
  by_cases hr : r < rows
  · have hra : r < a.length := by rw [ha.1]; exact hr
    have hrb : r < b.length := by rw [hb.1]; exact hr
    have hla : (a[r]).length = n1 := ha.2 _ (List.getElem_mem _)
    have hz : (appendColumns a b)[r]? = some (a[r] ++ b[r]) := by
      simp [appendColumns, List.getElem?_zipWith, List.getElem?_eq_getElem hra,
        List.getElem?_eq_getElem hrb]
    unfold cell
    rw [hz, List.getElem?_eq_getElem hra, List.getElem?_eq_getElem hrb]
    simp only []
    by_cases hc : c < n1
    · rw [if_pos hc, List.getElem?_append_left (by omega)]
    · rw [if_neg hc, List.getElem?_append_right (by omega), hla]
  · rw [cell_eq_none_of_shape (appendColumns_shape ha hb) (Or.inl (by omega)),
      cell_eq_none_of_shape ha (Or.inl (by omega)),
      cell_eq_none_of_shape hb (Or.inl (by omega))]
    simp

/-- The records of `a` followed by the records of `b` are the records of the
matrix whose columns are those of `a` followed by those of `b`. -/
theorem IsRecordsOf_append {rows n1 n2 : Nat} {a b : TMatrix V} {ra rb : List (List V)}
    (hrows : 1 ≤ rows) (ha : IsShape rows n1 a) (hb : IsShape rows n2 b)
    (hra : IsRecordsOf a ra) (hrb : IsRecordsOf b rb) :
    IsRecordsOf (appendColumns a b) (ra ++ rb) := by
  have hla : ra.length = n1 := by rw [hra.1, headD_length_of_shape ha hrows]
  have hlb : rb.length = n2 := by rw [hrb.1, headD_length_of_shape hb hrows]
  refine ⟨?_, ?_⟩
  · rw [headD_length_of_shape (appendColumns_shape ha hb) hrows, List.length_append, hla, hlb]
  · intro i dim
    rw [cell_append_rows, cell_appendColumns ha hb, hla]
    by_cases hi : i < n1
    · rw [if_pos hi, if_pos hi, hra.2]
    · rw [if_neg hi, if_neg hi, hrb.2]

/-- Two matrices saved one after the other under an ordinal that had no file
are loaded as one matrix, the columns of the first followed by those of the
second. -/
theorem Save_Save_Load [Zero V] (self : TMetricsPlotCalcer V S) (k n1 n2 : Nat)
    (a b : TMatrix V) (hD : 1 ≤ self.Model.ApproxDimension)
    (ha : IsShape self.Model.ApproxDimension n1 a)
    (hb : IsShape self.Model.ApproxDimension n2 b)
    (hcount : self.NonAdditiveMetricsData.Target.length = n1 + n2)
    (hfresh : ∀ path, self.NonAdditiveMetricsData.ApproxFiles[k]? ≠ some (some path))
    (hk : k + 1 < 4294967296) :
    ∃ self1 self2 self3, SaveApproxToFile self k a = .ok self1 ∧
      SaveApproxToFile self1 k b = .ok self2 ∧
      LoadApprox self2 k = .ok (appendColumns a b, self3) := by
  obtain ⟨files, hfiles, hname⟩ := GetApproxFileName_unnamed self k hfresh hk
  obtain ⟨recsA, hrA, hsaveA⟩ := SaveApproxToFile_spec self _ k k a hname hD ha
  obtain ⟨s1, hs1, hsaveA1⟩ : ∃ s1, s1 = _ ∧ SaveApproxToFile self k a = .ok s1 :=
    ⟨_, rfl, hsaveA⟩
  have hn1 : s1.NonAdditiveMetricsData.ApproxFiles[k]? = some (some k) := by
    rw [hs1]; exact hfiles
  have hf1 : s1.TmpDir.Files k = some recsA := by rw [hs1]; simp
  have hm1 : s1.Model = self.Model := by rw [hs1]
  have ht1 : s1.NonAdditiveMetricsData.Target = self.NonAdditiveMetricsData.Target := by
    rw [hs1]
  obtain ⟨recsB, hrB, hsaveB⟩ := SaveApproxToFile_spec s1 s1 k k b
    (GetApproxFileName_named s1 k k hn1 hk) hD hb
  have hrec := IsRecordsOf_append hD ha hb hrA hrB
  refine ⟨s1, _, _, hsaveA1, hsaveB, LoadApprox_spec _ _ k k (appendColumns a b)
    (recsA ++ recsB) (GetApproxFileName_named _ k k hn1 hk) ?_ ?_ hrec.2 ?_⟩
  · simp [hf1]
  · rw [hrec.1, headD_length_of_shape (appendColumns_shape ha hb) hD]
    show n1 + n2 = s1.NonAdditiveMetricsData.Target.length
    rw [ht1, hcount]
  · show IsShape s1.Model.ApproxDimension s1.NonAdditiveMetricsData.Target.length _
    rw [hm1, ht1, hcount]
    exact appendColumns_shape ha hb

end Columns

section SecondRun
variable {V S : Type} [Zero V] [Add V] [Zero S] [Add S]

omit [Zero V] [Add V] in
/-- One pass of the metric loop on a plot that already has a slot for the
checkpoint: the plot keeps its length. -/
theorem ProceedMetric_full (metrics : List (IMetric V S)) (cursor : TMatrix V) (pool : TPool V)
    (target weights : List V) (k j : Nat) (plots : List (List S)) (plot : List S)
    (m : IMetric V S) (hp : plots[j]? = some plot) (hlen : k < plot.length)
    (hm : metrics[j]? = some m) (hs : MetricSupported pool target m) :
    ∃ plot2, plot2.length = plot.length ∧
      ProceedMetric metrics cursor pool target weights k (k + 1) j plots
        = .ok (plots.set j plot2) := by
  have hj : j < plots.length := by
    by_contra hj
    rw [List.getElem?_eq_none (by omega)] at hp
    cases hp
  unfold ProceedMetric
  have hno : ¬ plot.length < k + 1 := by omega
  simp only [getAt_eq_ok hp, getAt_eq_ok hm, if_neg hno]
  cases hadd : m.IsAdditiveMetric with
  | true =>
    obtain ⟨stat, hstat⟩ := ComputeMetric_supported hadd hs weights cursor
    simp only [if_true, getAt_of_lt hlen, hstat, setAt_of_lt _ hlen, setAt_of_lt _ hj]
    exact ⟨_, by simp, rfl⟩
  | false =>
    have hpo : m.GetErrorType = EErrorType.PerObjectError := by
      unfold MetricSupported at hs
      rw [if_neg (by simp [hadd])] at hs
      exact hs
    simp only [Bool.false_eq_true, if_false, hpo, if_true, setAt_of_lt _ hj]
    exact ⟨plot, rfl, rfl⟩

omit [Zero V] [Add V] in
/-- The metric loop of `ProceedMetrics` at checkpoint `k`, on plots that hold
`n > k` entries per metric, returns plots of the same shape. -/
theorem ProceedMetric_loop_full (metrics : List (IMetric V S)) (cursor : TMatrix V)
    (pool : TPool V) (target weights : List V) (k n : Nat) (plots0 : List (List S))
    (hshape : IsShape metrics.length n plots0) (hk : k < n)
    (hs : ∀ m ∈ metrics, MetricSupported pool target m) :
    ∃ plots, forRange metrics.length
        (ProceedMetric metrics cursor pool target weights k (k + 1)) plots0 = .ok plots ∧
      IsShape metrics.length n plots := by
  have h := forRange_inv
    (fun (_ : Nat) (plots : List (List S)) => IsShape metrics.length n plots)
    (ProceedMetric metrics cursor pool target weights k (k + 1)) metrics.length plots0
    hshape
    (by
      intro j plots hj hsh
      have hj0 : j < plots.length := by rw [hsh.1]; exact hj
      have hl : (plots[j]).length = n := hsh.2 _ (List.getElem_mem hj0)
      obtain ⟨plot2, hl2, hpm⟩ := ProceedMetric_full metrics cursor pool target weights k j
        plots _ _ (List.getElem?_eq_getElem hj0) (by omega) (List.getElem?_eq_getElem hj)
        (hs _ (List.getElem_mem hj))
      refine ⟨_, hpm, by simp [hsh.1], ?_⟩
      intro row hrow
      rcases List.mem_or_eq_of_mem_set hrow with h1 | h1
      · exact hsh.2 row h1
      · rw [h1, hl2, hl])
  obtain ⟨plots, hplots, hsh⟩ := h
  exact ⟨plots, hplots, hsh⟩

end SecondRun

section SecondRun2
variable {V S : Type} [Zero V] [Add V] [Zero S] [Add S]

/-- The calculator left by a run on `pool1` is where a second run starts. -/
theorem RunInv2_zero (self0 s : TMetricsPlotCalcer V S) (pool1 pool2 : TPool V)
    (hna : HasNonAdditiveMetric self0 = true)
    (hinv : RunInv self0 pool1 (batchCount self0.First self0.Last self0.Step + 1) s) :
    RunInv2 self0 pool1 pool2 0 s :=
  { model := hinv.model, first := hinv.first, last := hinv.last, step := hinv.step
    metrics := hinv.metrics
    iterations := by rw [hinv.iterations]; simp
    plots := by
      rw [hinv.plots, if_neg (Nat.succ_ne_zero _)]
      exact plotsAt_shape self0 pool1 _
    target := by rw [hinv.target hna]; simp
    weights := by rw [hinv.weights hna]; simp
    approxFiles := hinv.approxFiles hna
    files := fun i hi => by
      obtain ⟨recs, h1, h2⟩ := hinv.files hna i hi
      exact ⟨recs, h2, fun _ => h1, fun h => absurd h (Nat.not_lt_zero i)⟩ }

/-- One call of `ProceedMetrics` in a second run: the call at ordinal `j`
succeeds, extends the buffer at ordinal 0 and adds the records of the cursor
at the end of the file of ordinal `j`. -/
theorem ProceedMetrics_step2 (self0 s : TMetricsPlotCalcer V S) (pool1 pool2 : TPool V)
    (j it : Nat) (hna : HasNonAdditiveMetric self0 = true)
    (hsupp : ∀ m ∈ self0.Metrics, MetricSupported pool2 pool2.Docs.Target m)
    (hdim : 1 ≤ self0.Model.ApproxDimension)
    (hcur : IsShape self0.Model.ApproxDimension pool2.Docs.DocCount (cursorAt self0 pool2 j))
    (hinv : RunInv2 self0 pool1 pool2 j s)
    (hjB : j < batchCount self0.First self0.Last self0.Step + 1)
    (hj : j + 1 < 4294967296) :
    ∃ s1, ProceedMetrics s (cursorAt self0 pool2 j) pool2 pool2.Docs.Target
        pool2.Docs.Weight j it = .ok s1 ∧
      RunInv2 self0 pool1 pool2 (j + 1) s1 := by
  have hres : resize s.MetricPlots s.Metrics.length [] = s.MetricPlots :=
    resize_of_length_eq _ _ _ (by rw [hinv.plots.1, hinv.metrics])
  have hnolt : ¬ s.Iterations.length < j + 1 := by rw [hinv.iterations]; omega
  obtain ⟨plots, hloop, hshape⟩ := ProceedMetric_loop_full s.Metrics
    (cursorAt self0 pool2 j) pool2 pool2.Docs.Target pool2.Docs.Weight j
    (batchCount self0.First self0.Last self0.Step + 1) s.MetricPlots
    (by rw [hinv.metrics]; exact hinv.plots) hjB (by rw [hinv.metrics]; exact hsupp)
  have hnas : ∀ its ps, HasNonAdditiveMetric
      ({ s with MetricPlots := ps, Iterations := its } : TMetricsPlotCalcer V S) = true :=
    fun _ _ => (HasNonAdditiveMetric_congr s self0 hinv.metrics).trans hna
  obtain ⟨recs1, hr1, hge, hlt⟩ := hinv.files j hjB
  have hfj := hge (Nat.le_refl j)
  unfold ProceedMetrics
  simp only [ui32_of_lt hj, hres, if_neg hnolt, hloop, hnas, if_true]
  by_cases hj0 : j = 0
  · subst hj0
    simp only [if_true]
    obtain ⟨s2, hs2, hfiles2⟩ : ∃ s2 : TMetricsPlotCalcer V S,
        s2 = { s with
            MetricPlots := plots
            NonAdditiveMetricsData :=
              { s.NonAdditiveMetricsData with
                Target := s.NonAdditiveMetricsData.Target ++ pool2.Docs.Target
                Weights := s.NonAdditiveMetricsData.Weights ++ pool2.Docs.Weight } } ∧
        s2.NonAdditiveMetricsData.ApproxFiles[0]? = some (some 0) :=
      ⟨_, rfl, by simp [hinv.approxFiles]⟩
    obtain ⟨recs, hrecs, hsave⟩ := SaveApproxToFile_spec s2 s2 0 0 (cursorAt self0 pool2 0)
      (GetApproxFileName_named s2 0 0 hfiles2 hj) hdim hcur
    rw [hs2] at hsave
    refine ⟨_, hsave, ?_⟩
    exact
      { model := hinv.model, first := hinv.first, last := hinv.last, step := hinv.step
        metrics := hinv.metrics
        iterations := hinv.iterations
        plots := by rw [← hinv.metrics]; exact hshape
        target := by simp [hinv.target]
        weights := by simp [hinv.weights]
        approxFiles := hinv.approxFiles
        files := fun i hi => by
          obtain ⟨r1, h1, h2, h3⟩ := hinv.files i hi
          by_cases hi0 : i = 0
          · subst hi0
            refine ⟨recs1, hr1, fun h => absurd h (by omega), fun _ => ⟨recs, hrecs, ?_⟩⟩
            simp [hfj]
          · refine ⟨r1, h1, fun _ => ?_, fun h => absurd h (by omega)⟩
            simp [hi0, h2 (Nat.zero_le i)] }
  · simp only [if_neg hj0]
    obtain ⟨s2, hs2, hfiles2⟩ : ∃ s2 : TMetricsPlotCalcer V S,
        s2 = { s with MetricPlots := plots } ∧
        s2.NonAdditiveMetricsData.ApproxFiles[j]? = some (some j) :=
      ⟨_, rfl, by
        simp only [hinv.approxFiles]
        rw [List.getElem?_map, List.getElem?_range hjB]
        rfl⟩
    obtain ⟨recs, hrecs, hsave⟩ := SaveApproxToFile_spec s2 s2 j j (cursorAt self0 pool2 j)
      (GetApproxFileName_named s2 j j hfiles2 hj) hdim hcur
    rw [hs2] at hsave
    refine ⟨_, hsave, ?_⟩
    exact
      { model := hinv.model, first := hinv.first, last := hinv.last, step := hinv.step
        metrics := hinv.metrics
        iterations := hinv.iterations
        plots := by rw [← hinv.metrics]; exact hshape
        target := by simp [hinv.target, hj0]
        weights := by simp [hinv.weights, hj0]
        approxFiles := hinv.approxFiles
        files := fun i hi => by
          obtain ⟨r1, h1, h2, h3⟩ := hinv.files i hi
          by_cases hij : i = j
          · subst hij
            refine ⟨recs1, hr1, fun h => absurd h (by omega), fun _ => ⟨recs, hrecs, ?_⟩⟩
            simp [hfj]
          · refine ⟨r1, h1, fun h => ?_, fun h => ?_⟩
            · simp [hij, h2 (by omega)]
            · obtain ⟨r2, h4, h5⟩ := h3 (by omega)
              exact ⟨r2, h4, by simp [hij, h5]⟩ }

end SecondRun2

section SecondRun3
variable {V S : Type} [Zero V] [Add V] [Zero S] [Add S]

/-- The loop of `ProceedDataSet` in a second run, from the test of pass `j` to
its exit. -/
theorem ProceedDataSetLoop_run2 (self0 : TMetricsPlotCalcer V S) (pool1 pool2 : TPool V)
    (hna : HasNonAdditiveMetric self0 = true)
    (hsupp : ∀ m ∈ self0.Metrics, MetricSupported pool2 pool2.Docs.Target m)
    (hdim : 1 ≤ self0.Model.ApproxDimension)
    (happl : ∀ b e, IsShape self0.Model.ApproxDimension pool2.Docs.DocCount
      (self0.Model.ApplyModelMulti pool2 b e))
    (hs : 1 ≤ self0.Step) (hw : self0.Last + self0.Step < 4294967296) :
    ∀ (n j fuel : Nat) (st : TScan V S),
      j + n = batchCount self0.First self0.Last self0.Step → n + 1 ≤ fuel →
      ScanInv2 self0 pool1 pool2 j st →
      ∃ st1, ProceedDataSetLoop pool2 fuel (self0.First + j * self0.Step) st = some (.ok st1) ∧
        ScanInv2 self0 pool1 pool2 (batchCount self0.First self0.Last self0.Step) st1 := by
  intro n
  induction n with
  | zero =>
    intro j fuel st hj hfuel hinv
    obtain ⟨fuel1, rfl⟩ : ∃ f, fuel = f + 1 := ⟨fuel - 1, by omega⟩
    have hnot : ¬ self0.First + j * self0.Step < st.self.Last := by
      rw [hinv.calcer.last, ← batch_lt_iff _ _ _ _ hs]
      omega
    have hjB : j = batchCount self0.First self0.Last self0.Step := by omega
    refine ⟨st, ?_, hjB ▸ hinv⟩
    rw [ProceedDataSetLoop, if_neg hnot]
  | succ n ih =>
    intro j fuel st hj hfuel hinv
    obtain ⟨fuel1, rfl⟩ : ∃ f, fuel = f + 1 := ⟨fuel - 1, by omega⟩
    have hjlt : j < batchCount self0.First self0.Last self0.Step := by omega
    have hlt0 := (batch_lt_iff _ _ _ _ hs).mp hjlt
    have hlt : self0.First + j * self0.Step < st.self.Last := by
      rw [hinv.calcer.last]; exact hlt0
    have hB := batchCount_le self0.First self0.Last self0.Step hs
    have hj1 : j + 1 < 4294967296 := by omega
    obtain ⟨s1, hpm, hinv1⟩ := ProceedMetrics_step2 self0 st.self pool1 pool2 j
      (checkpointIter self0.First self0.Last self0.Step j) hna hsupp hdim
      (cursorAt_shape self0 pool2 happl j) hinv.calcer (by omega) hj1
    have hnext : ui32 (self0.First + j * self0.Step + self0.Step)
        = self0.First + (j + 1) * self0.Step := by
      rw [ui32_of_lt (by omega)]
      ring
    have hend : min st.self.Last (ui32 (self0.First + j * self0.Step + st.self.Step))
        = batchEnd self0.First self0.Last self0.Step j := by
      rw [hinv.calcer.last, hinv.calcer.step, hnext]
      rfl
    have happ : Append
        (ApplyBatch s1.Model pool2 (self0.First + j * self0.Step)
          (batchEnd self0.First self0.Last self0.Step j)) (cursorAt self0 pool2 j)
        = .ok (cursorAt self0 pool2 (j + 1)) := by
      rw [Append_eq hdim (by rw [hinv1.model]; exact happl _ _)
        (cursorAt_shape self0 pool2 happl j), hinv1.model]
      rfl
    have hinv2 : ScanInv2 self0 pool1 pool2 (j + 1)
        { self := s1
          cursor := cursorAt self0 pool2 (j + 1)
          currentIter := batchEnd self0.First self0.Last self0.Step j
          idx := ui32 (j + 1)
          calls := st.calls ++
            [TCall.proceedMetrics (cursorAt self0 pool2 j) j
                (checkpointIter self0.First self0.Last self0.Step j),
              TCall.applyModelMulti (self0.First + j * self0.Step)
                (batchEnd self0.First self0.Last self0.Step j),
              TCall.append (ApplyBatch s1.Model pool2 (self0.First + j * self0.Step)
                (batchEnd self0.First self0.Last self0.Step j))]
          states := st.states ++ [s1] } :=
      { calcer := hinv1
        cursor := rfl
        currentIter := by simp [checkpointIter]
        idx := ui32_of_lt (by omega)
        calls := by
          simp only [hinv.calls, callsUpTo, batchStart, hinv1.model] }
    obtain ⟨st1, hloop, hfin⟩ := ih (j + 1) fuel1 _ (by omega) (by omega) hinv2
    refine ⟨st1, ?_, hfin⟩
    rw [ProceedDataSetLoop, if_pos hlt]
    simp only [hend, hinv.cursor, hinv.idx, hinv.currentIter, hpm, happ, hinv1.step, hnext]
    exact hloop

/-- A second run of `ProceedDataSet`, on the calculator `s` that a run on
`pool1` has left: it returns, with every checkpoint file holding the records
of the first run followed by those of the second, and the buffer holding the
targets of the first dataset followed by those of the second. -/
theorem ProceedDataSet_run2 (ensure : TMetricsPlotCalcer V S → Except TError Unit)
    (self0 s : TMetricsPlotCalcer V S) (pool1 pool2 : TPool V)
    (hna : HasNonAdditiveMetric self0 = true)
    (hsupp : ∀ m ∈ self0.Metrics, MetricSupported pool2 pool2.Docs.Target m)
    (hdim : 1 ≤ self0.Model.ApproxDimension)
    (happl : ∀ b e, IsShape self0.Model.ApproxDimension pool2.Docs.DocCount
      (self0.Model.ApplyModelMulti pool2 b e))
    (hs : 1 ≤ self0.Step) (hw : self0.Last + self0.Step < 4294967296)
    (hinv0 : RunInv2 self0 pool1 pool2 0 s)
    (hens : ensure s = .ok ()) (fuel : Nat)
    (hfuel : batchCount self0.First self0.Last self0.Step + 1 ≤ fuel) :
    ∃ st, ProceedDataSet ensure fuel s pool2 = some (.ok st) ∧
      RunInv2 self0 pool1 pool2 (batchCount self0.First self0.Last self0.Step + 1) st.self ∧
      st.calls = callsUpTo self0 pool2 (batchCount self0.First self0.Last self0.Step) ++
        [TCall.proceedMetrics
          (cursorAt self0 pool2 (batchCount self0.First self0.Last self0.Step))
          (batchCount self0.First self0.Last self0.Step)
          (checkpointIter self0.First self0.Last self0.Step
            (batchCount self0.First self0.Last self0.Step))] := by
  have hinit : ScanInv2 self0 pool1 pool2 0
      { self := s
        cursor := List.replicate s.Model.ApproxDimension
          (List.replicate pool2.Docs.DocCount 0)
        currentIter := 0, idx := 0, calls := [], states := [] } :=
    { calcer := hinv0
      cursor := by simp only [hinv0.model]; rfl
      currentIter := rfl
      idx := rfl
      calls := rfl }
  obtain ⟨st1, hloop, hinv⟩ := ProceedDataSetLoop_run2 self0 pool1 pool2 hna hsupp hdim happl
    hs hw (batchCount self0.First self0.Last self0.Step) 0 fuel _ (by omega) hfuel hinit
  have hB := batchCount_le self0.First self0.Last self0.Step hs
  obtain ⟨s1, hpm, hinv1⟩ := ProceedMetrics_step2 self0 st1.self pool1 pool2 _
    (checkpointIter self0.First self0.Last self0.Step
      (batchCount self0.First self0.Last self0.Step)) hna hsupp hdim
    (cursorAt_shape self0 pool2 happl _) hinv.calcer (Nat.lt_succ_self _) (by omega)
  simp only [Nat.zero_mul, Nat.add_zero] at hloop
  refine ⟨{ st1 with
            self := s1
            calls := st1.calls ++ [TCall.proceedMetrics st1.cursor st1.idx st1.currentIter]
            states := st1.states ++ [s1] }, ?_, hinv1, ?_⟩
  · unfold ProceedDataSet
    simp only [hens, hinv0.first, hloop]
    rw [hinv.cursor, hinv.idx, hinv.currentIter, hpm]
  · simp only [hinv.calls, hinv.cursor, hinv.idx, hinv.currentIter]

omit [Zero S] [Add S] in
/-- The file of a checkpoint after the two runs is loaded as the cursor of
the first run followed, column-wise, by the cursor of the second. -/
theorem LoadApprox_run2 (self0 s : TMetricsPlotCalcer V S) (pool1 pool2 : TPool V)
    (hdim : 1 ≤ self0.Model.ApproxDimension)
    (happl1 : ∀ b e, IsShape self0.Model.ApproxDimension pool1.Docs.DocCount
      (self0.Model.ApplyModelMulti pool1 b e))
    (happl2 : ∀ b e, IsShape self0.Model.ApproxDimension pool2.Docs.DocCount
      (self0.Model.ApplyModelMulti pool2 b e))
    (hdocs1 : pool1.Docs.Target.length = pool1.Docs.DocCount)
    (hdocs2 : pool2.Docs.Target.length = pool2.Docs.DocCount)
    (hw : batchCount self0.First self0.Last self0.Step + 1 < 4294967296)
    (hinv : RunInv2 self0 pool1 pool2 (batchCount self0.First self0.Last self0.Step + 1) s)
    (k : Nat) (hk : k < batchCount self0.First self0.Last self0.Step + 1) :
    LoadApprox s k
      = .ok (appendColumns (cursorAt self0 pool1 k) (cursorAt self0 pool2 k), s) := by
  obtain ⟨recs1, hr1, -, hlt⟩ := hinv.files k hk
  obtain ⟨recs2, hr2, hfile⟩ := hlt hk
  have hsh1 := cursorAt_shape self0 pool1 happl1 k
  have hsh2 := cursorAt_shape self0 pool2 happl2 k
  have hrec := IsRecordsOf_append hdim hsh1 hsh2 hr1 hr2
  have hname : s.NonAdditiveMetricsData.ApproxFiles[k]? = some (some k) := by
    rw [hinv.approxFiles, List.getElem?_map, List.getElem?_range hk]
    rfl
  have htl : s.NonAdditiveMetricsData.Target.length
      = pool1.Docs.DocCount + pool2.Docs.DocCount := by
    rw [hinv.target, if_neg (Nat.succ_ne_zero _), List.length_append, hdocs1, hdocs2]
  refine LoadApprox_spec s s k k _ (recs1 ++ recs2)
    (GetApproxFileName_named s k k hname (by omega)) hfile ?_ hrec.2 ?_
  · rw [hrec.1, headD_length_of_shape (appendColumns_shape hsh1 hsh2) hdim, htl]
  · rw [hinv.model, htl]
    exact appendColumns_shape hsh1 hsh2

end SecondRun3

section Concatenation
variable {V S : Type} [Zero V] [Add V] [Zero S] [Add S]

/-- C20 (spill files concatenate across datasets).  First part, on any
calculator whose model has `D >= 1` output dimensions and whose buffer holds
`n1 + n2` targets: saving a `D x n1` matrix `a` and then a `D x n2` matrix `b`
under a checkpoint ordinal that had no file, and loading that ordinal, returns
the `D x (n1 + n2)` matrix whose columns are those of `a` followed by those of
`b`.  Second part, for a calculator with a non-additive metric under the
conditions `RunOk` for the first dataset, a second dataset that supports the
metrics and on which the applier returns `D x docCount` matrices, datasets
whose target vectors have one entry per document, and `EnsureCorrectParams`
accepting both calls: the two runs of `ProceedDataSet` return; the buffers
hold the targets and the weights of the first dataset followed by those of the
second; and for every checkpoint `k` the snapshot loaded from its file is the
cursor handed to `ProceedMetrics` at `k` in the first run followed,
column-wise, by the one of the second run, so that column `j` of the snapshot
and entry `j` of the target buffer belong to document `j` of the first dataset
for `j` below its document count and to document `j - docCount` of the second
dataset above. -/
theorem C20_spill_concatenation (ensure : TMetricsPlotCalcer V S → Except TError Unit)
    (self : TMetricsPlotCalcer V S) (pool1 pool2 : TPool V)
    (hs : 1 ≤ self.Step) (hw : self.Last + self.Step < 4294967296)
    (hok : RunOk self pool1)
    (hsupp2 : ∀ m ∈ self.Metrics, MetricSupported pool2 pool2.Docs.Target m)
    (happl2 : ∀ b e, IsShape self.Model.ApproxDimension pool2.Docs.DocCount
      (self.Model.ApplyModelMulti pool2 b e))
    (hna : HasNonAdditiveMetric self = true)
    (hdocs1 : pool1.Docs.Target.length = pool1.Docs.DocCount)
    (hdocs2 : pool2.Docs.Target.length = pool2.Docs.DocCount)
    (fuel : Nat) (hfuel : batchCount self.First self.Last self.Step + 1 ≤ fuel)
    (hens1 : ensure self = .ok ())
    (hens2 : ∀ st1, ProceedDataSet ensure fuel self pool1 = some (.ok st1) →
      ensure st1.self = .ok ()) :
    (∀ (calcer : TMetricsPlotCalcer V S) (k n1 n2 : Nat) (a b : TMatrix V),
      1 ≤ calcer.Model.ApproxDimension →
      IsShape calcer.Model.ApproxDimension n1 a →
      IsShape calcer.Model.ApproxDimension n2 b →
      calcer.NonAdditiveMetricsData.Target.length = n1 + n2 →
      (∀ path, calcer.NonAdditiveMetricsData.ApproxFiles[k]? ≠ some (some path)) →
      k + 1 < 4294967296 →
      (∃ self1 self2 self3, SaveApproxToFile calcer k a = .ok self1 ∧
        SaveApproxToFile self1 k b = .ok self2 ∧
        LoadApprox self2 k = .ok (appendColumns a b, self3)) ∧
      IsShape calcer.Model.ApproxDimension (n1 + n2) (appendColumns a b) ∧
      ∀ dim i, cell (appendColumns a b) dim i
        = if i < n1 then cell a dim i else cell b dim (i - n1)) ∧
    ∃ st1 st2, ProceedDataSet ensure fuel self pool1 = some (.ok st1) ∧
      ProceedDataSet ensure fuel st1.self pool2 = some (.ok st2) ∧
      st2.self.NonAdditiveMetricsData.Target = pool1.Docs.Target ++ pool2.Docs.Target ∧
      st2.self.NonAdditiveMetricsData.Weights = pool1.Docs.Weight ++ pool2.Docs.Weight ∧
      (∀ j, st2.self.NonAdditiveMetricsData.Target[j]?
        = if j < pool1.Docs.DocCount then pool1.Docs.Target[j]?
          else pool2.Docs.Target[j - pool1.Docs.DocCount]?) ∧
      ∀ k, k < batchCount self.First self.Last self.Step + 1 →
        (cursorsOf st1.calls)[k]? = some (cursorAt self pool1 k) ∧
        (cursorsOf st2.calls)[k]? = some (cursorAt self pool2 k) ∧
        IsShape self.Model.ApproxDimension pool1.Docs.DocCount (cursorAt self pool1 k) ∧
        IsShape self.Model.ApproxDimension pool2.Docs.DocCount (cursorAt self pool2 k) ∧
        LoadApprox st2.self k
          = .ok (appendColumns (cursorAt self pool1 k) (cursorAt self pool2 k), st2.self) ∧
        ∀ dim j, cell (appendColumns (cursorAt self pool1 k) (cursorAt self pool2 k)) dim j
          = if j < pool1.Docs.DocCount then cell (cursorAt self pool1 k) dim j
            else cell (cursorAt self pool2 k) dim (j - pool1.Docs.DocCount) := by
  refine ⟨?_, ?_⟩
  · intro calcer k n1 n2 a b hD ha hb hcount hfresh hk
    exact ⟨Save_Save_Load calcer k n1 n2 a b hD ha hb hcount hfresh hk,
      appendColumns_shape ha hb, cell_appendColumns ha hb⟩
  · obtain ⟨st1, hrun1, hinv1, -, hcalls1, -, -, -⟩ :=
      ProceedDataSet_run ensure self pool1 hok hs hw hens1 fuel hfuel
    obtain ⟨st2, hrun2, hinv2, hcalls2⟩ := ProceedDataSet_run2 ensure self st1.self pool1
      pool2 hna hsupp2 hok.dimension happl2 hs hw
      (RunInv2_zero self st1.self pool1 pool2 hna hinv1) (hens2 st1 hrun1) fuel hfuel
    have hB := batchCount_le self.First self.Last self.Step hs
    have htarget : st2.self.NonAdditiveMetricsData.Target
        = pool1.Docs.Target ++ pool2.Docs.Target := by
      rw [hinv2.target, if_neg (Nat.succ_ne_zero _)]
    refine ⟨st1, st2, hrun1, hrun2, htarget, ?_, ?_, ?_⟩
    · rw [hinv2.weights, if_neg (Nat.succ_ne_zero _)]
    · intro j
      rw [htarget, ← hdocs1]
      by_cases hj : j < pool1.Docs.Target.length
      · rw [if_pos hj, List.getElem?_append_left hj]
      · rw [if_neg hj, List.getElem?_append_right (by omega)]
    · intro k hk
      have hsh1 := cursorAt_shape self pool1 hok.applier k
      have hsh2 := cursorAt_shape self pool2 happl2 k
      refine ⟨?_, ?_, hsh1, hsh2, ?_, cell_appendColumns hsh1 hsh2⟩
      · rw [hcalls1, cursorsOf_append, cursorsOf_callsUpTo]
        have : cursorsOf [TCall.proceedMetrics
            (cursorAt self pool1 (batchCount self.First self.Last self.Step))
            (batchCount self.First self.Last self.Step)
            (checkpointIter self.First self.Last self.Step
              (batchCount self.First self.Last self.Step))]
            = [cursorAt self pool1 (batchCount self.First self.Last self.Step)] := rfl
        rw [this, ← List.map_singleton, ← List.map_append, ← List.range_succ,
          List.getElem?_map, List.getElem?_range hk]
        rfl
      · rw [hcalls2, cursorsOf_append, cursorsOf_callsUpTo]
        have : cursorsOf [TCall.proceedMetrics
            (cursorAt self pool2 (batchCount self.First self.Last self.Step))
            (batchCount self.First self.Last self.Step)
            (checkpointIter self.First self.Last self.Step
              (batchCount self.First self.Last self.Step))]
            = [cursorAt self pool2 (batchCount self.First self.Last self.Step)] := rfl
        rw [this, ← List.map_singleton, ← List.map_append, ← List.range_succ,
          List.getElem?_map, List.getElem?_range hk]
        rfl
      · exact LoadApprox_run2 self st2.self pool1 pool2 hok.dimension hok.applier happl2
          hdocs1 hdocs2 (by omega) hinv2 k hk

end Concatenation

/-- The scenario for C20: the window `[0, 10)` in steps of 5 with one additive
and one non-additive metric, run on the four documents of the scenario and
then on a dataset of two documents.  The buffer holds the six targets, and the
snapshots of the checkpoints 1 and 2 have six columns: the four of the first
run followed by the two of the second. -/
theorem C20_spill_concatenation_witness :
    ∃ st1 st2,
      ProceedDataSet (fun _ => .ok ()) 3
          (demoCalcer 0 10 5
            [demoMetric true EErrorType.PerObjectError,
              demoMetric false EErrorType.PerObjectError]) (demoPool [])
        = some (.ok st1) ∧
      ProceedDataSet (fun _ => .ok ()) 3 st1.self demoSecondPool = some (.ok st2) ∧
      st2.self.NonAdditiveMetricsData.Target = [1, 0, 1, 0, 0, 1] ∧
      LoadApprox st2.self 1 = .ok ([[5, 5, 5, 5, 5, 5]], st2.self) ∧
      LoadApprox st2.self 2 = .ok ([[10, 10, 10, 10, 10, 10]], st2.self) := by
  obtain ⟨-, st1, st2, h1, h2, ht, -, -, hk⟩ := C20_spill_concatenation (fun _ => .ok ())
    (demoCalcer 0 10 5
      [demoMetric true EErrorType.PerObjectError, demoMetric false EErrorType.PerObjectError])
    (demoPool []) demoSecondPool (by decide) (by decide) (demo_RunOk_mixed 0 10 5)
    (by
      intro m hm
      simp only [demoCalcer, List.mem_cons, List.mem_singleton, List.not_mem_nil,
        or_false] at hm
      rcases hm with hm | hm <;> subst hm <;> simp [MetricSupported, demoMetric])
    (by
      intro b e
      simp [IsShape, demoCalcer, demoModel, demoSecondPool])
    rfl rfl rfl 3 (by decide) rfl (fun _ _ => rfl)
  obtain ⟨-, -, -, -, hload1, -⟩ := hk 1 (by decide)
  obtain ⟨-, -, -, -, hload2, -⟩ := hk 2 (by decide)
  exact ⟨st1, st2, h1, h2, ht, hload1, hload2⟩

end Plot
